import Mathlib

/-! q5Go: move numbering and the analysis overlay of `Board`.

A shallow embedding of the parts of `src/board.cpp` that number the moves
leading to the displayed position (`Board::render_svg`,
`Board::sync_appearance`) and that turn a report of the analysis engine into
the overlay tree and the per-cell arrays (`Board::gtp_eval`).

Conventions of the embedding.
* A `game_state` is a node together with its chain of ancestors, so that
  `prev_move` is structural and the history is acyclic by construction.
* C++ `int` values that are only compared, incremented or subtracted within
  the size of a game record are `Int`; array indices are `Nat`.
* An `int[]` or `double[]` of `board_size * board_size` entries is a total map
  from the linear index to the entry; the source only reads and writes indices
  of cells of the board.
* A `double` is the rational that it holds; every operation on doubles rounds
  its exact result with `round_double` (IEEE 754 binary64, to nearest, ties to
  even).
-/

namespace Q5Go

/-! ## Tree nodes as seen by the numbering walk -/

/-- The data of one tree node read by the numbering code: whether the node was
produced by a move (`was_move_p`), whether it carries the start-count flag
(`get_start_count`) and the coordinates of its move (`get_move_x`,
`get_move_y`, read only for move nodes). -/
structure node_info where
  was_move : Bool
  start_count : Bool
  move_x : Nat
  move_y : Nat
deriving DecidableEq, Repr

/-- A node of the game record with its ancestors.  The type `game_state` is
declared outside `board.cpp`; the walk uses only the accessors below, and the
parent back-reference is the second argument of `child`. -/
inductive game_state where
  | root (d : node_info)
  | child (d : node_info) (parent : game_state)
deriving DecidableEq, Repr

namespace game_state

/-- The node data. -/
def info : game_state → node_info
  | root d => d
  | child d _ => d

/-- Accessor `was_move_p ()`. -/
def was_move_p (st : game_state) : Bool := st.info.was_move

/-- Accessor `get_start_count ()`. -/
def get_start_count (st : game_state) : Bool := st.info.start_count

/-- Accessor `root_node_p ()`: the node has no parent. -/
def root_node_p : game_state → Bool
  | root _ => true
  | child _ _ => false

/-- Accessor `prev_move ()`: the parent, null at the root. -/
def prev_move : game_state → Option game_state
  | root _ => none
  | child _ p => some p

/-- Accessor `get_move_x ()`. -/
def get_move_x (st : game_state) : Nat := st.info.move_x

/-- Accessor `get_move_y ()`. -/
def get_move_y (st : game_state) : Nat := st.info.move_y

end game_state

/-- Modelled from the spec: `go_board::bitpos`, declared outside `board.cpp`;
the deterministic bijection between the cells `(x, y)` with `x, y < sz` and the
linear indices below `sz * sz`. -/
def bitpos (sz x y : Nat) : Nat := y * sz + x

/-- The local variables of the numbering code: the zero-initialised
`count_map`, the counter `n_back` and the pointer `startpos`. -/
structure numbering where
  count_map : Nat → Int
  n_back : Int
  startpos : Option game_state

/-- The state `int n_back = 0; int *count_map = new int[sz * sz]();
game_state *startpos = nullptr;` before the walk. -/
def numbering.init : numbering := ⟨fun _ => 0, 0, none⟩

/-- The loop
`while (startpos && (startpos->was_move_p () || startpos->root_node_p ()) && !startpos->get_start_count ())`
of `render_svg` (lines 446-459) and `sync_appearance` (lines 758-771), started
with `startpos` pointing at the first argument.  At the root the body sets
`startpos = nullptr` and breaks; at any other node it records
`count_map[bitpos (x, y)] = ++n_back` and steps to `prev_move ()`. -/
def history_loop (sz : Nat) : game_state → (Nat → Int) → Int → numbering
  | game_state.root d, cm, n =>
    if (d.was_move || true) && !d.start_count then
      ⟨cm, n, none⟩
    else
      ⟨cm, n, some (game_state.root d)⟩
  | game_state.child d p, cm, n =>
    if (d.was_move || false) && !d.start_count then
      history_loop sz p (Function.update cm (bitpos sz d.move_x d.move_y) (n + 1)) (n + 1)
    else
      ⟨cm, n, some (game_state.child d p)⟩

/-- The statement after the loop:
`if (startpos && !startpos->was_move_p () && !startpos->root_node_p ()) startpos = nullptr;`. -/
def clear_startpos (s : numbering) : numbering :=
  match s.startpos with
  | some st => if !st.was_move_p && !st.root_node_p then { s with startpos := none } else s
  | none => s

/-- The block guarded by
`if (numbering && !m_state->get_start_count () && m_state->was_move_p ())`,
shared by `render_svg` (lines 444-462) and `sync_appearance` (lines 756-774),
applied to the local variables `s`. -/
def history_numbering (sz : Nat) (enabled : Bool) (m_state : game_state)
    (s : numbering) : numbering :=
  if enabled && !m_state.get_start_count && m_state.was_move_p then
    clear_startpos (history_loop sz m_state s.count_map s.n_back)
  else
    s

/-- `Board::render_svg`, lines 438-462: the numbering state of an export.
`edit_board_null` is `m_edit_board == nullptr`. -/
def render_svg_numbering (sz : Nat) (do_number edit_board_null : Bool)
    (m_state : game_state) : numbering :=
  history_numbering sz (do_number && edit_board_null) m_state numbering.init

/-- `Board::render_svg`, lines 550 and 559-560: the value `v` handed to
`add_mark_svg` as `count_val` for the cell with linear index `bp`; zero means
that no number is drawn. -/
def render_svg_v (s : numbering) (bp : Nat) : Int :=
  let v := if s.startpos.isNone then 0 else s.count_map bp
  if v > 0 then s.n_back - v + 1 else v

/-- `Board::sync_appearance` without an overlay (`m_eval_state == nullptr`),
lines 696 and 725-775: `numbering` is `!have_analysis && m_edit_board == nullptr`
and the analysis block is skipped. -/
def sync_appearance_numbering (sz : Nat) (edit_board_null : Bool)
    (m_state : game_state) : numbering :=
  history_numbering sz (true && edit_board_null) m_state numbering.init

/-- `Board::sync_appearance`, lines 789 and 858-859: the value `v` handed to
`add_mark_svg` as `count_val` for the cell with linear index `bp`. -/
def sync_appearance_v (s : numbering) (bp : Nat) : Int :=
  let v := if s.startpos.isSome then s.count_map bp else 0
  if v > 0 && s.n_back != 0 then s.n_back - v + 1 else v

/-- The node reached from `base` by playing the moves `ms` in order, none of
them carrying start-count: the last element of `ms` is the move of the
resulting node. -/
def play_moves (base : game_state) : List (Nat × Nat) → game_state
  | [] => base
  | m :: ms => play_moves (game_state.child ⟨true, false, m.1, m.2⟩ base) ms

/-- The walk stops at this node without numbering it: it is the root, carries
start-count, or is not a move node. -/
def stops_walk (base : game_state) : Bool :=
  base.root_node_p || base.get_start_count || !base.was_move_p

/-- The empty root of a game record. -/
def empty_root : game_state := game_state.root ⟨false, false, 0, 0⟩

/-- The end-to-end example: (4,4) then (15,15) on an empty 19x19 root. -/
def example_game : game_state := play_moves empty_root [(4, 4), (15, 15)]

/-- The writes `count_map[bitpos (x, y)] = ++n_back` of the loop over a run of
moves listed nearest first, starting from the map `cm` and the counter `n`. -/
def record_moves (sz : Nat) : List (Nat × Nat) → (Nat → Int) → Int → (Nat → Int)
  | [], cm, _ => cm
  | m :: rest, cm, n =>
    record_moves sz rest (Function.update cm (bitpos sz m.1 m.2) (n + 1)) (n + 1)

/-- An edit node carrying start-count, hung under the empty root. -/
def edit_boundary : game_state := game_state.child ⟨false, true, 0, 0⟩ empty_root

/-- A move node at (2,2) carrying start-count, hung under the empty root. -/
def move_boundary : game_state := game_state.child ⟨true, true, 2, 2⟩ empty_root

/-! ## The analysis overlay: `Board::gtp_eval` -/

/-- The marks of a cell (`enum class mark`, declared outside `board.cpp`). -/
inductive mark where
  | none | move | triangle | circle | cross | square | num | letter | text | terr
  | falseeye | seki
deriving DecidableEq, Repr

/-- `QChar::isSpace` on the characters that `QString::toInt` skips around a
number. -/
def is_space (c : Char) : Bool :=
  (9 ≤ c.toNat && c.toNat ≤ 13) || c.toNat == 32 || c.toNat == 133 || c.toNat == 160
    || c.toNat == 5760 || (8192 ≤ c.toNat && c.toNat ≤ 8202) || c.toNat == 8232
    || c.toNat == 8233 || c.toNat == 8239 || c.toNat == 8287 || c.toNat == 12288

/-- The value of a run of decimal digits read from the left, `acc` being the
value read so far; `none` at the first character that is not a digit. -/
def parse_digits : List Char → Nat → Option Nat
  | [], acc => some acc
  | c :: rest, acc =>
    if 48 ≤ c.toNat && c.toNat ≤ 57 then parse_digits rest (10 * acc + (c.toNat - 48))
    else none

/-- The signed value of a string made of an optional sign and at least one
decimal digit; `none` for every other string. -/
def parse_signed : List Char → Option Int
  | [] => none
  | c :: rest =>
    if c = '-' then
      if rest.isEmpty then none else (parse_digits rest 0).map (fun n => -(n : Int))
    else if c = '+' then
      if rest.isEmpty then none else (parse_digits rest 0).map (fun n => (n : Int))
    else (parse_digits (c :: rest) 0).map (fun n => (n : Int))

/-- Library function `QString::toInt ()` (base 10, C locale): white space
around the number is skipped, and the result is 0 when the conversion fails,
which includes a value outside the range of `int`. -/
def QString_toInt (s : List Char) : Int :=
  match parse_signed ((s.dropWhile is_space).reverse.dropWhile is_space).reverse with
  | some v => if -2147483648 ≤ v ∧ v ≤ 2147483647 then v else 0
  | none => 0

/-- Library function `QString::number (n)` for a natural number: its decimal
digits, most significant first. -/
def QString_number (n : Nat) : List Char :=
  if n = 0 then [Nat.digitChar 0] else ((Nat.digits 10 n).reverse.map Nat.digitChar)

/-- Library function `QChar::toLatin1 ()` as a (signed) `char` widened to
`int`: the code of a Latin-1 character, 0 for every other character. -/
def toLatin1 (c : Char) : Int :=
  if c.toNat < 128 then c.toNat else if c.toNat < 256 then (c.toNat : Int) - 256 else 0

/-- Lines 1663-1667 of `gtp_eval`: `int i = sx.toLatin1 () - 'A'; if (i > 7) i--;`. -/
def pv_column (sx : Char) : Int :=
  let i := toLatin1 sx - 65
  if i > 7 then i - 1 else i

/-- Line 1668 of `gtp_eval`: `int j = board_size - pm.mid (1).toInt ();`. -/
def pv_row (board_size : Nat) (rest : List Char) : Int :=
  (board_size : Int) - QString_toInt rest

/-- Lines 1663-1669 of `gtp_eval`: the cell of a PV token `pm`, or `none` when
the test `i >= 0 && i < board_size && j >= 0 && j < board_size` fails.  Tokens
come from a split that skips empty parts, so `pm[0]` exists. -/
def decode_pv_move (board_size : Nat) : List Char → Option (Nat × Nat)
  | [] => none
  | sx :: rest =>
    let i := pv_column sx
    let j := pv_row board_size rest
    if i ≥ 0 ∧ i < board_size ∧ j ≥ 0 ∧ j < board_size then some (i.toNat, j.toNat)
    else none

/-- The quotient `a / b` of two positive naturals rounded to the nearest
rational with a significand of 53 bits, ties to the even significand.  `e` is
the exponent of `a / b` (the integer with `2^e ≤ a / b < 2^(e+1)`),
`s = 52 - e` the shift that brings the significand into [2^52, 2^53), `n` and
`r` the quotient and the remainder that decide the rounding. -/
def round_ratio (a b : Nat) : ℚ :=
  let e0 : Int := (Nat.log2 a : Int) - (Nat.log2 b : Int)
  let e : Int :=
    if 0 ≤ e0 then (if b * 2 ^ e0.toNat ≤ a then e0 else e0 - 1)
    else (if b ≤ a * 2 ^ (-e0).toNat then e0 else e0 - 1)
  let s : Int := 52 - e
  let N : Nat := if 0 ≤ s then a * 2 ^ s.toNat else a
  let D : Nat := if 0 ≤ s then b else b * 2 ^ (-s).toNat
  let n : Nat := N / D
  let r : Nat := N % D
  let n2 : Nat :=
    if 2 * r < D then n else if D < 2 * r then n + 1 else if n % 2 = 0 then n else n + 1
  if 0 ≤ s then (n2 : ℚ) / (2 ^ s.toNat : Nat) else (n2 : ℚ) * (2 ^ (-s).toNat : Nat)

/-- The arithmetic of `double`: the rational `q` rounded to the nearest value
of IEEE 754 binary64, ties to even.  The exponent range is not modelled: the
values of `gtp_eval` are quotients by 10000 of an `int` and their differences,
far from overflow and from the subnormal numbers. -/
def round_double (q : ℚ) : ℚ :=
  if q = 0 then 0
  else if q < 0 then - round_ratio q.num.natAbs q.den
  else round_ratio q.num.natAbs q.den

/-- One piece of the report for which the regular expression of line 1643
matched: `visits` is `re.cap (2).toInt ()`, `winrate` is `re.cap (3).toInt ()`
and `pv` is `re.cap (6)` split at blanks, empty parts skipped. -/
structure candidate where
  move : List Char
  visits : Nat
  winrate : Nat
  pv : List (List Char)
deriving DecidableEq, Repr

/-- The overlay tree `m_eval_state`: the position of its root (a copy of the
board and the colour to move of the active node), the marks of the root board,
and the children of the root in insertion order, each child being the head of a
chain of single-child nodes, listed by their moves. -/
structure overlay (P : Type) where
  position : P
  marks : Nat → Nat → mark × Int
  children : List (List (Nat × Nat))

/-- The members of `Board` that `gtp_eval` reads and writes. -/
structure eval_data (P : Type) where
  m_eval_state : Option (overlay P)
  m_winrate : Nat → ℚ
  m_visits : Nat → Int
  m_primary_eval : ℚ

/-- The variables of the loop over the pieces of a report: the overlay under
construction, the two arrays, the baseline and the counter `count`. -/
structure eval_loop (P : Type) where
  tree : overlay P
  m_winrate : Nat → ℚ
  m_visits : Nat → Int
  m_primary_eval : ℚ
  count : Int

/-- Lines 1660-1685, the nodes: starting at `cur`, each token that decodes
inside the board is handed to `add_child_move`; the chain ends at the first
token outside the board (`break`), at the first move for which
`add_child_move` returns null, or with the tokens.

Modelled from the spec: `game_state::add_child_move`, declared outside
`board.cpp`, is the parameter `add_child_move`: it fails (`none`) when the move
is illegal in the position and otherwise appends a new child and returns its
position. -/
def pv_chain {P : Type} (add_child_move : P → Nat → Nat → Option P) (board_size : Nat) :
    P → List (List Char) → List (Nat × Nat)
  | _, [] => []
  | cur, pm :: rest =>
    match decode_pv_move board_size pm with
    | none => []
    | some c =>
      match add_child_move cur c.1 c.2 with
      | none => []
      | some next => c :: pv_chain add_child_move board_size next rest

/-- Lines 1670-1676, the writes for the first token of a PV (`pv_first`): the
letter mark with extra value `count` on the overlay root and the two array
entries at the cell of the token; `m_winrate[bp] = wr - m_primary_eval` (line
1674) is a subtraction of doubles. -/
def mark_first {P : Type} (board_size : Nat) (wr : ℚ) (visits : Nat) (c : Nat × Nat)
    (s : eval_loop P) : eval_loop P :=
  { s with
    tree := { s.tree with
      marks := fun x y => if x = c.1 ∧ y = c.2 then (mark.letter, s.count) else s.tree.marks x y }
    m_winrate := Function.update s.m_winrate (bitpos board_size c.1 c.2)
      (round_double (wr - s.m_primary_eval))
    m_visits := Function.update s.m_visits (bitpos board_size c.1 c.2) visits }

/-- Lines 1659-1686: the body of
`if (count < 52 && (!prune || pvmoves.length () > 1 || visits >= 2))`. -/
def add_candidate {P : Type} (add_child_move : P → Nat → Nat → Option P) (board_size : Nat)
    (wr : ℚ) (visits : Nat) (pv : List (List Char)) (s : eval_loop P) : eval_loop P :=
  match pv with
  | [] => s
  | pm :: _ =>
    match decode_pv_move board_size pm with
    | none => s
    | some c =>
      let s1 := mark_first board_size wr visits c s
      match pv_chain add_child_move board_size s.tree.position pv with
      | [] => s1
      | chain => { s1 with tree := { s1.tree with children := s1.tree.children ++ [chain] } }

/-- Line 1659: the test that guards the body for one record. -/
def retained (prune : Bool) (count : Int) (r : candidate) : Bool :=
  decide (count < 52) && (!prune || decide (r.pv.length > 1) || decide (r.visits ≥ 2))

/-- Lines 1646-1687: one pass of the loop for a piece that matched, up to and
including `count++`.  `double wr = winrate / 10000.` (line 1650) is a division
of doubles.  The calls to `set_eval` and `qDebug` only report and are left
out. -/
def gtp_eval_record {P : Type} (add_child_move : P → Nat → Nat → Option P)
    (board_size : Nat) (prune : Bool) (r : candidate) (s : eval_loop P) : eval_loop P :=
  let wr : ℚ := round_double ((r.winrate : ℚ) / 10000)
  let s1 := if s.count = 0 then { s with m_primary_eval := wr } else s
  let s2 := if retained prune s1.count r then
      add_candidate add_child_move board_size wr r.visits r.pv s1
    else s1
  { s2 with count := s2.count + 1 }

/-- Lines 1641-1690: the loop `for (auto &e: moves)`.  A piece that does not
match (`none`) is passed over by `continue`; after a matching piece the loop
ends when `an_maxmoves > 0 && count == an_maxmoves`. -/
def gtp_eval_loop {P : Type} (add_child_move : P → Nat → Nat → Option P)
    (board_size : Nat) (prune : Bool) (an_maxmoves : Int) :
    List (Option candidate) → eval_loop P → eval_loop P
  | [], s => s
  | none :: rest, s => gtp_eval_loop add_child_move board_size prune an_maxmoves rest s
  | some r :: rest, s =>
    let s1 := gtp_eval_record add_child_move board_size prune r s
    if an_maxmoves > 0 ∧ s1.count = an_maxmoves then s1
    else gtp_eval_loop add_child_move board_size prune an_maxmoves rest s1

/-- `Board::gtp_eval` (lines 1621-1692) up to the call of `sync_appearance`.
`right_button` is `mouseState == Qt::RightButton`, `moves` the pieces of the
report (`none` for a piece that the regular expression does not match),
`active` and `active_marks` the position and the marks of the board of
`m_state`.  The old overlay is deleted and a new root is made from the active
board; the arrays are not touched before the loop. -/
def gtp_eval {P : Type} (add_child_move : P → Nat → Nat → Option P) (board_size : Nat)
    (right_button prune : Bool) (an_maxmoves : Int) (active : P)
    (active_marks : Nat → Nat → mark × Int) (moves : List (Option candidate))
    (b : eval_data P) : eval_data P :=
  if right_button then b
  else if moves.isEmpty then b
  else
    let s := gtp_eval_loop add_child_move board_size prune an_maxmoves moves
      ⟨⟨active, active_marks, []⟩, b.m_winrate, b.m_visits, 1 / 2, 0⟩
    ⟨some s.tree, s.m_winrate, s.m_visits, s.m_primary_eval⟩

/-- A simple instance of the position contract for examples: a position is the
list of occupied cells, and a move is rejected exactly on an occupied cell. -/
def occupied_rule (p : List (Nat × Nat)) (x y : Nat) : Option (List (Nat × Nat)) :=
  if (x, y) ∈ p then none else some ((x, y) :: p)

/-- A board without marks. -/
def no_marks : Nat → Nat → mark × Int := fun _ _ => (mark.none, 0)

/-- The members of `Board` after the arrays were allocated (all zero) and
before any report arrived. -/
def fresh_eval : eval_data (List (Nat × Nat)) := ⟨none, fun _ => 0, fun _ => 0, 0⟩

/-- The cell of the first PV token of a record, when it decodes inside the
board: the cell where the record is marked and entered in the arrays. -/
def first_cell (board_size : Nat) (r : candidate) : Option (Nat × Nat) :=
  r.pv.head?.bind (decode_pv_move board_size)

/-- The records of a report for which the loop enters the body of line 1659,
`count` being the value of the counter when the loop reaches the list: the
retained candidates, in the order of the report. -/
def retained_records (prune : Bool) (an_maxmoves : Int) :
    List (Option candidate) → Int → List candidate
  | [], _ => []
  | none :: rest, count => retained_records prune an_maxmoves rest count
  | some r :: rest, count =>
    (if retained prune count r then [r] else [])
      ++ (if an_maxmoves > 0 ∧ count + 1 = an_maxmoves then []
          else retained_records prune an_maxmoves rest (count + 1))

/-- The cells of the longest run of leading PV tokens that all decode inside
the board. -/
def longest_in_board (board_size : Nat) : List (List Char) → List (Nat × Nat)
  | [] => []
  | pm :: rest =>
    match decode_pv_move board_size pm with
    | none => []
    | some c => c :: longest_in_board board_size rest

/-- The position reached from `cur` by `add_child_move` along the cells `cs`,
`none` when one of the moves is rejected. -/
def play_all {P : Type} (add_child_move : P → Nat → Nat → Option P) :
    P → List (Nat × Nat) → Option P
  | cur, [] => some cur
  | cur, c :: cs =>
    match add_child_move cur c.1 c.2 with
    | none => none
    | some next => play_all add_child_move next cs

/-- The 25 column letters of a board, `A` to `Z` without `I`. -/
def column_letters : List Char :=
  ['A', 'B', 'C', 'D', 'E', 'F', 'G', 'H', 'J', 'K', 'L', 'M', 'N', 'O', 'P', 'Q', 'R',
   'S', 'T', 'U', 'V', 'W', 'X', 'Y', 'Z']

/-- A primary candidate at D4 with winrate 5000 and a PV of two moves. -/
def cand_primary : candidate := ⟨['D', '4'], 100, 5000, [['D', '4'], ['Q', '1', '6']]⟩

/-- A second candidate at Q4 with winrate 6000. -/
def cand_second : candidate := ⟨['Q', '4'], 40, 6000, [['Q', '4'], ['D', '1', '6']]⟩

/-- A single-move candidate at C3 with one visit. -/
def cand_single : candidate := ⟨['C', '3'], 1, 4000, [['C', '3']]⟩

/-- A candidate whose PV repeats its first move, which the position rejects
the second time. -/
def cand_repeat : candidate := ⟨['D', '4'], 10, 5000, [['D', '4'], ['D', '4'], ['Q', '4']]⟩

/-- A candidate whose first PV token lies outside a 19x19 board. -/
def cand_outside : candidate := ⟨['Z', '1'], 10, 5000, [['Z', '1'], ['D', '4']]⟩

/-- A candidate at D4, the cell of `cand_primary`, with 7 visits and winrate
6000. -/
def cand_same_cell : candidate := ⟨['D', '4'], 7, 6000, [['D', '4'], ['Q', '4']]⟩

/-- A candidate whose second PV token lies outside a 19x19 board. -/
def cand_cut : candidate := ⟨['D', '4'], 10, 5000, [['D', '4'], ['Z', '1'], ['Q', '4']]⟩

/-- An `add_child_move` that accepts every move: the position is the list of
the moves played, the last one first. -/
def free_rule (p : List (Nat × Nat)) (x y : Nat) : Option (List (Nat × Nat)) :=
  some ((x, y) :: p)

/-- The loop variables at the start of the loop on an empty position without
marks, the arrays being all zero. -/
def fresh_loop : eval_loop (List (Nat × Nat)) :=
  ⟨⟨[], no_marks, []⟩, fun _ => 0, fun _ => 0, 1 / 2, 0⟩

/-- The members of `Board` after a first report with the candidates D4 (primary)
and Q4 on an empty 19x19 board. -/
def after_first_report : eval_data (List (Nat × Nat)) :=
  gtp_eval occupied_rule 19 false true 0 [] no_marks [some cand_primary, some cand_second]
    fresh_eval

/-! ## The analyzer lifecycle of `Board` -/

/-- The lifecycle states (`enum class analyzer`, declared outside `board.cpp`). -/
inductive analyzer where
  | disconnected | starting | running | paused
deriving DecidableEq, Repr

/-- The colours of a stone (`stone_color`, declared outside `board.cpp`). -/
inductive stone_color where
  | none | black | white
deriving DecidableEq, Repr

/-- The calls that `Board` makes on the engine adapter `m_analyzer`. -/
inductive gtp_command where
  | clear_board
  | played_move (c : stone_color) (x y : Nat)
  | analyze (to_move : stone_color) (interval : Int)
  | pause_analysis
  | quit
deriving DecidableEq, Repr

/-- Modelled from the spec: the engine adapter behind `m_analyzer`, a class
declared outside `board.cpp`.  `started` and `stopped` are its readiness flags
(`started ()`, `stopped ()`), `sent` the calls received so far, oldest
first. -/
structure gtp_process where
  started : Bool
  stopped : Bool
  sent : List gtp_command
deriving DecidableEq, Repr

/-- The adapter after one more call. -/
def gtp_process.send (a : gtp_process) (cs : List gtp_command) : gtp_process :=
  { a with sent := a.sent ++ cs }

/-- Modelled from the spec: the adapter call `quit ()`, which ends the engine:
the call is recorded and `stopped ()` holds afterwards. -/
def gtp_process.quit (a : gtp_process) : gtp_process :=
  { a with stopped := true, sent := a.sent ++ [gtp_command.quit] }

/-- The accessors of `game_state` and of its board that the analyzer code
reads; they are declared outside `board.cpp` and are parameters here:
`get_board ().stone_at (i, j)`, `get_move_color ()`, `to_move ()`, and the
position and the marks of the board handed to the overlay root. -/
structure game_access (P : Type) where
  stone_at : game_state → Nat → Nat → stone_color
  get_move_color : game_state → stone_color
  to_move : game_state → stone_color
  position : game_state → P
  marks : game_state → Nat → Nat → mark × Int

/-- The members of `Board` that the analyzer code reads and writes.
`shown` lists the arguments of the calls `m_board_win->update_analysis`,
oldest first: the lifecycle state published to the window is the last one. -/
structure Board (P : Type) where
  m_analyzer : Option gtp_process
  m_pause_eval : Bool
  m_state : game_state
  eval : eval_data P
  shown : List analyzer

/-- `Board::analyzer_state` (lines 1550-1561). -/
def Board.analyzer_state {P : Type} (b : Board P) : analyzer :=
  match b.m_analyzer with
  | none => analyzer.disconnected
  | some a =>
    if a.stopped then analyzer.disconnected
    else if !a.started then analyzer.starting
    else if b.m_pause_eval then analyzer.paused
    else analyzer.running

/-- Modelled from the spec: `Board::clear_eval_data`, defined outside
`board.cpp`: it clears all overlay data, so that no overlay tree remains and
both per-cell arrays are all-zero. -/
def clear_eval_data {P : Type} (e : eval_data P) : eval_data P :=
  { e with m_eval_state := none, m_winrate := fun _ => 0, m_visits := fun _ => 0 }

/-- Lines 1568-1573 of `setup_analyzer_position`: the loop
`while (gst->was_move_p () && !gst->root_node_p ())` that pushes the nodes on
the vector `moves` (nearest node first) and ends with `gst` at the base. -/
def collect_moves : game_state → List game_state × game_state
  | game_state.root d => ([], game_state.root d)
  | game_state.child d p =>
    if d.was_move && !false then
      ((game_state.child d p) :: (collect_moves p).1, (collect_moves p).2)
    else ([], game_state.child d p)

/-- Lines 1576-1581: the scan `for i, for j` over the board, with one
`played_move (c, i, j)` for every stone. -/
def scan_stones (board_size : Nat) (stone_at : Nat → Nat → stone_color) : List gtp_command :=
  (List.range board_size).flatMap fun i =>
    (List.range board_size).filterMap fun j =>
      if stone_at i j ≠ stone_color.none then some (gtp_command.played_move (stone_at i j) i j)
      else none

/-- Lines 1582-1588: `played_move` for the collected nodes, taken from the back
of the vector. -/
def replay_moves {P : Type} (ga : game_access P) (moves : List game_state) :
    List gtp_command :=
  moves.reverse.map fun g => gtp_command.played_move (ga.get_move_color g) g.get_move_x g.get_move_y

/-- Lines 1575-1588: the calls that reseed the adapter for the active node. -/
def reseed_commands {P : Type} (ga : game_access P) (board_size : Nat) (m_state : game_state) :
    List gtp_command :=
  [gtp_command.clear_board]
    ++ scan_stones board_size (ga.stone_at (collect_moves m_state).2)
    ++ replay_moves ga (collect_moves m_state).1

/-- `Board::setup_analyzer_position` (lines 1563-1596). -/
def Board.setup_analyzer_position {P : Type} (ga : game_access P) (board_size : Nat)
    (b : Board P) : Board P :=
  let st := b.analyzer_state
  if st ≠ analyzer.running ∧ st ≠ analyzer.paused then b
  else
    match b.m_analyzer with
    | none => b
    | some a =>
      let a1 := a.send (reseed_commands ga board_size b.m_state)
      let e1 := clear_eval_data b.eval
      if st = analyzer.running ∧ b.m_pause_eval = false then
        { b with
          m_analyzer := some (a1.send [gtp_command.analyze (ga.to_move b.m_state) 100])
          eval := { e1 with m_winrate := fun _ => 0, m_visits := fun _ => 0 } }
      else { b with m_analyzer := some a1, eval := e1 }

/-- `Board::gtp_startup_success` (lines 1598-1602). -/
def Board.gtp_startup_success {P : Type} (ga : game_access P) (board_size : Nat)
    (b : Board P) : Board P :=
  Board.setup_analyzer_position ga board_size { b with shown := b.shown ++ [analyzer.running] }

/-- `Board::gtp_exited` (lines 1614-1619); the message box is left out. -/
def Board.gtp_exited {P : Type} (b : Board P) : Board P :=
  { b with eval := clear_eval_data b.eval, shown := b.shown ++ [analyzer.disconnected] }

/-- `Board::gtp_eval` on the members of `Board`: the overlay root is made from
the board and the colour to move of `m_state`. -/
def Board.gtp_eval {P : Type} (ga : game_access P) (acm : P → Nat → Nat → Option P)
    (board_size : Nat) (right_button prune : Bool) (an_maxmoves : Int)
    (moves : List (Option candidate)) (b : Board P) : Board P :=
  let e := Q5Go.gtp_eval acm board_size right_button prune an_maxmoves
    (ga.position b.m_state) (ga.marks b.m_state) moves b.eval
  { b with eval := e }

/-- `Board::start_analysis` (lines 1694-1707).  `engine` is
`client_window->analysis_engine () != nullptr`; `create_gtp` returns a new
adapter that has neither started nor stopped. -/
def Board.start_analysis {P : Type} (engine : Bool) (b : Board P) : Board P :=
  if !engine then b
  else { b with m_analyzer := some ⟨false, false, []⟩, shown := b.shown ++ [analyzer.starting] }

/-- `Board::pause_analysis` (lines 1718-1733); `on_p` is the argument `on`. -/
def Board.pause_analysis {P : Type} (ga : game_access P) (on_p : Bool) (b : Board P) :
    Board P :=
  match b.m_analyzer with
  | none => b
  | some a =>
    if !a.started || a.stopped then b
    else if on_p then
      { b with
        m_pause_eval := true
        m_analyzer := some (a.send [gtp_command.pause_analysis])
        shown := b.shown ++ [analyzer.paused] }
    else
      { b with
        m_pause_eval := false
        eval := { b.eval with m_winrate := fun _ => 0, m_visits := fun _ => 0 }
        shown := b.shown ++ [analyzer.running]
        m_analyzer := some (a.send [gtp_command.analyze (ga.to_move b.m_state) 100]) }

/-- `Board::observed_changed` (lines 921-926), called after `m_state` was set
to the new active node; the redisplay (`sync_appearance`, `update_game_tree`)
is left out. -/
def Board.observed_changed {P : Type} (ga : game_access P) (board_size : Nat)
    (b : Board P) : Board P :=
  Board.setup_analyzer_position ga board_size b

/-- Modelled from the spec: the adapter reports ready: it has started, and
calls `gtp_startup_success`. -/
def Board.adapter_ready {P : Type} (ga : game_access P) (board_size : Nat)
    (b : Board P) : Board P :=
  Board.gtp_startup_success ga board_size
    { b with m_analyzer := b.m_analyzer.map fun a => { a with started := true } }

/-- The lifecycle state last published to the window. -/
def Board.published {P : Type} (b : Board P) : Option analyzer := b.shown.getLast?

/-- The successive nodes made from `base` by the node data `ds`, in
chronological order. -/
def history_nodes (base : game_state) : List node_info → List game_state
  | [] => []
  | d :: ds => game_state.child d base :: history_nodes (game_state.child d base) ds

/-- The node reached from `base` through the node data `ds`. -/
def add_nodes (base : game_state) : List node_info → game_state
  | [] => base
  | d :: ds => add_nodes (game_state.child d base) ds

/-- The number of ancestors of a node. -/
def game_state.depth : game_state → Nat
  | game_state.root _ => 0
  | game_state.child _ p => p.depth + 1

/-- The cells of the moves that lead to a node, last move first. -/
def game_state.cells : game_state → List (Nat × Nat)
  | game_state.root _ => []
  | game_state.child d p => if d.was_move then (d.move_x, d.move_y) :: p.cells else p.cells

/-- An instance of the accessors for the examples: every board of the record
holds one black handicap stone at (3,3), black moves at odd depth, and the
position of a node is the list of the cells played. -/
def example_access : game_access (List (Nat × Nat)) where
  stone_at := fun _ x y => if x = 3 ∧ y = 3 then stone_color.black else stone_color.none
  get_move_color := fun g => if g.depth % 2 = 1 then stone_color.black else stone_color.white
  to_move := fun g => if g.depth % 2 = 0 then stone_color.black else stone_color.white
  position := fun g => g.cells
  marks := fun _ => no_marks

/-- A board without analyzer, on the example game. -/
def idle_board : Board (List (Nat × Nat)) := ⟨none, false, example_game, fresh_eval, []⟩

/-- A board whose analyzer runs on the example game and has shown the overlay
of a first report. -/
def running_board : Board (List (Nat × Nat)) :=
  ⟨some ⟨true, false, []⟩, false, example_game, after_first_report,
    [analyzer.starting, analyzer.running]⟩

/-- The same board with the analysis paused. -/
def paused_board : Board (List (Nat × Nat)) :=
  ⟨some ⟨true, false, [gtp_command.pause_analysis]⟩, true, example_game, after_first_report,
    [analyzer.starting, analyzer.running, analyzer.paused]⟩

/-- The board after this history: start, adapter ready, pause, the engine
exits unexpectedly, start again. -/
def restarted_board : Board (List (Nat × Nat)) :=
  Board.start_analysis true
    (Board.gtp_exited
      (Board.pause_analysis example_access true
        (Board.adapter_ready example_access 19 (Board.start_analysis true idle_board))))

/-- Whether a call is an `analyze` request. -/
def gtp_command.is_analyze : gtp_command → Bool
  | gtp_command.analyze _ _ => true
  | _ => false

/-! ## Numbering with an overlay, and the move text of `sync_appearance` -/

/-- The root of the empty record with the start-count flag set. -/
def counted_root : game_state := game_state.root ⟨false, true, 0, 0⟩

/-- A pass node (neither a move nor the root, no start-count) hung under the
empty root. -/
def pass_node : game_state := game_state.child ⟨false, false, 0, 0⟩ empty_root

/-- The overlay root as a tree node: it is made by `new game_state (b, to_move)`,
so it is a root, not a move, and carries no start-count. -/
def overlay_root_node : game_state := game_state.root ⟨false, false, 0, 0⟩

/-- Modelled from the spec: `game_state::find_child_move (x, y)` on the overlay
root, declared outside `board.cpp`: the first child whose move is `(x, y)`,
given by the cells of its chain of first children (`next_move ()`); the empty
list stands for the null pointer. -/
def overlay.find_child_move {P : Type} (t : overlay P) (x y : Int) : List (Nat × Nat) :=
  (t.children.find? fun ch =>
    match ch.head? with
    | some c => decide ((c.1 : Int) = x ∧ (c.2 : Int) = y)
    | none => false).getD []

/-- Lines 745-751 of `sync_appearance`: the loop
`while (pv && (maxdepth == 0 || depth++ < maxdepth))` over the PV chain, with
`count_map[bp] = ++n_back` for each node.  The result is `count_map` and
`n_back` after the loop. -/
def pv_loop (sz : Nat) (maxdepth : Int) :
    List (Nat × Nat) → (Nat → Int) → Int → Int → (Nat → Int) × Int
  | [], cm, n, _ => (cm, n)
  | c :: rest, cm, n, depth =>
    if maxdepth = 0 then
      pv_loop sz maxdepth rest (Function.update cm (bitpos sz c.1 c.2) (n + 1)) (n + 1) depth
    else if depth < maxdepth then
      pv_loop sz maxdepth rest (Function.update cm (bitpos sz c.1 c.2) (n + 1)) (n + 1)
        (depth + 1)
    else (cm, n)

/-- The local variables of `sync_appearance` after its two numbering blocks. -/
structure appearance_numbers where
  numbers : numbering
  max_number : Int

/-- `Board::sync_appearance`, lines 695-696 and 725-775: the numbering state
with or without an overlay.  With an overlay (`have_analysis`) `startpos` is
the overlay root, the PV under the cursor (`curX`, `curY`) is numbered up to
`maxdepth`, `max_number` takes the count and `n_back` is reset to 0; the
history block runs only without an overlay (`numbering`). -/
def sync_appearance_counts {P : Type} (sz : Nat) (maxdepth curX curY : Int)
    (edit_board_null : Bool) (m_eval_state : Option (overlay P)) (m_state : game_state) :
    appearance_numbers :=
  let have_analysis := m_eval_state.isSome
  let numbering_p := !have_analysis && edit_board_null
  let s1 : appearance_numbers :=
    match m_eval_state with
    | none => ⟨numbering.init, 0⟩
    | some t =>
      let r := pv_loop sz maxdepth (t.find_child_move curX curY) (fun _ => 0) 0 0
      ⟨⟨r.1, 0, some overlay_root_node⟩, r.2⟩
  if numbering_p && !m_state.get_start_count && m_state.was_move_p then
    let h := clear_startpos (history_loop sz m_state s1.numbers.count_map s1.numbers.n_back)
    ⟨h, h.n_back⟩
  else s1

/-- Lines 735-740 of `sync_appearance`: the text of a move,
`if (x > 7) x++; QChar ('A' + x) + QString::number (board_size - y)`. -/
def encode_move (board_size x y : Nat) : List Char :=
  Char.ofNat (65 + (if x > 7 then x + 1 else x)) :: QString_number (board_size - y)

/-- An overlay on an empty position with the PV chains D4 Q16 K10 and Q4. -/
def example_overlay : overlay (List (Nat × Nat)) :=
  ⟨[], no_marks, [[(3, 15), (15, 3), (9, 9)], [(15, 15)]]⟩

/-! ## Marks, moves, deletion and edit mode -/

/-- The buttons of a mouse event that the code tells apart (`Qt::MouseButton`). -/
inductive mouse_button where
  | NoButton | LeftButton | RightButton | MiddleButton
deriving DecidableEq, Repr

/-- The calls by which `click_add_mark` changes the marks of the target board
(`m_edit_board` or the board of `m_state`). -/
inductive mark_call where
  | set_mark (x y : Int) (m : mark) (extra : Int)
  | set_text_mark (x y : Int) (text : List Char)
deriving DecidableEq, Repr

/-- The loops `for (i = ...; i < bound; i++) if (!used.test_bit (i)) break;` of
`click_add_mark`: `scan_unused used n i` is the value of `i` after at most `n`
further tests starting at `i`. -/
def scan_unused (used : Nat → Bool) : Nat → Nat → Nat
  | 0, i => i
  | n + 1, i => if !used i then i else scan_unused used n (i + 1)

/-- `Board::click_add_mark` (lines 1161-1220): the call made on the target
board, if any.  `shift` is `e->modifiers () == Qt::ShiftModifier`, `used_letters`
and `used_numbers` are the tests of `m_used_letters` and `m_used_numbers`,
`dialog` is the text of the dialog when it was accepted. -/
def click_add_mark (button : mouse_button) (shift : Bool) (m_edit_mark : mark)
    (used_letters used_numbers : Nat → Bool) (dialog : Option (List Char)) (x y : Int) :
    Option mark_call :=
  if button ≠ mouse_button.RightButton ∧ button ≠ mouse_button.LeftButton then none
  else
    let mark_to_set := if button = mouse_button.RightButton then mark.none else m_edit_mark
    if mark_to_set = mark.letter ∧ shift = true then
      match dialog with
      | some text => some (mark_call.set_text_mark x y text)
      | none => none
    else if mark_to_set = mark.num then
      let i := scan_unused used_numbers 255 1
      if i = 256 then none else some (mark_call.set_mark x y mark_to_set i)
    else if m_edit_mark = mark.letter then
      let i := scan_unused used_letters 52 0
      if i = 52 then none else some (mark_call.set_mark x y mark_to_set i)
    else some (mark_call.set_mark x y mark_to_set 0)

/-- The members of `Board` and the calls to the window that `deleteNode` and
`play_one_move` touch.  `deleted` lists the nodes handed to `delete`,
`transfers` the calls `transfer_observers (from, to)`, `player_moves` the
calls `m_board_win->player_move`. -/
structure play_state where
  m_state : game_state
  modified : Bool
  deleted : List game_state
  transfers : List (game_state × game_state)
  player_moves : List (stone_color × Int × Int)
deriving DecidableEq, Repr

/-- The exception that `deleteNode` throws. -/
inductive board_error where
  | logic_error
deriving DecidableEq, Repr

/-- `Board::deleteNode` (lines 935-947).  The destructor of `game_state` is
declared outside `board.cpp`; what it leaves in `m_state` through the observer
callbacks is the parameter `after_delete`.  The result is an error for the
thrown `std::logic_error` (should have updated to parent). -/
def deleteNode (after_delete : game_state → game_state) (b : play_state) :
    Except board_error play_state :=
  match b.m_state with
  | game_state.root _ => Except.ok b
  | game_state.child d parent =>
    let st := game_state.child d parent
    let b1 := { b with deleted := b.deleted ++ [st], m_state := after_delete st }
    if b1.m_state ≠ parent then Except.error board_error.logic_error
    else Except.ok { b1 with modified := true }

/-- `Board::play_one_move` (lines 1088-1103).  `player_to_move` is
`player_to_move_p ()`, `to_move` and `add_child_move` are the accessors of the
active node, declared outside `board.cpp`.

Modelled from the spec: `transfer_observers (st_new)` makes `st_new` the active
node. -/
def play_one_move (player_to_move : Bool) (to_move : game_state → stone_color)
    (add_child_move : game_state → Int → Int → Option game_state) (x y : Int)
    (b : play_state) : play_state :=
  if !player_to_move then b
  else
    let st := b.m_state
    let col := to_move st
    match add_child_move st x y with
    | none => b
    | some st_new =>
      { b with
        modified := true
        transfers := b.transfers ++ [(st, st_new)]
        m_state := st_new
        player_moves := b.player_moves ++ [(col, x, y)] }

/-- The game modes (`enum GameMode`, declared outside `board.cpp`). -/
inductive GameMode where
  | modeNormal | modeEdit | modeScore | modeObserve | modeMatch | modeTeach | modeComputer
  | modeScoreRemote
deriving DecidableEq, Repr

/-- The calls that `setMode` makes on the game tree. -/
inductive tree_call (B : Type) where
  | replace (st : game_state) (board : B) (to_move : stone_color)
  | add_child_edit (st : game_state) (board : B) (to_move : stone_color)
  | transfer_observers (st new_st : game_state)

/-- The accessors of `game_state` and `go_board` that `setMode` reads, declared
outside `board.cpp`; `add_child_edit` gives the new child. -/
structure edit_access (B : Type) where
  n_children : game_state → Nat
  was_edit_p : game_state → Bool
  to_move : game_state → stone_color
  get_board : game_state → B
  add_child_edit : game_state → B → stone_color → game_state
  identify_units : B → B
  calc_scoring_markers_complex : B → B

/-- The members of `Board` that `setMode` reads and writes, and the calls made
on the tree, oldest first. -/
structure edit_state (B : Type) where
  m_game_mode : GameMode
  m_edit_board : Option B
  m_edit_changed : Bool
  m_edit_to_move : stone_color
  m_state : game_state
  calls : List (tree_call B)

/-- `Board::setMode` (lines 264-303) up to the call of `sync_appearance`.

Modelled from the spec: `transfer_observers (new_st)` makes `new_st` the active
node. -/
def setMode {B : Type} [DecidableEq B] (ea : edit_access B) (mode : GameMode)
    (b : edit_state B) : edit_state B :=
  let old_mode := b.m_game_mode
  let b0 := { b with m_game_mode := mode }
  let r : edit_state B × game_state :=
    if mode = GameMode.modeScore ∨ mode = GameMode.modeScoreRemote ∨ mode = GameMode.modeEdit then
      let board := ea.get_board b.m_state
      let board1 :=
        if mode = GameMode.modeScore ∨ mode = GameMode.modeScoreRemote then
          ea.calc_scoring_markers_complex board
        else board
      ({ b0 with
          m_edit_board := some board1
          m_edit_changed := false
          m_edit_to_move := ea.to_move b.m_state }, b.m_state)
    else if old_mode = GameMode.modeScore ∨ old_mode = GameMode.modeScoreRemote then
      ({ b0 with m_edit_board := none }, b.m_state)
    else if mode = GameMode.modeNormal ∧ old_mode = GameMode.modeEdit then
      match b.m_edit_board with
      | none => (b0, b.m_state)
      | some eb0 =>
        let eb := ea.identify_units eb0
        if ea.n_children b.m_state = 0
            ∧ (b.m_state.root_node_p = true ∨ ea.was_edit_p b.m_state = true) then
          ({ b0 with
              m_edit_board := none
              calls := b.calls ++ [tree_call.replace b.m_state eb b.m_edit_to_move] },
            b.m_state)
        else if ea.to_move b.m_state ≠ b.m_edit_to_move ∨ ea.get_board b.m_state ≠ eb then
          ({ b0 with
              m_edit_board := none
              calls := b.calls ++ [tree_call.add_child_edit b.m_state eb b.m_edit_to_move] },
            ea.add_child_edit b.m_state eb b.m_edit_to_move)
        else ({ b0 with m_edit_board := none }, b.m_state)
    else (b0, b.m_state)
  if r.2 ≠ b.m_state then
    { r.1 with
      calls := r.1.calls ++ [tree_call.transfer_observers b.m_state r.2]
      m_state := r.2 }
  else r.1

/-- An instance of the accessors of `setMode` for the examples: boards are
lists of cells, every node is a leaf, edit nodes are the non-move children,
and `add_child_edit` hangs an edit node under the node. -/
def example_edit_access : edit_access (List (Nat × Nat)) where
  n_children := fun _ => 0
  was_edit_p := fun g => !g.was_move_p && !g.root_node_p
  to_move := fun _ => stone_color.black
  get_board := fun g => g.cells
  add_child_edit := fun g _ _ => game_state.child ⟨false, true, 0, 0⟩ g
  identify_units := fun b => b
  calc_scoring_markers_complex := fun b => b

/-- The board in edit mode on the example game (a move node), one stone added
to the edited board. -/
def editing_board : edit_state (List (Nat × Nat)) :=
  ⟨GameMode.modeEdit, some [(9, 9), (15, 15), (4, 4)], true, stone_color.black, example_game,
    []⟩

/-- The play state on the example game before any call. -/
def example_play : play_state := ⟨example_game, false, [], [], []⟩

/-- An `add_child_move` for the examples that rejects the cells already played
in the history of the node and the cells outside a 19x19 board. -/
def example_add_child_move (st : game_state) (x y : Int) : Option game_state :=
  if 0 ≤ x ∧ x < 19 ∧ 0 ≤ y ∧ y < 19 ∧ (x.toNat, y.toNat) ∉ st.cells then
    some (game_state.child ⟨true, false, x.toNat, y.toNat⟩ st)
  else none

/-! ## The arithmetic of double: lemmas -/

theorem log2_eq (n k : Nat) (h1 : 2 ^ k ≤ n) (h2 : n < 2 ^ (k + 1)) : Nat.log2 n = k := by
  have hn : n ≠ 0 := by
    intro h; rw [h] at h1; exact absurd h1 (by simp)
  have a := (Nat.le_log2 hn).2 h1
  have b := (Nat.log2_lt hn).2 h2
  omega

theorem round_double_zero : round_double 0 = 0 := by simp [round_double]

theorem round_double_div (a b : Nat) (ha : 0 < a) (hb : 0 < b) (h : Nat.Coprime a b) :
    round_double ((a : ℚ) / b) = round_ratio a b := by
  have hq : (0 : ℚ) < (a : ℚ) / b := by positivity
  have hn : ((a : ℚ) / b).num = a := by
    have := Rat.num_div_eq_of_coprime (a := (a : Int)) (b := (b : Int)) (by exact_mod_cast hb)
      (by simpa using h)
    simpa only [Int.cast_natCast] using this
  have hd : ((a : ℚ) / b).den = b := by
    have := Rat.den_div_eq_of_coprime (a := (a : Int)) (b := (b : Int)) (by exact_mod_cast hb)
      (by simpa using h)
    simp only [Int.cast_natCast] at this
    exact Int.ofNat_inj.1 this
  unfold round_double
  rw [if_neg hq.ne', if_neg (not_lt.2 hq.le), hn, hd]
  rfl

/-- The double nearest to 0.6 is 0x1.3333333333333p-1. -/
theorem round_ratio_three_fifths : round_ratio 3 5 = 5404319552844595 / 9007199254740992 := by
  have l1 : Nat.log2 3 = 1 := log2_eq _ _ (by norm_num) (by norm_num)
  have l2 : Nat.log2 5 = 2 := log2_eq _ _ (by norm_num) (by norm_num)
  unfold round_ratio
  rw [l1, l2]
  norm_num [Int.toNat]

/-- The value 0.5 is a double. -/
theorem round_ratio_half : round_ratio 1 2 = 1 / 2 := by
  have l1 : Nat.log2 1 = 0 := log2_eq _ _ (by norm_num) (by norm_num)
  have l2 : Nat.log2 2 = 1 := log2_eq _ _ (by norm_num) (by norm_num)
  unfold round_ratio
  rw [l1, l2]
  norm_num [Int.toNat]

/-- The double nearest to 0.1 is 0x1.999999999999ap-4. -/
theorem round_ratio_tenth : round_ratio 1 10 = 3602879701896397 / 36028797018963968 := by
  have l1 : Nat.log2 1 = 0 := log2_eq _ _ (by norm_num) (by norm_num)
  have l2 : Nat.log2 10 = 3 := log2_eq _ _ (by norm_num) (by norm_num)
  unfold round_ratio
  rw [l1, l2]
  norm_num [Int.toNat]

/-- The value 0x1.9999999999998p-4 is a double. -/
theorem round_ratio_delta :
    round_ratio 900719925474099 9007199254740992 = 900719925474099 / 9007199254740992 := by
  have l1 : Nat.log2 900719925474099 = 49 := log2_eq _ _ (by norm_num) (by norm_num)
  have l2 : Nat.log2 9007199254740992 = 53 := log2_eq _ _ (by norm_num) (by norm_num)
  unfold round_ratio
  rw [l1, l2]
  norm_num [Int.toNat]

theorem round_double_six : round_double (6000 / 10000) = 5404319552844595 / 9007199254740992 := by
  rw [show (6000 / 10000 : ℚ) = ((3 : Nat) : ℚ) / (5 : Nat) by norm_num,
    round_double_div 3 5 (by norm_num) (by norm_num) (by norm_num), round_ratio_three_fifths]

theorem round_double_five : round_double (5000 / 10000) = 1 / 2 := by
  rw [show (5000 / 10000 : ℚ) = ((1 : Nat) : ℚ) / (2 : Nat) by norm_num,
    round_double_div 1 2 (by norm_num) (by norm_num) (by norm_num), round_ratio_half]

theorem round_double_tenth : round_double (1 / 10) = 3602879701896397 / 36028797018963968 := by
  rw [show (1 / 10 : ℚ) = ((1 : Nat) : ℚ) / (10 : Nat) by norm_num,
    round_double_div 1 10 (by norm_num) (by norm_num) (by norm_num), round_ratio_tenth]

/-- In double arithmetic 0.6 - 0.5 is 0x1.9999999999998p-4: one unit in the
last place of 0.6 below the double nearest to 0.1. -/
theorem round_double_six_minus_five :
    round_double (round_double (6000 / 10000) - round_double (5000 / 10000))
      = 900719925474099 / 9007199254740992 := by
  rw [round_double_six, round_double_five,
    show (5404319552844595 / 9007199254740992 - 1 / 2 : ℚ)
      = ((900719925474099 : Nat) : ℚ) / (9007199254740992 : Nat) by norm_num,
    round_double_div _ _ (by norm_num) (by norm_num) (by norm_num), round_ratio_delta]

/-! ## Numbering: lemmas -/

theorem bitpos_inj {sz x y x2 y2 : Nat} (hx : x < sz) (hx2 : x2 < sz)
    (h : bitpos sz x y = bitpos sz x2 y2) : x = x2 ∧ y = y2 := by
  unfold bitpos at h
  have hy : y = y2 := by
    rcases Nat.lt_trichotomy y y2 with hlt | heq | hgt
    · exfalso
      have : (y + 1) * sz ≤ y2 * sz := Nat.mul_le_mul_right sz hlt
      rw [Nat.add_mul] at this
      omega
    · exact heq
    · exfalso
      have : (y2 + 1) * sz ≤ y * sz := Nat.mul_le_mul_right sz hgt
      rw [Nat.add_mul] at this
      omega
  subst hy
  exact ⟨by omega, rfl⟩

theorem play_moves_append (base : game_state) (ms : List (Nat × Nat)) (m : Nat × Nat) :
    play_moves base (ms ++ [m])
      = game_state.child ⟨true, false, m.1, m.2⟩ (play_moves base ms) := by
  induction ms generalizing base with
  | nil => rfl
  | cons a rest ih => simp [play_moves, ih]

theorem history_loop_play_moves (sz : Nat) (base : game_state) (near : List (Nat × Nat))
    (cm : Nat → Int) (n : Int) :
    history_loop sz (play_moves base near.reverse) cm n
      = history_loop sz base (record_moves sz near cm n) (n + near.length) := by
  induction near generalizing cm n with
  | nil => simp [play_moves, record_moves]
  | cons m rest ih =>
    rw [List.reverse_cons, play_moves_append]
    simp only [history_loop, record_moves, Bool.or_false, Bool.not_false, Bool.and_self,
      if_true]
    rw [ih]
    congr 1
    simp only [List.length_cons, Nat.cast_add, Nat.cast_one]
    ring

theorem history_loop_stop (sz : Nat) (base : game_state) (cm : Nat → Int) (n : Int)
    (h : stops_walk base = true) :
    history_loop sz base cm n
      = ⟨cm, n, if base.root_node_p && !base.get_start_count then none else some base⟩ := by
  cases base with
  | root d =>
    cases hs : d.start_count <;>
      simp [history_loop, game_state.root_node_p, game_state.get_start_count,
        game_state.info, hs]
  | child d p =>
    simp only [stops_walk, game_state.root_node_p, game_state.get_start_count,
      game_state.was_move_p, game_state.info, Bool.false_or, Bool.or_eq_true,
      Bool.not_eq_true_eq_eq_false] at h
    rcases h with h | h <;>
      simp [history_loop, game_state.root_node_p, h]

theorem record_moves_spec (sz : Nat) (near : List (Nat × Nat)) (cm : Nat → Int) (n : Int)
    (hnd : (near.map (fun m => bitpos sz m.1 m.2)).Nodup) :
    (∀ (i : Nat) (m : Nat × Nat), near[i]? = some m →
        record_moves sz near cm n (bitpos sz m.1 m.2) = n + i + 1)
      ∧ (∀ idx, (∀ m ∈ near, idx ≠ bitpos sz m.1 m.2) → record_moves sz near cm n idx = cm idx) := by
  induction near generalizing cm n with
  | nil => simp [record_moves]
  | cons a rest ih =>
    rw [List.map_cons, List.nodup_cons] at hnd
    obtain ⟨hnot, hrest⟩ := hnd
    obtain ⟨ih1, ih2⟩ := ih (Function.update cm (bitpos sz a.1 a.2) (n + 1)) (n + 1) hrest
    refine ⟨?_, ?_⟩
    · intro i m hm
      cases i with
      | zero =>
        simp only [List.getElem?_cons_zero, Option.some.injEq] at hm
        subst hm
        simp only [record_moves]
        rw [ih2]
        · simp
        · intro m hmem heq
          exact hnot (List.mem_map.mpr ⟨m, hmem, heq.symm⟩)
      | succ j =>
        simp only [List.getElem?_cons_succ] at hm
        simp only [record_moves]
        rw [ih1 j m hm]
        push_cast
        ring
    · intro idx hidx
      simp only [record_moves]
      rw [ih2 idx (fun m hm => hidx m (List.mem_cons_of_mem _ hm))]
      have : idx ≠ bitpos sz a.1 a.2 := hidx a (List.mem_cons_self _ _)
      simp [Function.update, this]

theorem nodup_bitpos (sz : Nat) (ms : List (Nat × Nat))
    (hboard : ∀ m ∈ ms, m.1 < sz ∧ m.2 < sz) (hnd : ms.Nodup) :
    (ms.map (fun m => bitpos sz m.1 m.2)).Nodup := by
  refine (List.nodup_map_iff_inj_on hnd).mpr ?_
  intro a ha b hb hab
  obtain ⟨h1, h2⟩ := bitpos_inj (hboard a ha).1 (hboard b hb).1 hab
  exact Prod.ext h1 h2

theorem clear_startpos_count_map (s : numbering) :
    (clear_startpos s).count_map = s.count_map := by
  unfold clear_startpos
  split
  · split <;> rfl
  · rfl

theorem clear_startpos_n_back (s : numbering) : (clear_startpos s).n_back = s.n_back := by
  unfold clear_startpos
  split
  · split <;> rfl
  · rfl

theorem play_moves_guard (base : game_state) (ms : List (Nat × Nat)) (hne : ms ≠ []) :
    (play_moves base ms).get_start_count = false ∧ (play_moves base ms).was_move_p = true := by
  rcases List.eq_nil_or_concat ms with h | ⟨l, a, h⟩
  · exact absurd h hne
  · subst h
    rw [List.concat_eq_append, play_moves_append]
    exact ⟨rfl, rfl⟩

theorem history_numbering_play_moves (sz : Nat) (base : game_state) (ms : List (Nat × Nat))
    (hbase : stops_walk base = true) (hne : ms ≠ []) :
    history_numbering sz true (play_moves base ms) numbering.init
      = clear_startpos ⟨record_moves sz ms.reverse (fun _ => 0) 0, ms.length,
          if base.root_node_p && !base.get_start_count then none else some base⟩ := by
  obtain ⟨h1, h2⟩ := play_moves_guard base ms hne
  have key := history_loop_play_moves sz base ms.reverse (fun _ => 0) 0
  rw [List.reverse_reverse, history_loop_stop sz base _ _ hbase] at key
  simp only [history_numbering, h1, h2, Bool.not_false, Bool.and_self, if_true,
    numbering.init, key, List.length_reverse, zero_add]

theorem history_numbering_provisional (sz : Nat) (base : game_state) (ms : List (Nat × Nat))
    (hbase : stops_walk base = true) (hne : ms ≠ [])
    (hboard : ∀ m ∈ ms, m.1 < sz ∧ m.2 < sz) (hnd : ms.Nodup) :
    (history_numbering sz true (play_moves base ms) numbering.init).n_back = ms.length
      ∧ (∀ (i : Nat) (m : Nat × Nat), ms.reverse[i]? = some m →
          (history_numbering sz true (play_moves base ms) numbering.init).count_map
            (bitpos sz m.1 m.2) = i + 1)
      ∧ (∀ idx, (∀ m ∈ ms, idx ≠ bitpos sz m.1 m.2) →
          (history_numbering sz true (play_moves base ms) numbering.init).count_map idx = 0) := by
  rw [history_numbering_play_moves sz base ms hbase hne, clear_startpos_count_map,
    clear_startpos_n_back]
  have hnd2 : (ms.reverse.map (fun m => bitpos sz m.1 m.2)).Nodup :=
    nodup_bitpos sz ms.reverse (fun m hm => hboard m (List.mem_reverse.mp hm))
      (List.nodup_reverse.mpr hnd)
  obtain ⟨r1, r2⟩ := record_moves_spec sz ms.reverse (fun _ => 0) 0 hnd2
  refine ⟨rfl, ?_, ?_⟩
  · intro i m hm
    have := r1 i m hm
    simpa using this
  · intro idx hidx
    exact r2 idx (fun m hm => hidx m (List.mem_reverse.mp hm))

theorem history_numbering_startpos (sz : Nat) (base : game_state) (ms : List (Nat × Nat))
    (hbase : stops_walk base = true) (hne : ms ≠ []) :
    (history_numbering sz true (play_moves base ms) numbering.init).startpos
      = if base.root_node_p && !base.get_start_count then none
        else if !base.was_move_p && !base.root_node_p then none else some base := by
  rw [history_numbering_play_moves sz base ms hbase hne]
  unfold clear_startpos
  by_cases h : (base.root_node_p && !base.get_start_count) = true
  · simp [h]
  · by_cases h2 : (!base.was_move_p && !base.root_node_p) = true
    · simp [h, h2]
    · simp [h, h2]

theorem displayed_chronological (r : numbering) (sz : Nat) (ms : List (Nat × Nat))
    (hsp : r.startpos.isSome = true) (hn : r.n_back = ms.length)
    (hcm : ∀ (i : Nat) (m : Nat × Nat), ms.reverse[i]? = some m →
      r.count_map (bitpos sz m.1 m.2) = i + 1)
    (i : Nat) (m : Nat × Nat) (hm : ms[i]? = some m) :
    sync_appearance_v r (bitpos sz m.1 m.2) = i + 1
      ∧ render_svg_v r (bitpos sz m.1 m.2) = i + 1 := by
  have hi : i < ms.length := by
    by_contra hc
    rw [List.getElem?_eq_none (by omega)] at hm
    exact absurd hm (by simp)
  have hj : ms.length - 1 - i < ms.length := by omega
  have hrev : ms.reverse[ms.length - 1 - i]? = some m := by
    rw [List.getElem?_reverse hj]
    have : ms.length - 1 - (ms.length - 1 - i) = i := by omega
    rw [this]
    exact hm
  have hv := hcm _ m hrev
  have hcast : ((ms.length - 1 - i : Nat) : Int) = (ms.length : Int) - 1 - i := by omega
  rw [hcast] at hv
  have hlen : (i : Int) < ms.length := by exact_mod_cast hi
  have hnone : r.startpos.isNone = false := by
    cases hs : r.startpos with
    | none => rw [hs] at hsp; exact absurd hsp (by simp)
    | some st => rfl
  constructor
  · simp only [sync_appearance_v, hsp, if_true, hv, hn]
    have h1 : ((ms.length : Int) - 1 - i + 1 > 0) := by omega
    have h2 : ((ms.length : Int) != 0) = true := by
      simp only [bne_iff_ne, ne_eq]
      omega
    simp only [h1, h2, decide_True, Bool.and_self, if_true]
    omega
  · simp only [render_svg_v, hnone, Bool.false_eq_true, if_false, hv, hn]
    have h1 : ((ms.length : Int) - 1 - i + 1 > 0) := by omega
    simp only [h1, if_true]
    omega

theorem displayed_zero_of_count (r : numbering) (bp : Nat) (h : r.count_map bp = 0) :
    sync_appearance_v r bp = 0 ∧ render_svg_v r bp = 0 := by
  constructor
  · unfold sync_appearance_v
    by_cases hs : r.startpos.isSome = true <;> simp [hs, h]
  · unfold render_svg_v
    by_cases hs : r.startpos.isNone = true <;> simp [hs, h]

theorem displayed_zero_of_null (r : numbering) (bp : Nat) (h : r.startpos = none) :
    sync_appearance_v r bp = 0 ∧ render_svg_v r bp = 0 := by
  simp [sync_appearance_v, render_svg_v, h]

/-! ## Numbering: the claims -/

/-- C1: for a reference node that is a move node without start-count whose
history back to the node `base` where the walk stops consists of the moves `ms`
(all without start-count, on pairwise distinct cells of the board), the walk of
`Board::sync_appearance` and of `Board::render_svg` ends with `n_back` equal to
the number of moves, `count_map` holds `i` at the cell of the `i`-th nearest
move (the reference node has 1), and every other entry stays 0. -/
theorem numbering_walk_counts (sz : Nat) (base : game_state) (ms : List (Nat × Nat))
    (hbase : stops_walk base = true) (hne : ms ≠ [])
    (hboard : ∀ m ∈ ms, m.1 < sz ∧ m.2 < sz) (hnd : ms.Nodup) :
    ((sync_appearance_numbering sz true (play_moves base ms)).n_back = ms.length
      ∧ (∀ (i : Nat) (m : Nat × Nat), ms.reverse[i]? = some m →
          (sync_appearance_numbering sz true (play_moves base ms)).count_map
            (bitpos sz m.1 m.2) = i + 1)
      ∧ (∀ idx, (∀ m ∈ ms, idx ≠ bitpos sz m.1 m.2) →
          (sync_appearance_numbering sz true (play_moves base ms)).count_map idx = 0))
    ∧ ((render_svg_numbering sz true true (play_moves base ms)).n_back = ms.length
      ∧ (∀ (i : Nat) (m : Nat × Nat), ms.reverse[i]? = some m →
          (render_svg_numbering sz true true (play_moves base ms)).count_map
            (bitpos sz m.1 m.2) = i + 1)
      ∧ (∀ idx, (∀ m ∈ ms, idx ≠ bitpos sz m.1 m.2) →
          (render_svg_numbering sz true true (play_moves base ms)).count_map idx = 0)) :=
  ⟨history_numbering_provisional sz base ms hbase hne hboard hnd,
    history_numbering_provisional sz base ms hbase hne hboard hnd⟩

/-- Witness of C1: empty 19x19 root, (4,4) then (15,15), anchored at the second
move: `count_map[(15,15)] = 1`, `count_map[(4,4)] = 2`, `n_back = 2`. -/
theorem numbering_walk_counts_witness :
    (sync_appearance_numbering 19 true example_game).n_back = 2
      ∧ (sync_appearance_numbering 19 true example_game).count_map (bitpos 19 15 15) = 1
      ∧ (sync_appearance_numbering 19 true example_game).count_map (bitpos 19 4 4) = 2
      ∧ (render_svg_numbering 19 true true example_game).n_back = 2
      ∧ (render_svg_numbering 19 true true example_game).count_map (bitpos 19 15 15) = 1
      ∧ (render_svg_numbering 19 true true example_game).count_map (bitpos 19 4 4) = 2 := by
  have h := numbering_walk_counts 19 empty_root [(4, 4), (15, 15)] (by decide) (by decide)
    (by decide) (by decide)
  exact ⟨h.1.1, h.1.2.1 0 (15, 15) rfl, h.1.2.1 1 (4, 4) rfl,
    h.2.1, h.2.2.1 0 (15, 15) rfl, h.2.2.1 1 (4, 4) rfl⟩

/-- C2 as stated fails: with an edit node carrying start-count as the boundary
and one move (3,3) after it, the claim promises the displayed number 1 at
(3,3); the code shows no number there, in `sync_appearance` as in
`render_svg`, because the walk ended on a node that is neither a move nor the
root. -/
theorem numbering_edit_boundary_counterexample :
    edit_boundary.get_start_count = true
      ∧ sync_appearance_v (sync_appearance_numbering 19 true
          (play_moves edit_boundary [(3, 3)])) (bitpos 19 3 3) = 0
      ∧ render_svg_v (render_svg_numbering 19 true true
          (play_moves edit_boundary [(3, 3)])) (bitpos 19 3 3) = 0 := by
  decide

/-- C2 amended: when the ancestor `base` carrying start-count is a move node or
the root, and the nodes after it up to the reference node are the moves `ms` on
pairwise distinct cells of the board, then the `i`-th of these moves in
chronological order is displayed with the number `i` (counting from 1), by
`sync_appearance` and by `render_svg`, and every cell that is not the cell of
one of these moves has no number (value 0), the cells of moves at or before the
boundary included. -/
theorem numbering_after_boundary (sz : Nat) (base : game_state) (ms : List (Nat × Nat))
    (hflag : base.get_start_count = true)
    (hkind : base.was_move_p = true ∨ base.root_node_p = true) (hne : ms ≠ [])
    (hboard : ∀ m ∈ ms, m.1 < sz ∧ m.2 < sz) (hnd : ms.Nodup) :
    (∀ (i : Nat) (m : Nat × Nat), ms[i]? = some m →
        sync_appearance_v (sync_appearance_numbering sz true (play_moves base ms))
            (bitpos sz m.1 m.2) = i + 1
          ∧ render_svg_v (render_svg_numbering sz true true (play_moves base ms))
            (bitpos sz m.1 m.2) = i + 1)
      ∧ (∀ idx, (∀ m ∈ ms, idx ≠ bitpos sz m.1 m.2) →
        sync_appearance_v (sync_appearance_numbering sz true (play_moves base ms)) idx = 0
          ∧ render_svg_v (render_svg_numbering sz true true (play_moves base ms)) idx = 0) := by
  have hbase : stops_walk base = true := by simp [stops_walk, hflag]
  obtain ⟨hn, hcm, hz⟩ := history_numbering_provisional sz base ms hbase hne hboard hnd
  have hsp : (history_numbering sz true (play_moves base ms) numbering.init).startpos.isSome
      = true := by
    rw [history_numbering_startpos sz base ms hbase hne]
    rcases hkind with h | h <;> simp [hflag, h]
  refine ⟨?_, ?_⟩
  · intro i m hm
    exact displayed_chronological _ sz ms hsp hn hcm i m hm
  · intro idx hidx
    exact displayed_zero_of_count _ idx (hz idx hidx)

/-- Witness of C2 amended: a move node at (2,2) carrying start-count, then
(4,4) and (15,15): these two are displayed as 1 and 2, the boundary cell has no
number. -/
theorem numbering_after_boundary_witness :
    move_boundary.get_start_count = true
      ∧ sync_appearance_v (sync_appearance_numbering 19 true
          (play_moves move_boundary [(4, 4), (15, 15)])) (bitpos 19 4 4) = 1
      ∧ sync_appearance_v (sync_appearance_numbering 19 true
          (play_moves move_boundary [(4, 4), (15, 15)])) (bitpos 19 15 15) = 2
      ∧ sync_appearance_v (sync_appearance_numbering 19 true
          (play_moves move_boundary [(4, 4), (15, 15)])) (bitpos 19 2 2) = 0 := by
  have h := numbering_after_boundary 19 move_boundary [(4, 4), (15, 15)] (by decide)
    (Or.inl (by decide)) (by decide) (by decide) (by decide)
  exact ⟨by decide, (h.1 0 (4, 4) rfl).1, (h.1 1 (15, 15) rfl).1,
    (h.2 (bitpos 19 2 2) (by decide)).1⟩

/-- C3 as stated fails: on an empty 19x19 root without start-count, after (4,4)
and (15,15), the claim promises the displayed numbers 1 at (4,4) and 2 at
(15,15); the code displays no number at either cell, in `sync_appearance` as in
`render_svg`, because reaching the root sets `startpos` to null. -/
theorem numbering_from_root_counterexample :
    sync_appearance_v (sync_appearance_numbering 19 true example_game) (bitpos 19 4 4) = 0
      ∧ sync_appearance_v (sync_appearance_numbering 19 true example_game)
          (bitpos 19 15 15) = 0
      ∧ render_svg_v (render_svg_numbering 19 true true example_game) (bitpos 19 4 4) = 0
      ∧ render_svg_v (render_svg_numbering 19 true true example_game)
          (bitpos 19 15 15) = 0 := by
  decide

/-- C3 amended: when the walk from a move node reaches the root and no node on
the way (root included) carries start-count, the walk records the provisional
numbers (`n_back` is the number of moves, the `i`-th nearest move has `i`) but
leaves `startpos` null, and no number is displayed: the displayed value of
every cell is 0, in `sync_appearance` and in `render_svg`. -/
theorem numbering_from_root (sz : Nat) (d : node_info) (ms : List (Nat × Nat))
    (hflag : d.start_count = false) (hne : ms ≠ [])
    (hboard : ∀ m ∈ ms, m.1 < sz ∧ m.2 < sz) (hnd : ms.Nodup) :
    (sync_appearance_numbering sz true (play_moves (game_state.root d) ms)).n_back = ms.length
      ∧ (render_svg_numbering sz true true (play_moves (game_state.root d) ms)).n_back
          = ms.length
      ∧ (∀ (i : Nat) (m : Nat × Nat), ms.reverse[i]? = some m →
          (sync_appearance_numbering sz true (play_moves (game_state.root d) ms)).count_map
              (bitpos sz m.1 m.2) = i + 1
            ∧ (render_svg_numbering sz true true (play_moves (game_state.root d) ms)).count_map
              (bitpos sz m.1 m.2) = i + 1)
      ∧ (sync_appearance_numbering sz true (play_moves (game_state.root d) ms)).startpos = none
      ∧ (render_svg_numbering sz true true (play_moves (game_state.root d) ms)).startpos = none
      ∧ (∀ idx,
          sync_appearance_v (sync_appearance_numbering sz true
              (play_moves (game_state.root d) ms)) idx = 0
            ∧ render_svg_v (render_svg_numbering sz true true
              (play_moves (game_state.root d) ms)) idx = 0) := by
  have hbase : stops_walk (game_state.root d) = true := by
    simp [stops_walk, game_state.root_node_p]
  obtain ⟨hn, hcm, _⟩ :=
    history_numbering_provisional sz (game_state.root d) ms hbase hne hboard hnd
  have hsp : (history_numbering sz true (play_moves (game_state.root d) ms)
      numbering.init).startpos = none := by
    rw [history_numbering_startpos sz _ ms hbase hne]
    simp [game_state.root_node_p, game_state.get_start_count, game_state.info, hflag]
  exact ⟨hn, hn, fun i m hm => ⟨hcm i m hm, hcm i m hm⟩, hsp, hsp,
    fun idx => displayed_zero_of_null _ idx hsp⟩

/-- Witness of C3 amended: the empty 19x19 root, (4,4) then (15,15). -/
theorem numbering_from_root_witness :
    (sync_appearance_numbering 19 true example_game).n_back = 2
      ∧ (sync_appearance_numbering 19 true example_game).startpos = none
      ∧ sync_appearance_v (sync_appearance_numbering 19 true example_game)
          (bitpos 19 4 4) = 0 := by
  have h := numbering_from_root 19 ⟨false, false, 0, 0⟩ [(4, 4), (15, 15)] rfl (by decide)
    (by decide) (by decide)
  exact ⟨h.1, h.2.2.2.1, (h.2.2.2.2.2 (bitpos 19 4 4)).1⟩

/-! ## The analysis overlay: lemmas -/

section overlay_lemmas

variable {P : Type} (acm : P → Nat → Nat → Option P) (sz : Nat) (prune : Bool) (M : Int)

theorem decode_in_board {pm : List Char} {c : Nat × Nat}
    (h : decode_pv_move sz pm = some c) : c.1 < sz ∧ c.2 < sz := by
  cases pm with
  | nil => simp [decode_pv_move] at h
  | cons sx rest =>
    simp only [decode_pv_move] at h
    split at h
    · rename_i hc
      simp only [Option.some.injEq] at h
      subst h
      obtain ⟨h1, h2, h3, h4⟩ := hc
      constructor
      · show (pv_column sx).toNat < sz
        omega
      · show (pv_row sz rest).toNat < sz
        omega
    · exact absurd h (by simp)

theorem first_cell_in_board {r : candidate} {c : Nat × Nat}
    (h : first_cell sz r = some c) : c.1 < sz ∧ c.2 < sz := by
  unfold first_cell at h
  cases hp : r.pv with
  | nil => rw [hp] at h; simp at h
  | cons pm rest =>
    rw [hp] at h
    simp only [List.head?_cons, Option.some_bind] at h
    exact decode_in_board sz h

theorem add_candidate_count (wr : ℚ) (visits : Nat) (pv : List (List Char))
    (s : eval_loop P) :
    (add_candidate acm sz wr visits pv s).count = s.count
      ∧ (add_candidate acm sz wr visits pv s).m_primary_eval = s.m_primary_eval
      ∧ (add_candidate acm sz wr visits pv s).tree.position = s.tree.position := by
  unfold add_candidate
  cases pv with
  | nil => exact ⟨rfl, rfl, rfl⟩
  | cons pm rest =>
    simp only
    cases decode_pv_move sz pm with
    | none => exact ⟨rfl, rfl, rfl⟩
    | some c =>
      simp only
      cases pv_chain acm sz s.tree.position (pm :: rest) <;> exact ⟨rfl, rfl, rfl⟩

theorem gtp_eval_record_count (r : candidate) (s : eval_loop P) :
    (gtp_eval_record acm sz prune r s).count = s.count + 1 := by
  unfold gtp_eval_record
  simp only
  split <;> split <;> simp [(add_candidate_count acm sz _ _ _ _).1]

theorem gtp_eval_record_primary (r : candidate) (s : eval_loop P) :
    (gtp_eval_record acm sz prune r s).m_primary_eval
      = if s.count = 0 then round_double ((r.winrate : ℚ) / 10000)
        else s.m_primary_eval := by
  unfold gtp_eval_record
  simp only
  split <;> split <;> simp [(add_candidate_count acm sz _ _ _ _).2.1]

theorem gtp_eval_record_position (r : candidate) (s : eval_loop P) :
    (gtp_eval_record acm sz prune r s).tree.position = s.tree.position := by
  unfold gtp_eval_record
  simp only
  split <;> split <;> simp [(add_candidate_count acm sz _ _ _ _).2.2]

theorem add_candidate_written (wr : ℚ) (visits : Nat) (pm : List Char)
    (rest : List (List Char)) (c : Nat × Nat) (s : eval_loop P)
    (hd : decode_pv_move sz pm = some c) :
    (add_candidate acm sz wr visits (pm :: rest) s).m_winrate (bitpos sz c.1 c.2)
        = round_double (wr - s.m_primary_eval)
      ∧ (add_candidate acm sz wr visits (pm :: rest) s).m_visits (bitpos sz c.1 c.2) = visits
      ∧ (add_candidate acm sz wr visits (pm :: rest) s).tree.marks c.1 c.2
        = (mark.letter, s.count) := by
  unfold add_candidate
  simp only [hd]
  cases pv_chain acm sz s.tree.position (pm :: rest) <;>
    simp [mark_first, Function.update]

theorem add_candidate_other (wr : ℚ) (visits : Nat) (pv : List (List Char))
    (c : Nat × Nat) (s : eval_loop P) (hc : c.1 < sz)
    (hne : pv.head?.bind (decode_pv_move sz) ≠ some c) :
    (add_candidate acm sz wr visits pv s).m_winrate (bitpos sz c.1 c.2)
        = s.m_winrate (bitpos sz c.1 c.2)
      ∧ (add_candidate acm sz wr visits pv s).m_visits (bitpos sz c.1 c.2)
        = s.m_visits (bitpos sz c.1 c.2)
      ∧ (add_candidate acm sz wr visits pv s).tree.marks c.1 c.2 = s.tree.marks c.1 c.2 := by
  unfold add_candidate
  cases pv with
  | nil => exact ⟨rfl, rfl, rfl⟩
  | cons pm rest =>
    simp only [List.head?_cons, Option.some_bind] at hne
    simp only
    cases hd : decode_pv_move sz pm with
    | none => exact ⟨rfl, rfl, rfl⟩
    | some c2 =>
      have hne2 : c2 ≠ c := fun h => hne (by rw [hd, h])
      have hbp : bitpos sz c.1 c.2 ≠ bitpos sz c2.1 c2.2 := by
        intro hb
        obtain ⟨h1, h2⟩ := bitpos_inj hc (decode_in_board sz hd).1 hb
        exact hne2 (Prod.ext h1.symm h2.symm)
      have hxy : ¬ (c.1 = c2.1 ∧ c.2 = c2.2) := fun h => hne2 (Prod.ext h.1.symm h.2.symm)
      simp only
      cases pv_chain acm sz s.tree.position (pm :: rest) <;>
        simp [mark_first, Function.update, hbp, hxy]

theorem add_candidate_index (wr : ℚ) (visits : Nat) (pv : List (List Char))
    (s : eval_loop P) (idx : Nat)
    (hidx : ∀ c, pv.head?.bind (decode_pv_move sz) = some c → idx ≠ bitpos sz c.1 c.2) :
    (add_candidate acm sz wr visits pv s).m_winrate idx = s.m_winrate idx
      ∧ (add_candidate acm sz wr visits pv s).m_visits idx = s.m_visits idx := by
  unfold add_candidate
  cases pv with
  | nil => exact ⟨rfl, rfl⟩
  | cons pm rest =>
    simp only [List.head?_cons, Option.some_bind] at hidx
    simp only
    cases hd : decode_pv_move sz pm with
    | none => exact ⟨rfl, rfl⟩
    | some c2 =>
      have := hidx c2 hd
      simp only
      cases pv_chain acm sz s.tree.position (pm :: rest) <;>
        simp [mark_first, Function.update, this]

theorem gtp_eval_record_written (r : candidate) (c : Nat × Nat) (s : eval_loop P)
    (hret : retained prune s.count r = true) (hcell : first_cell sz r = some c) :
    (gtp_eval_record acm sz prune r s).m_winrate (bitpos sz c.1 c.2)
        = round_double (round_double ((r.winrate : ℚ) / 10000)
          - (if s.count = 0 then round_double ((r.winrate : ℚ) / 10000)
            else s.m_primary_eval))
      ∧ (gtp_eval_record acm sz prune r s).m_visits (bitpos sz c.1 c.2) = r.visits
      ∧ (gtp_eval_record acm sz prune r s).tree.marks c.1 c.2 = (mark.letter, s.count) := by
  unfold first_cell at hcell
  cases hp : r.pv with
  | nil => rw [hp] at hcell; simp at hcell
  | cons pm rest =>
    rw [hp] at hcell
    simp only [List.head?_cons, Option.some_bind] at hcell
    unfold gtp_eval_record
    by_cases h0 : s.count = 0
    · rw [h0] at hret
      simp only [h0, if_true, hret, hp]
      exact add_candidate_written acm sz _ _ pm rest c _ hcell
    · simp only [h0, if_false, hret, if_true, hp]
      exact add_candidate_written acm sz _ _ pm rest c _ hcell

theorem gtp_eval_record_other (r : candidate) (c : Nat × Nat) (s : eval_loop P)
    (hc : c.1 < sz) (hne : first_cell sz r ≠ some c) :
    (gtp_eval_record acm sz prune r s).m_winrate (bitpos sz c.1 c.2)
        = s.m_winrate (bitpos sz c.1 c.2)
      ∧ (gtp_eval_record acm sz prune r s).m_visits (bitpos sz c.1 c.2)
        = s.m_visits (bitpos sz c.1 c.2)
      ∧ (gtp_eval_record acm sz prune r s).tree.marks c.1 c.2 = s.tree.marks c.1 c.2 := by
  unfold gtp_eval_record
  simp only
  split <;> split
  · exact add_candidate_other acm sz _ _ _ c _ hc hne
  · exact ⟨rfl, rfl, rfl⟩
  · exact add_candidate_other acm sz _ _ _ c _ hc hne
  · exact ⟨rfl, rfl, rfl⟩

theorem gtp_eval_record_index (r : candidate) (s : eval_loop P) (idx : Nat)
    (hidx : ∀ c, first_cell sz r = some c → idx ≠ bitpos sz c.1 c.2) :
    (gtp_eval_record acm sz prune r s).m_winrate idx = s.m_winrate idx
      ∧ (gtp_eval_record acm sz prune r s).m_visits idx = s.m_visits idx := by
  unfold gtp_eval_record
  simp only
  split <;> split
  · exact add_candidate_index acm sz _ _ _ _ idx hidx
  · exact ⟨rfl, rfl⟩
  · exact add_candidate_index acm sz _ _ _ _ idx hidx
  · exact ⟨rfl, rfl⟩

theorem gtp_eval_loop_other (moves : List (Option candidate)) (c : Nat × Nat)
    (s : eval_loop P) (hc : c.1 < sz)
    (hne : ∀ r ∈ moves.reduceOption, first_cell sz r ≠ some c) :
    (gtp_eval_loop acm sz prune M moves s).m_winrate (bitpos sz c.1 c.2)
        = s.m_winrate (bitpos sz c.1 c.2)
      ∧ (gtp_eval_loop acm sz prune M moves s).m_visits (bitpos sz c.1 c.2)
        = s.m_visits (bitpos sz c.1 c.2)
      ∧ (gtp_eval_loop acm sz prune M moves s).tree.marks c.1 c.2 = s.tree.marks c.1 c.2 := by
  induction moves generalizing s with
  | nil => exact ⟨rfl, rfl, rfl⟩
  | cons e rest ih =>
    cases e with
    | none =>
      simp only [gtp_eval_loop]
      exact ih s (fun r hr => hne r (by simpa [List.reduceOption_cons_of_none] using hr))
    | some r =>
      have hr : first_cell sz r ≠ some c :=
        hne r (by simp [List.reduceOption_cons_of_some])
      have hrest : ∀ r2 ∈ rest.reduceOption, first_cell sz r2 ≠ some c :=
        fun r2 h2 => hne r2 (by simp [List.reduceOption_cons_of_some, h2])
      obtain ⟨a1, a2, a3⟩ := gtp_eval_record_other acm sz prune r c s hc hr
      simp only [gtp_eval_loop]
      split
      · exact ⟨a1, a2, a3⟩
      · obtain ⟨b1, b2, b3⟩ := ih (gtp_eval_record acm sz prune r s) hrest
        exact ⟨b1.trans a1, b2.trans a2, b3.trans a3⟩

theorem gtp_eval_loop_index (moves : List (Option candidate)) (s : eval_loop P) (idx : Nat)
    (hidx : ∀ r ∈ moves.reduceOption, ∀ c, first_cell sz r = some c →
      idx ≠ bitpos sz c.1 c.2) :
    (gtp_eval_loop acm sz prune M moves s).m_winrate idx = s.m_winrate idx
      ∧ (gtp_eval_loop acm sz prune M moves s).m_visits idx = s.m_visits idx := by
  induction moves generalizing s with
  | nil => exact ⟨rfl, rfl⟩
  | cons e rest ih =>
    cases e with
    | none =>
      simp only [gtp_eval_loop]
      exact ih s (fun r hr => hidx r (by simpa [List.reduceOption_cons_of_none] using hr))
    | some r =>
      have hr := hidx r (by simp [List.reduceOption_cons_of_some])
      have hrest : ∀ r2 ∈ rest.reduceOption, ∀ c, first_cell sz r2 = some c →
          idx ≠ bitpos sz c.1 c.2 :=
        fun r2 h2 => hidx r2 (by simp [List.reduceOption_cons_of_some, h2])
      obtain ⟨a1, a2⟩ := gtp_eval_record_index acm sz prune r s idx hr
      simp only [gtp_eval_loop]
      split
      · exact ⟨a1, a2⟩
      · obtain ⟨b1, b2⟩ := ih (gtp_eval_record acm sz prune r s) hrest
        exact ⟨b1.trans a1, b2.trans a2⟩

theorem gtp_eval_loop_append (pre rest : List (Option candidate)) (s : eval_loop P)
    (hM : M ≤ 0 ∨ s.count + pre.reduceOption.length < M) :
    gtp_eval_loop acm sz prune M (pre ++ rest) s
        = gtp_eval_loop acm sz prune M rest (gtp_eval_loop acm sz prune M pre s)
      ∧ (gtp_eval_loop acm sz prune M pre s).count = s.count + pre.reduceOption.length := by
  induction pre generalizing s with
  | nil => simp [gtp_eval_loop]
  | cons e pre ih =>
    cases e with
    | none =>
      simp only [List.cons_append, gtp_eval_loop, List.reduceOption_cons_of_none]
      exact ih s (by simpa [List.reduceOption_cons_of_none] using hM)
    | some r =>
      have hcount := gtp_eval_record_count acm sz prune r s
      simp only [List.reduceOption_cons_of_some, List.length_cons, Nat.cast_add,
        Nat.cast_one] at hM ⊢
      have hnb : ¬ (M > 0 ∧ (gtp_eval_record acm sz prune r s).count = M) := by
        rw [hcount]
        rintro ⟨h1, h2⟩
        rcases hM with h | h
        · omega
        · have : (0 : Int) ≤ pre.reduceOption.length := Int.natCast_nonneg _
          omega
      have hM2 : M ≤ 0 ∨ (gtp_eval_record acm sz prune r s).count
          + pre.reduceOption.length < M := by
        rw [hcount]
        rcases hM with h | h
        · exact Or.inl h
        · exact Or.inr (by omega)
      obtain ⟨i1, i2⟩ := ih (gtp_eval_record acm sz prune r s) hM2
      simp only [List.cons_append, gtp_eval_loop, hnb, if_false]
      refine ⟨i1, ?_⟩
      rw [i2, hcount]
      ring

theorem gtp_eval_loop_count_pos (moves : List (Option candidate)) (s : eval_loop P)
    (h : 0 < s.count) :
    (gtp_eval_loop acm sz prune M moves s).m_primary_eval = s.m_primary_eval := by
  induction moves generalizing s with
  | nil => rfl
  | cons e rest ih =>
    cases e with
    | none => simp only [gtp_eval_loop]; exact ih s h
    | some r =>
      have hcount := gtp_eval_record_count acm sz prune r s
      have hprim := gtp_eval_record_primary acm sz prune r s
      rw [if_neg (by omega)] at hprim
      simp only [gtp_eval_loop]
      split
      · exact hprim
      · rw [ih _ (by omega), hprim]

theorem gtp_eval_loop_baseline (moves : List (Option candidate)) (s : eval_loop P)
    (r0 : candidate) (h0 : s.count = 0) (hfirst : moves.reduceOption.head? = some r0) :
    (gtp_eval_loop acm sz prune M moves s).m_primary_eval
      = round_double ((r0.winrate : ℚ) / 10000) := by
  induction moves generalizing s with
  | nil => simp at hfirst
  | cons e rest ih =>
    cases e with
    | none =>
      simp only [gtp_eval_loop]
      exact ih s h0 (by simpa [List.reduceOption_cons_of_none] using hfirst)
    | some r =>
      simp only [List.reduceOption_cons_of_some, List.head?_cons, Option.some.injEq] at hfirst
      subst hfirst
      have hcount := gtp_eval_record_count acm sz prune r s
      have hprim := gtp_eval_record_primary acm sz prune r s
      rw [if_pos h0] at hprim
      simp only [gtp_eval_loop]
      split
      · exact hprim
      · rw [gtp_eval_loop_count_pos acm sz prune M rest _ (by omega), hprim]

theorem gtp_eval_loop_no_record (moves : List (Option candidate)) (s : eval_loop P)
    (h : moves.reduceOption = []) : gtp_eval_loop acm sz prune M moves s = s := by
  induction moves with
  | nil => rfl
  | cons e rest ih =>
    cases e with
    | none =>
      simp only [gtp_eval_loop]
      exact ih (by simpa [List.reduceOption_cons_of_none] using h)
    | some r => simp [List.reduceOption_cons_of_some] at h

/-- The entries of the cell of a retained record in the state at the end of the
loop, when no later record has the same first cell. -/
theorem gtp_eval_loop_retained (pre post : List (Option candidate)) (r r0 : candidate)
    (c : Nat × Nat) (s : eval_loop P) (h0 : s.count = 0)
    (hfirst : (pre ++ [some r]).reduceOption.head? = some r0)
    (hreach : M ≤ 0 ∨ (pre.reduceOption.length : Int) < M)
    (hret : retained prune pre.reduceOption.length r = true)
    (hcell : first_cell sz r = some c)
    (hlater : ∀ r2 ∈ post.reduceOption, first_cell sz r2 ≠ some c) :
    (gtp_eval_loop acm sz prune M (pre ++ some r :: post) s).m_winrate (bitpos sz c.1 c.2)
        = round_double (round_double ((r.winrate : ℚ) / 10000)
          - round_double ((r0.winrate : ℚ) / 10000))
      ∧ (gtp_eval_loop acm sz prune M (pre ++ some r :: post) s).m_visits (bitpos sz c.1 c.2)
        = r.visits
      ∧ (gtp_eval_loop acm sz prune M (pre ++ some r :: post) s).tree.marks c.1 c.2
        = (mark.letter, (pre.reduceOption.length : Int)) := by
  have hM : M ≤ 0 ∨ s.count + pre.reduceOption.length < M := by
    rw [h0, zero_add]; exact hreach
  obtain ⟨happ, hcount⟩ := gtp_eval_loop_append acm sz prune M pre (some r :: post) s hM
  rw [h0, zero_add] at hcount
  have hc := (first_cell_in_board sz hcell).1
  have hret2 : retained prune (gtp_eval_loop acm sz prune M pre s).count r = true := by
    rw [hcount]; exact hret
  obtain ⟨w1, w2, w3⟩ :=
    gtp_eval_record_written acm sz prune r c (gtp_eval_loop acm sz prune M pre s) hret2 hcell
  have hbase : (if (gtp_eval_loop acm sz prune M pre s).count = 0 then
        round_double ((r.winrate : ℚ) / 10000)
      else (gtp_eval_loop acm sz prune M pre s).m_primary_eval)
      = round_double ((r0.winrate : ℚ) / 10000) := by
    cases hp : pre.reduceOption with
    | nil =>
      rw [List.reduceOption_append, hp] at hfirst
      simp only [List.nil_append, List.reduceOption_cons_of_some, List.head?_cons,
        Option.some.injEq] at hfirst
      rw [hcount, hp, hfirst]
      simp
    | cons a l =>
      rw [List.reduceOption_append, hp] at hfirst
      simp only [List.cons_append, List.head?_cons, Option.some.injEq] at hfirst
      have hb := gtp_eval_loop_baseline acm sz prune M pre s a h0 (by rw [hp]; rfl)
      rw [hcount, hp, hb, hfirst]
      simp only [List.length_cons, Nat.cast_add, Nat.cast_one]
      rw [if_neg]
      have : (0 : Int) ≤ l.length := Int.natCast_nonneg _
      omega
  rw [hbase] at w1
  rw [hcount] at w3
  rw [happ]
  simp only [gtp_eval_loop]
  split
  · exact ⟨w1, w2, w3⟩
  · obtain ⟨o1, o2, o3⟩ := gtp_eval_loop_other acm sz prune M post c
      (gtp_eval_record acm sz prune r (gtp_eval_loop acm sz prune M pre s)) hc hlater
    exact ⟨o1.trans w1, o2.trans w2, o3.trans w3⟩

end overlay_lemmas

/-! ## Decoding of coordinates: lemmas -/

theorem digitChar_toNat : ∀ d, d < 10 → (Nat.digitChar d).toNat = 48 + d := by decide

theorem parse_digits_map (B : List Nat) (hB : ∀ d ∈ B, d < 10) (acc : Nat) :
    parse_digits (B.map Nat.digitChar) acc
      = some (acc * 10 ^ B.length + Nat.ofDigits 10 B.reverse) := by
  induction B generalizing acc with
  | nil => simp [parse_digits, Nat.ofDigits]
  | cons d B ih =>
    have hd : d < 10 := hB d (List.mem_cons_self _ _)
    have hc := digitChar_toNat d hd
    have hB2 : ∀ x ∈ B, x < 10 := fun x hx => hB x (List.mem_cons_of_mem _ hx)
    have h1 : (decide (48 ≤ 48 + d) && decide (48 + d ≤ 57)) = true := by
      simp only [Bool.and_eq_true, decide_eq_true_eq]
      omega
    simp only [List.map_cons, parse_digits, hc, h1, if_true]
    rw [ih hB2, List.reverse_cons, Nat.ofDigits_append]
    simp only [Nat.ofDigits_singleton, List.length_reverse, List.length_cons]
    congr 1
    have : 48 + d - 48 = d := by omega
    rw [this]
    ring

theorem QString_number_digits (n : Nat) :
    ∃ B : List Nat, B ≠ [] ∧ (∀ d ∈ B, d < 10) ∧ QString_number n = B.map Nat.digitChar
      ∧ Nat.ofDigits 10 B.reverse = n := by
  by_cases h : n = 0
  · exact ⟨[0], by simp, by simp, by simp [QString_number, h], by simp [h, Nat.ofDigits]⟩
  · refine ⟨(Nat.digits 10 n).reverse, ?_, ?_, ?_, ?_⟩
    · simpa using (Nat.digits_ne_nil_iff_ne_zero.mpr h)
    · intro d hd
      exact Nat.digits_lt_base (by norm_num) (List.mem_reverse.mp hd)
    · simp [QString_number, h]
    · rw [List.reverse_reverse, Nat.ofDigits_digits]

theorem digitChar_plain : ∀ d, d < 10 →
    is_space (Nat.digitChar d) = false ∧ Nat.digitChar d ≠ '-' ∧ Nat.digitChar d ≠ '+' := by
  decide

theorem dropWhile_none {α : Type} (p : α → Bool) (l : List α) (h : ∀ x ∈ l, p x = false) :
    l.dropWhile p = l := by
  cases l with
  | nil => rfl
  | cons a t =>
    exact List.dropWhile_cons_of_neg (by simp [h a (List.mem_cons_self _ _)])

theorem QString_toInt_number (n : Nat) :
    QString_toInt (QString_number n) = if n ≤ 2147483647 then (n : Int) else 0 := by
  obtain ⟨B, hne, hB, hnum, hval⟩ := QString_number_digits n
  have hsp : ∀ x ∈ QString_number n, is_space x = false := by
    intro x hx
    rw [hnum] at hx
    obtain ⟨d, hd, rfl⟩ := List.mem_map.mp hx
    exact (digitChar_plain d (hB d hd)).1
  have hsp2 : ∀ x ∈ (QString_number n).reverse, is_space x = false :=
    fun x hx => hsp x (List.mem_reverse.mp hx)
  have hparse : parse_signed (QString_number n) = some (n : Int) := by
    rw [hnum]
    cases B with
    | nil => exact absurd rfl hne
    | cons d B2 =>
      have hd := digitChar_plain d (hB d (List.mem_cons_self _ _))
      have hp := parse_digits_map (d :: B2) hB 0
      rw [hval] at hp
      simp only [List.map_cons] at hp
      simp only [List.map_cons, parse_signed, hd.2.1, hd.2.2, if_false, hp]
      simp
  unfold QString_toInt
  rw [dropWhile_none _ _ hsp, dropWhile_none _ _ hsp2, List.reverse_reverse, hparse]
  simp only
  by_cases h : n ≤ 2147483647
  · have h1 : (-2147483648 : Int) ≤ n ∧ (n : Int) ≤ 2147483647 := by omega
    rw [if_pos h1, if_pos h]
  · have h1 : ¬ ((-2147483648 : Int) ≤ n ∧ (n : Int) ≤ 2147483647) := by omega
    rw [if_neg h1, if_neg h]

theorem pv_column_letters :
    ∀ L ∈ column_letters, pv_column L = (column_letters.indexOf L : Int) := by
  decide

theorem indexOf_letters_inj :
    ∀ L ∈ column_letters, ∀ L2 ∈ column_letters,
      column_letters.indexOf L = column_letters.indexOf L2 → L = L2 := by
  decide

theorem retained_false_iff (prune : Bool) (count : Int) (r : candidate) :
    retained prune count r = false
      ↔ (¬ count < 52 ∨ (prune = true ∧ r.pv.length ≤ 1 ∧ r.visits < 2)) := by
  unfold retained
  cases prune
  · simp
  · simp
    omega

theorem gtp_eval_record_skipped {P : Type} (acm : P → Nat → Nat → Option P) (sz : Nat)
    (prune : Bool) (r : candidate) (s : eval_loop P)
    (h : retained prune s.count r = false) :
    (gtp_eval_record acm sz prune r s).tree = s.tree
      ∧ (gtp_eval_record acm sz prune r s).m_winrate = s.m_winrate
      ∧ (gtp_eval_record acm sz prune r s).m_visits = s.m_visits := by
  unfold gtp_eval_record
  by_cases h0 : s.count = 0
  · rw [h0] at h
    simp [h0, h]
  · simp [h0, h]

theorem first_record_exists (pre : List (Option candidate)) (r : candidate) :
    ∃ r0, (pre ++ [some r]).reduceOption.head? = some r0 := by
  rw [List.reduceOption_append]
  cases pre.reduceOption with
  | nil => exact ⟨r, by simp [List.reduceOption_cons_of_some]⟩
  | cons a l => exact ⟨a, by simp⟩

theorem gtp_eval_run {P : Type} (acm : P → Nat → Nat → Option P) (sz : Nat) (prune : Bool)
    (M : Int) (active : P) (am : Nat → Nat → mark × Int) (moves : List (Option candidate))
    (b : eval_data P) (hne : moves ≠ []) :
    gtp_eval acm sz false prune M active am moves b
      = ⟨some (gtp_eval_loop acm sz prune M moves
            ⟨⟨active, am, []⟩, b.m_winrate, b.m_visits, 1 / 2, 0⟩).tree,
          (gtp_eval_loop acm sz prune M moves
            ⟨⟨active, am, []⟩, b.m_winrate, b.m_visits, 1 / 2, 0⟩).m_winrate,
          (gtp_eval_loop acm sz prune M moves
            ⟨⟨active, am, []⟩, b.m_winrate, b.m_visits, 1 / 2, 0⟩).m_visits,
          (gtp_eval_loop acm sz prune M moves
            ⟨⟨active, am, []⟩, b.m_winrate, b.m_visits, 1 / 2, 0⟩).m_primary_eval⟩ := by
  cases moves with
  | nil => exact absurd rfl hne
  | cons e rest => simp [gtp_eval]

section overlay_tree_lemmas

variable {P : Type} (acm : P → Nat → Nat → Option P) (sz : Nat) (prune : Bool) (M : Int)

theorem pv_chain_spec (cur : P) (pv : List (List Char)) :
    (∃ t, longest_in_board sz pv = pv_chain acm sz cur pv ++ t)
      ∧ ∃ p, play_all acm cur (pv_chain acm sz cur pv) = some p
        ∧ (pv_chain acm sz cur pv = longest_in_board sz pv
          ∨ ∃ c, (longest_in_board sz pv)[(pv_chain acm sz cur pv).length]? = some c
            ∧ acm p c.1 c.2 = none) := by
  induction pv generalizing cur with
  | nil => exact ⟨⟨[], rfl⟩, cur, rfl, Or.inl rfl⟩
  | cons pm rest ih =>
    cases hd : decode_pv_move sz pm with
    | none =>
      have e1 : pv_chain acm sz cur (pm :: rest) = [] := by simp only [pv_chain, hd]
      have e2 : longest_in_board sz (pm :: rest) = [] := by simp only [longest_in_board, hd]
      rw [e1, e2]
      exact ⟨⟨[], rfl⟩, cur, rfl, Or.inl rfl⟩
    | some c =>
      have e2 : longest_in_board sz (pm :: rest) = c :: longest_in_board sz rest := by
        simp only [longest_in_board, hd]
      cases ha : acm cur c.1 c.2 with
      | none =>
        have e1 : pv_chain acm sz cur (pm :: rest) = [] := by simp only [pv_chain, hd, ha]
        rw [e1, e2]
        exact ⟨⟨_, rfl⟩, cur, rfl, Or.inr ⟨c, by simp, ha⟩⟩
      | some next =>
        have e1 : pv_chain acm sz cur (pm :: rest) = c :: pv_chain acm sz next rest := by
          simp only [pv_chain, hd, ha]
        obtain ⟨⟨t, ht⟩, p, hp, hmax⟩ := ih next
        rw [e1, e2]
        refine ⟨⟨t, by rw [ht]; rfl⟩, p, by simp only [play_all, ha]; exact hp, ?_⟩
        rcases hmax with h | ⟨c2, h1, h2⟩
        · exact Or.inl (by rw [h])
        · exact Or.inr ⟨c2, by simpa using h1, h2⟩

theorem pv_chain_total (cur : P) (pv : List (List Char))
    (hall : ∀ p x y, x < sz → y < sz → acm p x y ≠ none) :
    pv_chain acm sz cur pv = longest_in_board sz pv := by
  induction pv generalizing cur with
  | nil => rfl
  | cons pm rest ih =>
    cases hd : decode_pv_move sz pm with
    | none => simp only [pv_chain, longest_in_board, hd]
    | some c =>
      obtain ⟨hx, hy⟩ := decode_in_board sz hd
      cases ha : acm cur c.1 c.2 with
      | none => exact absurd ha (hall cur c.1 c.2 hx hy)
      | some next => simp only [pv_chain, longest_in_board, hd, ha, ih next]

theorem add_candidate_children (wr : ℚ) (visits : Nat) (pv : List (List Char))
    (s : eval_loop P) :
    (add_candidate acm sz wr visits pv s).tree.children
      = s.tree.children ++ (if pv_chain acm sz s.tree.position pv = [] then []
          else [pv_chain acm sz s.tree.position pv]) := by
  unfold add_candidate
  cases pv with
  | nil => simp [pv_chain]
  | cons pm rest =>
    simp only
    cases hd : decode_pv_move sz pm with
    | none => simp [pv_chain, hd]
    | some c =>
      simp only
      cases hch : pv_chain acm sz s.tree.position (pm :: rest) with
      | nil => simp [mark_first]
      | cons a l => simp [mark_first]

theorem add_candidate_outside (wr : ℚ) (visits : Nat) (pv : List (List Char))
    (s : eval_loop P) (h : pv.head?.bind (decode_pv_move sz) = none) :
    add_candidate acm sz wr visits pv s = s := by
  unfold add_candidate
  cases pv with
  | nil => rfl
  | cons pm rest =>
    simp only [List.head?_cons, Option.some_bind] at h
    simp only [h]

theorem gtp_eval_record_children (r : candidate) (s : eval_loop P)
    (hret : retained prune s.count r = true) :
    (gtp_eval_record acm sz prune r s).tree.children
      = s.tree.children ++ (if pv_chain acm sz s.tree.position r.pv = [] then []
          else [pv_chain acm sz s.tree.position r.pv]) := by
  unfold gtp_eval_record
  by_cases h0 : s.count = 0
  · rw [h0] at hret
    simp only [h0, if_true, hret]
    exact add_candidate_children acm sz _ _ _ _
  · simp only [h0, if_false, hret, if_true]
    exact add_candidate_children acm sz _ _ _ _

theorem gtp_eval_record_outside (r : candidate) (s : eval_loop P)
    (h : first_cell sz r = none) :
    (gtp_eval_record acm sz prune r s).tree = s.tree
      ∧ (gtp_eval_record acm sz prune r s).m_winrate = s.m_winrate
      ∧ (gtp_eval_record acm sz prune r s).m_visits = s.m_visits := by
  unfold gtp_eval_record
  simp only
  split <;> split
  · rw [add_candidate_outside acm sz _ _ _ _ h]; exact ⟨rfl, rfl, rfl⟩
  · exact ⟨rfl, rfl, rfl⟩
  · rw [add_candidate_outside acm sz _ _ _ _ h]; exact ⟨rfl, rfl, rfl⟩
  · exact ⟨rfl, rfl, rfl⟩

theorem gtp_eval_loop_position (moves : List (Option candidate)) (s : eval_loop P) :
    (gtp_eval_loop acm sz prune M moves s).tree.position = s.tree.position := by
  induction moves generalizing s with
  | nil => rfl
  | cons e rest ih =>
    cases e with
    | none => simp only [gtp_eval_loop]; exact ih s
    | some r =>
      simp only [gtp_eval_loop]
      split
      · exact gtp_eval_record_position acm sz prune r s
      · rw [ih, gtp_eval_record_position]

theorem gtp_eval_record_children_le (r : candidate) (s : eval_loop P) :
    (gtp_eval_record acm sz prune r s).tree.children.length
      ≤ s.tree.children.length + (if retained prune s.count r then [r] else []).length := by
  cases hret : retained prune s.count r with
  | true =>
    rw [gtp_eval_record_children acm sz prune r s hret]
    split <;> simp
  | false =>
    rw [(gtp_eval_record_skipped acm sz prune r s hret).1]
    simp

theorem gtp_eval_loop_children_le (moves : List (Option candidate)) (s : eval_loop P) :
    (gtp_eval_loop acm sz prune M moves s).tree.children.length
      ≤ s.tree.children.length + (retained_records prune M moves s.count).length := by
  induction moves generalizing s with
  | nil => simp [gtp_eval_loop, retained_records]
  | cons e rest ih =>
    cases e with
    | none => simp only [gtp_eval_loop, retained_records]; exact ih s
    | some r =>
      have hc := gtp_eval_record_count acm sz prune r s
      have hle := gtp_eval_record_children_le acm sz prune r s
      simp only [gtp_eval_loop, retained_records, List.length_append]
      by_cases hb : M > 0 ∧ (gtp_eval_record acm sz prune r s).count = M
      · have hb2 : M > 0 ∧ s.count + 1 = M := by rw [← hc]; exact hb
        rw [if_pos hb, if_pos hb2]
        simpa using hle
      · have hb2 : ¬ (M > 0 ∧ s.count + 1 = M) := by rw [← hc]; exact hb
        rw [if_neg hb, if_neg hb2]
        have := ih (gtp_eval_record acm sz prune r s)
        rw [hc] at this
        omega

theorem retained_records_le (moves : List (Option candidate)) (count : Int) :
    ((retained_records prune M moves count).length : Int) ≤ max 0 (52 - count) := by
  induction moves generalizing count with
  | nil => simp [retained_records]
  | cons e rest ih =>
    cases e with
    | none => simp only [retained_records]; exact ih count
    | some r =>
      have h1 : ((if retained prune count r then [r] else []).length : Int) ≤ 1 := by
        split <;> simp
      have h0 : ¬ count < 52 →
          ((if retained prune count r then [r] else []).length : Int) = 0 := by
        intro hc
        have : retained prune count r = false :=
          (retained_false_iff prune count r).mpr (Or.inl hc)
        rw [this]; simp
      have h2 := ih (count + 1)
      simp only [retained_records, List.length_append, Nat.cast_add]
      generalize ((if retained prune count r then [r] else []).length : Int) = X at h0 h1 ⊢
      by_cases hb : M > 0 ∧ count + 1 = M
      · rw [if_pos hb]
        simp only [List.length_nil, Nat.cast_zero, add_zero]
        omega
      · rw [if_neg hb]
        omega

theorem retained_records_le_max (moves : List (Option candidate)) (count : Int)
    (hM : 0 < M) (hc : count < M) :
    ((retained_records prune M moves count).length : Int) ≤ M - count := by
  induction moves generalizing count with
  | nil => simp only [retained_records, List.length_nil, Nat.cast_zero]; omega
  | cons e rest ih =>
    cases e with
    | none => simp only [retained_records]; exact ih count hc
    | some r =>
      have h1 : ((if retained prune count r then [r] else []).length : Int) ≤ 1 := by
        split <;> simp
      simp only [retained_records, List.length_append, Nat.cast_add]
      generalize ((if retained prune count r then [r] else []).length : Int) = X at h1 ⊢
      by_cases hb : M > 0 ∧ count + 1 = M
      · rw [if_pos hb]
        simp only [List.length_nil, Nat.cast_zero, add_zero]
        omega
      · rw [if_neg hb]
        have hlt : count + 1 < M := by
          rcases lt_or_eq_of_le (show count + 1 ≤ M by omega) with h | h
          · exact h
          · exact absurd (And.intro hM h) hb
        have := ih (count + 1) hlt
        omega

theorem gtp_eval_loop_cutoff (pre post : List (Option candidate)) (s : eval_loop P)
    (hM : 0 < M) (hc : s.count < M) (hfull : M ≤ s.count + pre.reduceOption.length) :
    gtp_eval_loop acm sz prune M (pre ++ post) s = gtp_eval_loop acm sz prune M pre s := by
  induction pre generalizing s with
  | nil => simp at hfull; omega
  | cons e pre ih =>
    cases e with
    | none =>
      simp only [List.cons_append, gtp_eval_loop]
      exact ih s hc (by simpa [List.reduceOption_cons_of_none] using hfull)
    | some r =>
      have hcount := gtp_eval_record_count acm sz prune r s
      simp only [List.reduceOption_cons_of_some, List.length_cons, Nat.cast_add,
        Nat.cast_one] at hfull
      simp only [List.cons_append, gtp_eval_loop]
      by_cases hb : M > 0 ∧ (gtp_eval_record acm sz prune r s).count = M
      · rw [if_pos hb, if_pos hb]
      · rw [if_neg hb, if_neg hb]
        have hlt : (gtp_eval_record acm sz prune r s).count < M := by
          rw [hcount]
          rcases lt_or_eq_of_le (show s.count + 1 ≤ M by omega) with h | h
          · exact h
          · exact absurd ⟨hM, by rw [hcount]; exact h⟩ hb
        exact ih _ hlt (by rw [hcount]; omega)

theorem add_candidate_tree_agree (wr : ℚ) (visits : Nat) (pv : List (List Char))
    (s s2 : eval_loop P) (ht : s.tree = s2.tree) (hc : s.count = s2.count) :
    (add_candidate acm sz wr visits pv s).tree = (add_candidate acm sz wr visits pv s2).tree := by
  obtain ⟨t, w, v, p, n⟩ := s
  obtain ⟨t2, w2, v2, p2, n2⟩ := s2
  simp only at ht hc
  subst ht hc
  unfold add_candidate
  cases pv with
  | nil => rfl
  | cons pm rest =>
    simp only
    cases decode_pv_move sz pm with
    | none => rfl
    | some c =>
      simp only
      cases pv_chain acm sz t.position (pm :: rest) <;> rfl

theorem gtp_eval_record_agree (r : candidate) (s s2 : eval_loop P)
    (ht : s.tree = s2.tree) (hp : s.m_primary_eval = s2.m_primary_eval)
    (hc : s.count = s2.count) :
    (gtp_eval_record acm sz prune r s).tree = (gtp_eval_record acm sz prune r s2).tree
      ∧ (gtp_eval_record acm sz prune r s).m_primary_eval
        = (gtp_eval_record acm sz prune r s2).m_primary_eval
      ∧ (gtp_eval_record acm sz prune r s).count = (gtp_eval_record acm sz prune r s2).count := by
  refine ⟨?_, ?_, ?_⟩
  · obtain ⟨t, w, v, p, n⟩ := s
    obtain ⟨t2, w2, v2, p2, n2⟩ := s2
    simp only at ht hp hc
    subst ht hp hc
    unfold gtp_eval_record
    simp only
    split <;> split
    · exact add_candidate_tree_agree acm sz _ _ _ _ _ rfl rfl
    · rfl
    · exact add_candidate_tree_agree acm sz _ _ _ _ _ rfl rfl
    · rfl
  · rw [gtp_eval_record_primary, gtp_eval_record_primary, hc, hp]
  · rw [gtp_eval_record_count, gtp_eval_record_count, hc]

theorem gtp_eval_loop_agree (moves : List (Option candidate)) (s s2 : eval_loop P)
    (ht : s.tree = s2.tree) (hp : s.m_primary_eval = s2.m_primary_eval)
    (hc : s.count = s2.count) :
    (gtp_eval_loop acm sz prune M moves s).tree = (gtp_eval_loop acm sz prune M moves s2).tree
      ∧ (gtp_eval_loop acm sz prune M moves s).m_primary_eval
        = (gtp_eval_loop acm sz prune M moves s2).m_primary_eval := by
  induction moves generalizing s s2 with
  | nil => exact ⟨ht, hp⟩
  | cons e rest ih =>
    cases e with
    | none => simp only [gtp_eval_loop]; exact ih s s2 ht hp hc
    | some r =>
      obtain ⟨a1, a2, a3⟩ := gtp_eval_record_agree acm sz prune r s s2 ht hp hc
      simp only [gtp_eval_loop]
      by_cases hb : M > 0 ∧ (gtp_eval_record acm sz prune r s).count = M
      · rw [if_pos hb, if_pos (by rw [← a3]; exact hb)]
        exact ⟨a1, a2⟩
      · rw [if_neg hb, if_neg (by rw [← a3]; exact hb)]
        exact ih _ _ a1 a2 a3

end overlay_tree_lemmas

theorem gtp_eval_loop_snoc {P : Type} (acm : P → Nat → Nat → Option P) (sz : Nat)
    (prune : Bool) (M : Int) (pre : List (Option candidate)) (r : candidate)
    (s0 : eval_loop P) (h0 : s0.count = 0)
    (hreach : M ≤ 0 ∨ (pre.reduceOption.length : Int) < M) :
    gtp_eval_loop acm sz prune M (pre ++ [some r]) s0
        = gtp_eval_record acm sz prune r (gtp_eval_loop acm sz prune M pre s0)
      ∧ (gtp_eval_loop acm sz prune M pre s0).count = pre.reduceOption.length := by
  have hM : M ≤ 0 ∨ s0.count + pre.reduceOption.length < M := by
    rw [h0, zero_add]; exact hreach
  obtain ⟨happ, hcount⟩ := gtp_eval_loop_append acm sz prune M pre [some r] s0 hM
  rw [h0, zero_add] at hcount
  refine ⟨?_, hcount⟩
  rw [happ]
  simp only [gtp_eval_loop]
  split <;> rfl

/-! ## The analysis overlay: the claims -/

/-- C4 as stated fails, in two ways.  The values are doubles: with a primary
of winrate 5000 and a second candidate of winrate 6000 the entry of the second
candidate at Q4 is the double 0x1.9999999999998p-4, which is neither the real
number 6000/10000 - 5000/10000 = 0.1 nor the double nearest to 0.1.  And a
later record with the same first cell overwrites the entry: after the primary
at D4 a second candidate at D4 leaves its own delta, not 0, at the cell of the
primary. -/
theorem winrate_delta_counterexample :
    (gtp_eval occupied_rule 19 false true 0 [] no_marks
        [some cand_primary, some cand_second] fresh_eval).m_winrate (bitpos 19 15 15)
        = 900719925474099 / 9007199254740992
      ∧ (gtp_eval occupied_rule 19 false true 0 [] no_marks
          [some cand_primary, some cand_second] fresh_eval).m_winrate (bitpos 19 15 15)
          ≠ (6000 : ℚ) / 10000 - 5000 / 10000
      ∧ (gtp_eval occupied_rule 19 false true 0 [] no_marks
          [some cand_primary, some cand_second] fresh_eval).m_winrate (bitpos 19 15 15)
          ≠ round_double (1 / 10)
      ∧ first_cell 19 cand_primary = some (3, 15)
      ∧ (gtp_eval occupied_rule 19 false true 0 [] no_marks
          [some cand_primary, some cand_same_cell] fresh_eval).m_winrate (bitpos 19 3 15)
          ≠ 0 := by
  have h1 : (gtp_eval occupied_rule 19 false true 0 [] no_marks
      [some cand_primary, some cand_second] fresh_eval).m_winrate (bitpos 19 15 15)
      = 900719925474099 / 9007199254740992 := by
    rw [gtp_eval_run occupied_rule 19 true 0 [] no_marks _ fresh_eval (by simp)]
    have hw := (gtp_eval_loop_retained occupied_rule 19 true 0 [some cand_primary] []
      cand_second cand_primary (15, 15)
      ⟨⟨[], no_marks, []⟩, fresh_eval.m_winrate, fresh_eval.m_visits, 1 / 2, 0⟩ rfl
      (by decide) (Or.inl (by decide)) (by decide) (by decide) (by simp)).1
    refine hw.trans ?_
    have e1 : (cand_second.winrate : ℚ) = 6000 := by norm_num [cand_second]
    have e2 : (cand_primary.winrate : ℚ) = 5000 := by norm_num [cand_primary]
    rw [e1, e2, round_double_six_minus_five]
  have h2 : (gtp_eval occupied_rule 19 false true 0 [] no_marks
      [some cand_primary, some cand_same_cell] fresh_eval).m_winrate (bitpos 19 3 15)
      = 900719925474099 / 9007199254740992 := by
    rw [gtp_eval_run occupied_rule 19 true 0 [] no_marks _ fresh_eval (by simp)]
    have hw := (gtp_eval_loop_retained occupied_rule 19 true 0 [some cand_primary] []
      cand_same_cell cand_primary (3, 15)
      ⟨⟨[], no_marks, []⟩, fresh_eval.m_winrate, fresh_eval.m_visits, 1 / 2, 0⟩ rfl
      (by decide) (Or.inl (by decide)) (by decide) (by decide) (by simp)).1
    refine hw.trans ?_
    have e1 : (cand_same_cell.winrate : ℚ) = 6000 := by norm_num [cand_same_cell]
    have e2 : (cand_primary.winrate : ℚ) = 5000 := by norm_num [cand_primary]
    rw [e1, e2, round_double_six_minus_five]
  refine ⟨h1, ?_, ?_, by decide, ?_⟩
  · rw [h1]; norm_num
  · rw [h1, round_double_tenth]; norm_num
  · rw [h2]; norm_num

/-- C4, amended: in `Board::gtp_eval` the baseline is the double
`winrate / 10000.` of the first record of the batch that matches (`r0`, index
0), and a retained candidate `r` whose first PV move decodes to the cell `c`
has the double difference `winrate / 10000. - baseline` stored at `c` in the
winrate-delta array; for the primary itself this is 0.  The value is the one
in the array at the end of the batch provided no later record of the batch has
the same first cell (for the batch that ends with `r` this proviso is
empty). -/
theorem winrate_delta {P : Type} (acm : P → Nat → Nat → Option P) (sz : Nat) (prune : Bool)
    (M : Int) (active : P) (am : Nat → Nat → mark × Int) (b : eval_data P)
    (pre post : List (Option candidate)) (r r0 : candidate) (c : Nat × Nat)
    (hfirst : (pre ++ [some r]).reduceOption.head? = some r0)
    (hreach : M ≤ 0 ∨ (pre.reduceOption.length : Int) < M)
    (hret : retained prune pre.reduceOption.length r = true)
    (hcell : first_cell sz r = some c)
    (hlater : ∀ r2 ∈ post.reduceOption, first_cell sz r2 ≠ some c) :
    (gtp_eval acm sz false prune M active am (pre ++ some r :: post) b).m_primary_eval
        = round_double ((r0.winrate : ℚ) / 10000)
      ∧ (gtp_eval acm sz false prune M active am (pre ++ some r :: post) b).m_winrate
          (bitpos sz c.1 c.2)
          = round_double (round_double ((r.winrate : ℚ) / 10000)
            - round_double ((r0.winrate : ℚ) / 10000))
      ∧ (pre.reduceOption = [] →
          (gtp_eval acm sz false prune M active am (pre ++ some r :: post) b).m_winrate
            (bitpos sz c.1 c.2) = 0) := by
  rw [gtp_eval_run acm sz prune M active am _ b (by simp)]
  have hw := (gtp_eval_loop_retained acm sz prune M pre post r r0 c
    ⟨⟨active, am, []⟩, b.m_winrate, b.m_visits, 1 / 2, 0⟩ rfl hfirst hreach hret hcell hlater).1
  have hfirst2 : (pre ++ some r :: post).reduceOption.head? = some r0 := by
    rw [List.reduceOption_append] at hfirst ⊢
    cases hp : pre.reduceOption with
    | nil => rw [hp] at hfirst; simpa [List.reduceOption_cons_of_some] using hfirst
    | cons a l => rw [hp] at hfirst; simpa using hfirst
  refine ⟨gtp_eval_loop_baseline acm sz prune M _ _ r0 rfl hfirst2, hw, ?_⟩
  intro hp
  rw [List.reduceOption_append, hp] at hfirst
  simp only [List.nil_append, List.reduceOption_cons_of_some, List.head?_cons,
    Option.some.injEq] at hfirst
  simp only at hw ⊢
  rw [hw, hfirst, sub_self, round_double_zero]

/-- Witness of C4: a primary candidate with winrate 5000 followed by a second
candidate with winrate 6000 and a third record, whose first PV move Q4 is the
cell (15,15) of a 19x19 board: the baseline is the double 0.5 and the stored
winrate delta of the second candidate is the double difference of
0x1.3333333333333p-1 and 0.5, that is 0x1.9999999999998p-4. -/
theorem winrate_delta_witness :
    (gtp_eval occupied_rule 19 false true 0 [] no_marks
        [some cand_primary, some cand_second, some cand_single] fresh_eval).m_primary_eval
        = 1 / 2
      ∧ (gtp_eval occupied_rule 19 false true 0 [] no_marks
          [some cand_primary, some cand_second, some cand_single] fresh_eval).m_winrate
          (bitpos 19 15 15) = 900719925474099 / 9007199254740992 := by
  have h := winrate_delta occupied_rule 19 true 0 [] no_marks fresh_eval
    [some cand_primary] [some cand_single] cand_second cand_primary (15, 15) (by decide)
    (Or.inl (by decide)) (by decide) (by decide) (by decide)
  have e1 : (cand_second.winrate : ℚ) = 6000 := by norm_num [cand_second]
  have e2 : (cand_primary.winrate : ℚ) = 5000 := by norm_num [cand_primary]
  rw [e1, e2, round_double_six_minus_five, round_double_five] at h
  exact ⟨h.1, h.2.1⟩

/-- C5 as stated fails: with pruning disabled, the 53rd record of a batch (PV
of two moves, 40 visits) is skipped: it gets no letter mark, no array entry and
no overlay node, although the pruning condition does not hold for it. -/
theorem pruning_iff_counterexample :
    (gtp_eval occupied_rule 19 false false 0 [] no_marks
        (List.replicate 52 (some cand_primary) ++ [some cand_second]) fresh_eval).m_visits
        (bitpos 19 15 15) = 0
      ∧ (gtp_eval occupied_rule 19 false false 0 [] no_marks
          (List.replicate 52 (some cand_primary) ++ [some cand_second])
          fresh_eval).m_eval_state.map (fun t => (t.marks 15 15, t.children.length))
        = some ((mark.none, 0), 52)
      ∧ first_cell 19 cand_second = some (15, 15)
      ∧ ¬ (false = true ∧ cand_second.pv.length = 1 ∧ cand_second.visits < 2) := by
  set_option maxRecDepth 100000 in decide

/-- C5 amended: a record that the loop reaches with fewer than 52 matching
records before it is skipped (overlay tree, marks and both arrays as they were
before it) when pruning is enabled, its PV has at most one move and its visit
count is below 2; in every other case it is retained, and when its first PV
move decodes to a cell of the board, that cell gets the letter mark with the
index of the record and the visit count of the record.  The loop starts from
any variables with `count = 0`. -/
theorem pruning_rule {P : Type} (acm : P → Nat → Nat → Option P) (sz : Nat) (prune : Bool)
    (M : Int) (pre : List (Option candidate)) (r : candidate) (s0 : eval_loop P)
    (h0 : s0.count = 0) (hidx : pre.reduceOption.length < 52)
    (hreach : M ≤ 0 ∨ (pre.reduceOption.length : Int) < M) :
    ((prune = true ∧ r.pv.length ≤ 1 ∧ r.visits < 2) →
        (gtp_eval_loop acm sz prune M (pre ++ [some r]) s0).tree
            = (gtp_eval_loop acm sz prune M pre s0).tree
          ∧ (gtp_eval_loop acm sz prune M (pre ++ [some r]) s0).m_winrate
            = (gtp_eval_loop acm sz prune M pre s0).m_winrate
          ∧ (gtp_eval_loop acm sz prune M (pre ++ [some r]) s0).m_visits
            = (gtp_eval_loop acm sz prune M pre s0).m_visits)
      ∧ (¬ (prune = true ∧ r.pv.length ≤ 1 ∧ r.visits < 2) →
          ∀ c, first_cell sz r = some c →
            (gtp_eval_loop acm sz prune M (pre ++ [some r]) s0).tree.marks c.1 c.2
                = (mark.letter, (pre.reduceOption.length : Int))
              ∧ (gtp_eval_loop acm sz prune M (pre ++ [some r]) s0).m_visits
                (bitpos sz c.1 c.2) = r.visits) := by
  have hM : M ≤ 0 ∨ s0.count + pre.reduceOption.length < M := by
    rw [h0, zero_add]; exact hreach
  obtain ⟨happ, hcount⟩ := gtp_eval_loop_append acm sz prune M pre [some r] s0 hM
  rw [h0, zero_add] at hcount
  have hlt : ((pre.reduceOption.length : Nat) : Int) < 52 := by exact_mod_cast hidx
  constructor
  · intro hp
    have hret : retained prune (gtp_eval_loop acm sz prune M pre s0).count r = false := by
      rw [hcount]
      exact (retained_false_iff prune _ r).mpr (Or.inr hp)
    obtain ⟨k1, k2, k3⟩ := gtp_eval_record_skipped acm sz prune r _ hret
    rw [happ]
    simp only [gtp_eval_loop]
    split <;> exact ⟨k1, k2, k3⟩
  · intro hp c hc
    have hret : retained prune (pre.reduceOption.length : Int) r = true := by
      cases hr : retained prune (pre.reduceOption.length : Int) r with
      | true => rfl
      | false =>
        rcases (retained_false_iff prune _ r).mp hr with h | h
        · exact absurd hlt h
        · exact absurd h hp
    obtain ⟨r0, hr0⟩ := first_record_exists pre r
    obtain ⟨_, w2, w3⟩ := gtp_eval_loop_retained acm sz prune M pre [] r r0 c s0 h0 hr0
      hreach hret hc (by simp)
    exact ⟨w3, w2⟩

/-- Witness of C5 amended: the single-move candidate C3 with one visit, first
of its batch, leaves the cell (2,16) without mark and entry when pruning is
enabled, and is marked with index 0 and entered with 1 visit when pruning is
disabled. -/
theorem pruning_rule_witness :
    ((gtp_eval_loop occupied_rule 19 true 0 [some cand_single] fresh_loop).tree.marks 2 16
        = (mark.none, 0)
      ∧ (gtp_eval_loop occupied_rule 19 true 0 [some cand_single] fresh_loop).tree.children
        = []
      ∧ (gtp_eval_loop occupied_rule 19 true 0 [some cand_single] fresh_loop).m_visits
        (bitpos 19 2 16) = 0)
    ∧ ((gtp_eval_loop occupied_rule 19 false 0 [some cand_single] fresh_loop).tree.marks 2 16
        = (mark.letter, 0)
      ∧ (gtp_eval_loop occupied_rule 19 false 0 [some cand_single] fresh_loop).m_visits
        (bitpos 19 2 16) = 1) := by
  have hon := (pruning_rule occupied_rule 19 true 0 [] cand_single fresh_loop rfl
    (by decide) (Or.inl (by decide))).1 ⟨rfl, by decide, by decide⟩
  have hoff := (pruning_rule occupied_rule 19 false 0 [] cand_single fresh_loop rfl
    (by decide) (Or.inl (by decide))).2 (by decide) (2, 16) (by decide)
  refine ⟨⟨?_, ?_, ?_⟩, hoff⟩
  · exact congrFun (congrFun (congrArg overlay.marks hon.1) 2) 16
  · exact congrArg overlay.children hon.1
  · exact congrFun hon.2.2 (bitpos 19 2 16)

/-- C6: for a token made of a letter `L` of the alphabet A..Z without I and the
decimal digits of `n`, the decoded column is the position of `L` in that
alphabet (counted from 0), the decoded row is `board_size - n` (for every `n`
that an `int` holds; a larger number converts to 0 and the token is rejected,
as the row `board_size - n` below 0 requires), distinct letters decode to
distinct columns, and the token is accepted exactly when
`0 <= column < board_size` and `0 <= board_size - n < board_size`, the accepted
cell being (column, `board_size - n`). -/
theorem decode_coordinate (sz n : Nat) (L : Char) (hL : L ∈ column_letters)
    (hsz : sz ≤ 2147483647) :
    pv_column L = (column_letters.indexOf L : Int)
      ∧ (n ≤ 2147483647 → pv_row sz (QString_number n) = (sz : Int) - n)
      ∧ (∀ L2 ∈ column_letters, L2 ≠ L → pv_column L2 ≠ pv_column L)
      ∧ ((decode_pv_move sz (L :: QString_number n)).isSome = true
          ↔ (0 ≤ (column_letters.indexOf L : Int) ∧ (column_letters.indexOf L : Int) < sz
              ∧ 0 ≤ (sz : Int) - n ∧ (sz : Int) - n < sz))
      ∧ (∀ c, decode_pv_move sz (L :: QString_number n) = some c →
          c.1 = column_letters.indexOf L ∧ (c.2 : Int) = (sz : Int) - n) := by
  have hcol := pv_column_letters L hL
  have hrow : pv_row sz (QString_number n)
      = (sz : Int) - (if n ≤ 2147483647 then (n : Int) else 0) := by
    unfold pv_row
    rw [QString_toInt_number]
  refine ⟨hcol, ?_, ?_, ?_, ?_⟩
  · intro hn
    rw [hrow, if_pos hn]
  · intro L2 hL2 hne heq
    rw [pv_column_letters L2 hL2, hcol] at heq
    exact hne (indexOf_letters_inj L2 hL2 L hL (by exact_mod_cast heq))
  · simp only [decode_pv_move, hcol, hrow]
    by_cases hn : n ≤ 2147483647
    · simp only [if_pos hn]
      split <;> simp_all
    · simp only [if_neg hn]
      split
      · rename_i h; omega
      · simp only [Option.isSome_none, Bool.false_eq_true, false_iff]
        omega
  · intro c hc
    simp only [decode_pv_move, hcol, hrow] at hc
    by_cases hn : n ≤ 2147483647
    · simp only [if_pos hn] at hc
      split at hc
      · rename_i h
        simp only [Option.some.injEq] at hc
        subst hc
        refine ⟨by simp, ?_⟩
        show (((sz : Int) - n).toNat : Int) = (sz : Int) - n
        omega
      · exact absurd hc (by simp)
    · simp only [if_neg hn] at hc
      split at hc
      · rename_i h
        omega
      · exact absurd hc (by simp)

/-- Witness of C6: on a 19x19 board the token D4 decodes to column 3 and row
15, and is accepted. -/
theorem decode_coordinate_witness :
    'D' ∈ column_letters ∧ pv_column 'D' = 3
      ∧ pv_row 19 (QString_number 4) = 15
      ∧ (decode_pv_move 19 ('D' :: QString_number 4)).isSome = true := by
  have h := decode_coordinate 19 4 'D' (by decide) (by decide)
  refine ⟨by decide, ?_, ?_, ?_⟩
  · exact h.1.trans (by decide)
  · exact (h.2.1 (by decide)).trans (by decide)
  · exact h.2.2.2.1.mpr (by decide)

/-- C7 as stated fails: a later record with the same first cell overwrites the
mark and the entry.  In the batch of the primary candidate D4 (index 0, 100
visits) and a second candidate at D4 (index 1, 7 visits), both retained, the
cell (3,15) of the primary ends with the letter mark of extra value 1 and with
7 visits. -/
theorem candidate_label_counterexample :
    retained true 0 cand_primary = true
      ∧ first_cell 19 cand_primary = some (3, 15)
      ∧ cand_primary.visits = 100
      ∧ (gtp_eval occupied_rule 19 false true 0 [] no_marks
          [some cand_primary, some cand_same_cell] fresh_eval).m_eval_state.map
          (fun t => t.marks 3 15) = some (mark.letter, 1)
      ∧ (gtp_eval occupied_rule 19 false true 0 [] no_marks
          [some cand_primary, some cand_same_cell] fresh_eval).m_visits (bitpos 19 3 15)
        = 7 := by
  decide

/-- C7 amended: for a retained candidate `r` of a batch whose first PV move decodes to
the cell `c`, the overlay root carries at `c` a letter mark whose extra value
is the number of matching records before `r` in the batch (its zero-based
index in the reported order), and the visit-count array holds at `c` the visit
count of the record; these are the values at the end of the batch provided no
later record has the same first cell. -/
theorem candidate_label {P : Type} (acm : P → Nat → Nat → Option P) (sz : Nat) (prune : Bool)
    (M : Int) (active : P) (am : Nat → Nat → mark × Int) (b : eval_data P)
    (pre post : List (Option candidate)) (r : candidate) (c : Nat × Nat)
    (hreach : M ≤ 0 ∨ (pre.reduceOption.length : Int) < M)
    (hret : retained prune pre.reduceOption.length r = true)
    (hcell : first_cell sz r = some c)
    (hlater : ∀ r2 ∈ post.reduceOption, first_cell sz r2 ≠ some c) :
    (∃ t, (gtp_eval acm sz false prune M active am (pre ++ some r :: post) b).m_eval_state
          = some t
        ∧ t.marks c.1 c.2 = (mark.letter, (pre.reduceOption.length : Int)))
      ∧ (gtp_eval acm sz false prune M active am (pre ++ some r :: post) b).m_visits
          (bitpos sz c.1 c.2) = r.visits := by
  rw [gtp_eval_run acm sz prune M active am _ b (by simp)]
  obtain ⟨r0, hr0⟩ := first_record_exists pre r
  obtain ⟨_, w2, w3⟩ := gtp_eval_loop_retained acm sz prune M pre post r r0 c
    ⟨⟨active, am, []⟩, b.m_winrate, b.m_visits, 1 / 2, 0⟩ rfl hr0 hreach hret hcell hlater
  exact ⟨⟨_, rfl, w3⟩, w2⟩

/-- Witness of C7: in the batch of the primary candidate D4 and the second
candidate Q4 (40 visits), the cell (15,15) of Q4 holds 40 visits and the letter
mark with extra value 1. -/
theorem candidate_label_witness :
    (∃ t, (gtp_eval occupied_rule 19 false true 0 [] no_marks
            [some cand_primary, some cand_second] fresh_eval).m_eval_state = some t
        ∧ t.marks 15 15 = (mark.letter, 1))
      ∧ (gtp_eval occupied_rule 19 false true 0 [] no_marks
          [some cand_primary, some cand_second] fresh_eval).m_visits (bitpos 19 15 15)
        = 40 :=
  candidate_label occupied_rule 19 true 0 [] no_marks fresh_eval
    [some cand_primary] [] cand_second (15, 15) (Or.inl (by decide)) (by decide) (by decide)
    (by simp)

/-- C8 as stated fails: the retained candidate with the PV D4 D4 Q4 has three
tokens that all decode inside the 19x19 board, yet its chain under the overlay
root has the single node D4, because `add_child_move` rejects the second D4 on
the occupied cell and the loop ends there. -/
theorem pv_chain_counterexample :
    longest_in_board 19 cand_repeat.pv = [(3, 15), (3, 15), (15, 15)]
      ∧ (gtp_eval occupied_rule 19 false false 0 [] no_marks [some cand_repeat]
          fresh_eval).m_eval_state.map (fun t => t.children) = some [[(3, 15)]] := by
  decide

/-- C8 amended: for a retained candidate, the chain of overlay nodes hung under
the overlay root consists of the moves of the longest run of leading PV tokens
that decode inside the board and that `add_child_move` accepts one after the
other from the root position (first token as child of the root, each later
one as child of the previous node): the chain is an initial part of the cells
of the longest in-board run, all its moves were accepted, and it is either
that whole run or followed by a cell that `add_child_move` rejected.  When
`add_child_move` accepts every move on the board the chain is exactly the
longest in-board run.  A candidate whose first PV token decodes outside the
board (or whose PV is empty) contributes no node, no mark and no array
entry. -/
theorem pv_chain_construction {P : Type} (acm : P → Nat → Nat → Option P) (sz : Nat)
    (prune : Bool) (M : Int) (pre : List (Option candidate)) (r : candidate)
    (s0 : eval_loop P) (h0 : s0.count = 0)
    (hreach : M ≤ 0 ∨ (pre.reduceOption.length : Int) < M)
    (hret : retained prune pre.reduceOption.length r = true) :
    (∃ chain p t,
        (gtp_eval_loop acm sz prune M (pre ++ [some r]) s0).tree.children
            = (gtp_eval_loop acm sz prune M pre s0).tree.children
              ++ (if chain = [] then [] else [chain])
          ∧ longest_in_board sz r.pv = chain ++ t
          ∧ play_all acm s0.tree.position chain = some p
          ∧ (chain = longest_in_board sz r.pv
            ∨ ∃ c, (longest_in_board sz r.pv)[chain.length]? = some c ∧ acm p c.1 c.2 = none))
      ∧ ((∀ p x y, x < sz → y < sz → acm p x y ≠ none) →
          (gtp_eval_loop acm sz prune M (pre ++ [some r]) s0).tree.children
            = (gtp_eval_loop acm sz prune M pre s0).tree.children
              ++ (if longest_in_board sz r.pv = [] then [] else [longest_in_board sz r.pv]))
      ∧ (first_cell sz r = none →
          (gtp_eval_loop acm sz prune M (pre ++ [some r]) s0).tree
              = (gtp_eval_loop acm sz prune M pre s0).tree
            ∧ (gtp_eval_loop acm sz prune M (pre ++ [some r]) s0).m_winrate
              = (gtp_eval_loop acm sz prune M pre s0).m_winrate
            ∧ (gtp_eval_loop acm sz prune M (pre ++ [some r]) s0).m_visits
              = (gtp_eval_loop acm sz prune M pre s0).m_visits) := by
  obtain ⟨hsnoc, hcount⟩ := gtp_eval_loop_snoc acm sz prune M pre r s0 h0 hreach
  have hret2 : retained prune (gtp_eval_loop acm sz prune M pre s0).count r = true := by
    rw [hcount]; exact hret
  have hch := gtp_eval_record_children acm sz prune r _ hret2
  rw [gtp_eval_loop_position] at hch
  rw [hsnoc]
  refine ⟨?_, ?_, ?_⟩
  · obtain ⟨⟨t, ht⟩, p, hp, hmax⟩ := pv_chain_spec acm sz s0.tree.position r.pv
    exact ⟨_, p, t, hch, ht, hp, hmax⟩
  · intro hall
    rw [hch, pv_chain_total acm sz _ _ hall]
  · intro hout
    exact gtp_eval_record_outside acm sz prune r _ hout

/-- Witness of C8 amended, on a 19x19 board.  A chain that is built: with an
`add_child_move` that accepts every move, the candidate with the PV D4 Q16 hangs
the chain D4, Q16 under the root.  A chain that is cut: the candidate with the
PV D4 Z1 Q4 hangs the single node D4, the token Z1 ends the chain.  A chain
that is rejected: with the rule that rejects an occupied cell, the chain of the
candidate with the PV D4 D4 Q4 is the single node D4 and the next cell is
rejected.  No chain: the candidate whose first PV token is Z1 contributes no
node, no mark and no array entry. -/
theorem pv_chain_construction_witness :
    (gtp_eval_loop free_rule 19 true 0 ([] ++ [some cand_primary]) fresh_loop).tree.children
        = [[(3, 15), (15, 3)]]
      ∧ (gtp_eval_loop free_rule 19 true 0 ([] ++ [some cand_cut]) fresh_loop).tree.children
        = [[(3, 15)]]
      ∧ ((gtp_eval_loop occupied_rule 19 true 0 ([] ++ [some cand_repeat])
            fresh_loop).tree.children = [[(3, 15)]]
          ∧ occupied_rule [(3, 15)] 3 15 = none)
      ∧ ((gtp_eval_loop occupied_rule 19 true 0 ([] ++ [some cand_outside]) fresh_loop).tree
          = (gtp_eval_loop occupied_rule 19 true 0 [] fresh_loop).tree
        ∧ (gtp_eval_loop occupied_rule 19 true 0 ([] ++ [some cand_outside])
            fresh_loop).m_winrate
          = (gtp_eval_loop occupied_rule 19 true 0 [] fresh_loop).m_winrate
        ∧ (gtp_eval_loop occupied_rule 19 true 0 ([] ++ [some cand_outside])
            fresh_loop).m_visits
          = (gtp_eval_loop occupied_rule 19 true 0 [] fresh_loop).m_visits) := by
  refine ⟨?_, ?_, ?_, ?_⟩
  · exact ((pv_chain_construction free_rule 19 true 0 [] cand_primary fresh_loop rfl
      (Or.inl (by decide)) (by decide)).2.1 (fun _ _ _ _ _ => by simp [free_rule])).trans
      (by decide)
  · exact ((pv_chain_construction free_rule 19 true 0 [] cand_cut fresh_loop rfl
      (Or.inl (by decide)) (by decide)).2.1 (fun _ _ _ _ _ => by simp [free_rule])).trans
      (by decide)
  · obtain ⟨chain, p, t, hch, hl, hp, hmax⟩ :=
      (pv_chain_construction occupied_rule 19 true 0 [] cand_repeat fresh_loop rfl
        (Or.inl (by decide)) (by decide)).1
    have hlong : longest_in_board 19 cand_repeat.pv = [(3, 15), (3, 15), (15, 15)] := by
      decide
    have hpos : fresh_loop.tree.position = [] := rfl
    have hpre : (gtp_eval_loop occupied_rule 19 true 0 [] fresh_loop).tree.children = [] := rfl
    rw [hlong] at hl hmax
    rw [hpos] at hp
    rw [hpre] at hch
    refine ⟨?_, by decide⟩
    match chain, hch, hl, hp, hmax with
    | [], _, _, hp, hmax =>
      exfalso
      simp only [play_all, Option.some.injEq] at hp
      subst hp
      rcases hmax with h | ⟨c, hc, hr⟩
      · exact absurd h (by simp)
      · simp only [List.length_nil, List.getElem?_cons_zero, Option.some.injEq] at hc
        subst hc
        exact absurd hr (by decide)
    | [a], hch, hl, _, _ =>
      simp only [List.singleton_append, List.cons.injEq] at hl
      rw [hch, ← hl.1]
      simp
    | a :: b :: rest, _, hl, hp, _ =>
      exfalso
      simp only [List.cons_append, List.cons.injEq] at hl
      obtain ⟨ha, hb, _⟩ := hl
      subst ha
      subst hb
      simp [play_all, occupied_rule] at hp
  · exact (pv_chain_construction occupied_rule 19 true 0 [] cand_outside fresh_loop rfl
      (Or.inl (by decide)) (by decide)).2.2 (by decide)

/-- C9: for every batch the number of retained candidates is at most 52, and
at most min(52, M) when the configured maximum `M` is positive; the overlay
root has at most one child per retained candidate; and with `M` positive no
record after the first `M` matching records is processed: the result is that
of the batch cut after them. -/
theorem candidate_caps {P : Type} (acm : P → Nat → Nat → Option P) (sz : Nat) (prune : Bool)
    (M : Int) (active : P) (am : Nat → Nat → mark × Int) (b : eval_data P)
    (moves : List (Option candidate)) :
    (retained_records prune M moves 0).length ≤ 52
      ∧ (0 < M → ((retained_records prune M moves 0).length : Int) ≤ min 52 M)
      ∧ (∀ t, moves ≠ [] →
          (gtp_eval acm sz false prune M active am moves b).m_eval_state = some t →
          t.children.length ≤ (retained_records prune M moves 0).length)
      ∧ (0 < M → ∀ pre post, moves = pre ++ post → M ≤ (pre.reduceOption.length : Int) →
          gtp_eval acm sz false prune M active am moves b
            = gtp_eval acm sz false prune M active am pre b) := by
  have h52 := retained_records_le prune M moves 0
  refine ⟨?_, ?_, ?_, ?_⟩
  · have : max (0 : Int) (52 - 0) = 52 := by norm_num
    rw [this] at h52
    exact_mod_cast h52
  · intro hM
    have hmax := retained_records_le_max prune M moves 0 hM hM
    have : max (0 : Int) (52 - 0) = 52 := by norm_num
    rw [this] at h52
    exact le_min h52 (by simpa using hmax)
  · intro t hne ht
    rw [gtp_eval_run acm sz prune M active am moves b hne] at ht
    simp only [Option.some.injEq] at ht
    subst ht
    have := gtp_eval_loop_children_le acm sz prune M moves
      ⟨⟨active, am, []⟩, b.m_winrate, b.m_visits, 1 / 2, 0⟩
    simpa using this
  · intro hM pre post hsplit hfull
    subst hsplit
    have hpre : pre ≠ [] := by
      intro h
      subst h
      simp at hfull
      omega
    rw [gtp_eval_run acm sz prune M active am (pre ++ post) b (by simp [hpre]),
      gtp_eval_run acm sz prune M active am pre b hpre,
      gtp_eval_loop_cutoff acm sz prune M pre post _ hM hM (by simpa using hfull)]

/-- Witness of C9: with the maximum 1, the batch of the candidates D4 and Q4
gives the result of the batch with D4 alone. -/
theorem candidate_caps_witness :
    (0 : Int) < 1
      ∧ gtp_eval occupied_rule 19 false true 1 [] no_marks
          [some cand_primary, some cand_second] fresh_eval
        = gtp_eval occupied_rule 19 false true 1 [] no_marks [some cand_primary] fresh_eval :=
  ⟨by decide, (candidate_caps occupied_rule 19 true 1 [] no_marks fresh_eval
    [some cand_primary, some cand_second]).2.2.2 (by decide) [some cand_primary]
    [some cand_second] rfl (by decide)⟩

/-- C10 as stated fails: after a first report with the candidates D4 and Q4, a
second report for the same position whose only candidate is C3 leaves the
visit count 40 of the first report at the cell (15,15) of Q4, which is not the
first PV move of any candidate of the second report; the claim requires 0
there. -/
theorem full_replacement_counterexample :
    (gtp_eval occupied_rule 19 false false 0 [] no_marks [some cand_single]
        after_first_report).m_visits (bitpos 19 15 15) = 40
      ∧ first_cell 19 cand_single = some (2, 16) := by
  decide

/-- C10 amended: when `Board::gtp_eval` processes a non-suppressed, non-empty
report batch, the overlay tree and the baseline depend only on that batch and
the active position, not on what was stored before (they are the same from any
two earlier states `b` and `b2`); the per-cell arrays are not reset: every
entry that does not belong to the first PV move of a record of this batch
keeps the value it had before the call. -/
theorem full_replacement {P : Type} (acm : P → Nat → Nat → Option P) (sz : Nat) (prune : Bool)
    (M : Int) (active : P) (am : Nat → Nat → mark × Int) (b b2 : eval_data P)
    (moves : List (Option candidate)) (hne : moves ≠ []) :
    (gtp_eval acm sz false prune M active am moves b).m_eval_state
        = (gtp_eval acm sz false prune M active am moves b2).m_eval_state
      ∧ (gtp_eval acm sz false prune M active am moves b).m_primary_eval
        = (gtp_eval acm sz false prune M active am moves b2).m_primary_eval
      ∧ (∀ idx, (∀ r ∈ moves.reduceOption, ∀ c, first_cell sz r = some c →
            idx ≠ bitpos sz c.1 c.2) →
          (gtp_eval acm sz false prune M active am moves b).m_winrate idx = b.m_winrate idx
            ∧ (gtp_eval acm sz false prune M active am moves b).m_visits idx
              = b.m_visits idx) := by
  rw [gtp_eval_run acm sz prune M active am moves b hne,
    gtp_eval_run acm sz prune M active am moves b2 hne]
  obtain ⟨a1, a2⟩ := gtp_eval_loop_agree acm sz prune M moves
    ⟨⟨active, am, []⟩, b.m_winrate, b.m_visits, 1 / 2, 0⟩
    ⟨⟨active, am, []⟩, b2.m_winrate, b2.m_visits, 1 / 2, 0⟩ rfl rfl rfl
  refine ⟨by rw [a1], a2, ?_⟩
  intro idx hidx
  exact gtp_eval_loop_index acm sz prune M moves _ idx hidx

/-- Witness of C10 amended: the second report with the only candidate C3 keeps
the earlier entries of the cell (15,15) and builds the same overlay as from
fresh arrays. -/
theorem full_replacement_witness :
    (gtp_eval occupied_rule 19 false false 0 [] no_marks [some cand_single]
        after_first_report).m_eval_state
        = (gtp_eval occupied_rule 19 false false 0 [] no_marks [some cand_single]
            fresh_eval).m_eval_state
      ∧ (gtp_eval occupied_rule 19 false false 0 [] no_marks [some cand_single]
          after_first_report).m_visits (bitpos 19 15 15)
        = after_first_report.m_visits (bitpos 19 15 15) := by
  have h := full_replacement occupied_rule 19 false 0 [] no_marks after_first_report
    fresh_eval [some cand_single] (by decide)
  exact ⟨h.1, (h.2.2 (bitpos 19 15 15) (by decide)).2⟩

/-! ## Malformed records, stale batches and suppression -/

theorem gtp_eval_loop_malformed {P : Type} (acm : P → Nat → Nat → Option P) (sz : Nat)
    (prune : Bool) (M : Int) (pre post : List (Option candidate)) (s : eval_loop P) :
    gtp_eval_loop acm sz prune M (pre ++ none :: post) s
      = gtp_eval_loop acm sz prune M (pre ++ post) s := by
  induction pre generalizing s with
  | nil => simp [gtp_eval_loop]
  | cons e pre ih =>
    cases e with
    | none => simp only [List.cons_append, gtp_eval_loop]; exact ih s
    | some r =>
      simp only [List.cons_append, gtp_eval_loop]
      split
      · rfl
      · exact ih _

theorem gtp_eval_tree_position {P : Type} (acm : P → Nat → Nat → Option P) (sz : Nat)
    (prune : Bool) (M : Int) (active : P) (am : Nat → Nat → mark × Int)
    (moves : List (Option candidate)) (b : eval_data P) (hne : moves ≠ []) :
    ∃ t, (gtp_eval acm sz false prune M active am moves b).m_eval_state = some t
      ∧ t.position = active := by
  rw [gtp_eval_run acm sz prune M active am moves b hne]
  exact ⟨_, rfl, gtp_eval_loop_position acm sz prune M moves _⟩

/-- C11 as stated fails: a batch whose only piece does not parse replaces the
overlay of the earlier report by a bare root without children, whereas the
same batch with that piece removed is empty and leaves the overlay (two
chains) as it was. -/
theorem malformed_only_counterexample :
    (gtp_eval occupied_rule 19 false true 0 [] no_marks [none]
        after_first_report).m_eval_state.map (fun t => t.children) = some []
      ∧ (gtp_eval occupied_rule 19 false true 0 [] no_marks []
          after_first_report).m_eval_state.map (fun t => t.children)
        = some [[(3, 15), (15, 3)], [(15, 15), (3, 3)]] := by
  decide

/-- C11 amended: a piece of the batch that does not parse is skipped and the
other pieces are processed as without it: provided at least one other piece
remains in the batch, the members of `Board` after `gtp_eval` (overlay tree
with its letter marks, both arrays, baseline) equal those obtained from the
batch with that piece removed. -/
theorem malformed_record_skipped {P : Type} (acm : P → Nat → Nat → Option P) (sz : Nat)
    (right_button prune : Bool) (M : Int) (active : P) (am : Nat → Nat → mark × Int)
    (pre post : List (Option candidate)) (b : eval_data P) (hne : pre ++ post ≠ []) :
    gtp_eval acm sz right_button prune M active am (pre ++ none :: post) b
      = gtp_eval acm sz right_button prune M active am (pre ++ post) b := by
  cases right_button with
  | true => simp [gtp_eval]
  | false =>
    rw [gtp_eval_run acm sz prune M active am _ b (by simp),
      gtp_eval_run acm sz prune M active am _ b hne, gtp_eval_loop_malformed]

/-- Witness of C11 amended: a piece that does not parse between the candidates
D4 and Q4. -/
theorem malformed_record_skipped_witness :
    gtp_eval occupied_rule 19 false true 0 [] no_marks
        [some cand_primary, none, some cand_second] fresh_eval
      = gtp_eval occupied_rule 19 false true 0 [] no_marks
        [some cand_primary, some cand_second] fresh_eval :=
  malformed_record_skipped occupied_rule 19 false true 0 [] no_marks [some cand_primary]
    [some cand_second] fresh_eval (by decide)

/-- C12 as stated fails: `gtp_eval` has no notion of epoch.  On the running
board the user navigates (`observed_changed` clears the overlay data and
reseeds), then a report that was requested before arrives: it is processed, an
overlay tree exists again and the visit count 100 of its candidate D4 is
stored, so the overlay tree and the arrays differ from those before the
receipt. -/
theorem stale_batch_counterexample :
    (Board.observed_changed example_access 19 running_board).eval.m_eval_state.isSome = false
      ∧ (Board.observed_changed example_access 19 running_board).eval.m_visits
          (bitpos 19 3 15) = 0
      ∧ (Board.gtp_eval example_access occupied_rule 19 false true 0 [some cand_primary]
          (Board.observed_changed example_access 19 running_board)).eval.m_eval_state.isSome
        = true
      ∧ (Board.gtp_eval example_access occupied_rule 19 false true 0 [some cand_primary]
          (Board.observed_changed example_access 19 running_board)).eval.m_visits
          (bitpos 19 3 15) = 100 := by
  decide

/-- C12 amended: `Board::gtp_eval` carries no epoch and ignores no batch for
being stale: whenever a non-empty batch arrives while the right button is not
held, whatever happened since its request, the batch is processed against the
node that is active now: afterwards an overlay tree exists whose root is the
position of the current active node, and a retained candidate whose first PV
move decodes to the cell `c` (no later record sharing that cell) has its letter
mark on the root and its visit count in the array. -/
theorem stale_batch_processed {P : Type} (ga : game_access P)
    (acm : P → Nat → Nat → Option P) (sz : Nat) (prune : Bool) (M : Int) (b : Board P)
    (pre post : List (Option candidate)) (r : candidate) (c : Nat × Nat)
    (hreach : M ≤ 0 ∨ (pre.reduceOption.length : Int) < M)
    (hret : retained prune pre.reduceOption.length r = true)
    (hcell : first_cell sz r = some c)
    (hlater : ∀ r2 ∈ post.reduceOption, first_cell sz r2 ≠ some c) :
    (∃ t, (Board.gtp_eval ga acm sz false prune M (pre ++ some r :: post) b).eval.m_eval_state
          = some t
        ∧ t.position = ga.position b.m_state
        ∧ t.marks c.1 c.2 = (mark.letter, (pre.reduceOption.length : Int)))
      ∧ (Board.gtp_eval ga acm sz false prune M (pre ++ some r :: post) b).eval.m_visits
          (bitpos sz c.1 c.2) = r.visits := by
  obtain ⟨r0, hr0⟩ := first_record_exists pre r
  obtain ⟨_, w2, w3⟩ := gtp_eval_loop_retained acm sz prune M pre post r r0 c
    ⟨⟨ga.position b.m_state, ga.marks b.m_state, []⟩, b.eval.m_winrate, b.eval.m_visits,
      1 / 2, 0⟩ rfl hr0 hreach hret hcell hlater
  simp only [Board.gtp_eval]
  rw [gtp_eval_run acm sz prune M _ _ _ b.eval (by simp)]
  exact ⟨⟨_, rfl, gtp_eval_loop_position acm sz prune M _ _, w3⟩, w2⟩

/-- Witness of C12 amended: the report with the candidate D4 that arrives after
the navigation on the running board. -/
theorem stale_batch_processed_witness :
    (∃ t, (Board.gtp_eval example_access occupied_rule 19 false true 0
              ([] ++ some cand_primary :: [])
              (Board.observed_changed example_access 19 running_board)).eval.m_eval_state
            = some t
        ∧ t.position
            = example_access.position
                (Board.observed_changed example_access 19 running_board).m_state
        ∧ t.marks 3 15 = (mark.letter, 0))
      ∧ (Board.gtp_eval example_access occupied_rule 19 false true 0
            ([] ++ some cand_primary :: [])
            (Board.observed_changed example_access 19 running_board)).eval.m_visits
          (bitpos 19 3 15) = 100 :=
  stale_batch_processed example_access occupied_rule 19 true 0
    (Board.observed_changed example_access 19 running_board) [] [] cand_primary (3, 15)
    (Or.inl (by decide)) (by decide) (by decide) (by simp)

/-- C13: while the right mouse button is held, `Board::gtp_eval` returns at
once: the overlay tree, the baseline and both per-cell arrays, and with them
all members of `Board`, are unchanged, whatever the batch. -/
theorem suppression_discards {P : Type} (ga : game_access P)
    (acm : P → Nat → Nat → Option P) (sz : Nat) (prune : Bool) (M : Int)
    (moves : List (Option candidate)) (b : Board P) :
    gtp_eval acm sz true prune M (ga.position b.m_state) (ga.marks b.m_state) moves b.eval
        = b.eval
      ∧ Board.gtp_eval ga acm sz true prune M moves b = b := by
  constructor
  · simp [gtp_eval]
  · cases b
    simp [Board.gtp_eval, gtp_eval]

/-! ## The analyzer lifecycle: lemmas -/

theorem add_nodes_append (base : game_state) (ds : List node_info) (d : node_info) :
    add_nodes base (ds ++ [d]) = game_state.child d (add_nodes base ds) := by
  induction ds generalizing base with
  | nil => rfl
  | cons a rest ih => simp [add_nodes, ih]

theorem history_nodes_append (base : game_state) (ds : List node_info) (d : node_info) :
    history_nodes base (ds ++ [d])
      = history_nodes base ds ++ [game_state.child d (add_nodes base ds)] := by
  induction ds generalizing base with
  | nil => rfl
  | cons a rest ih => simp [history_nodes, add_nodes, ih]

theorem collect_moves_base (base : game_state)
    (hbase : base.root_node_p = true ∨ base.was_move_p = false) :
    collect_moves base = ([], base) := by
  cases base with
  | root d => rfl
  | child d p =>
    rcases hbase with h | h
    · simp [game_state.root_node_p] at h
    · simp only [game_state.was_move_p, game_state.info] at h
      simp [collect_moves, h]

theorem collect_moves_add_nodes (base : game_state) (ds : List node_info)
    (hbase : base.root_node_p = true ∨ base.was_move_p = false)
    (hds : ∀ d ∈ ds, d.was_move = true) :
    collect_moves (add_nodes base ds) = ((history_nodes base ds).reverse, base) := by
  induction ds using List.reverseRecOn with
  | nil => simpa [add_nodes, history_nodes] using collect_moves_base base hbase
  | append_singleton ds d ih =>
    have hd : d.was_move = true := hds d (by simp)
    have ih2 := ih (fun x hx => hds x (by simp [hx]))
    rw [add_nodes_append, history_nodes_append]
    simp only [collect_moves, hd, Bool.not_false, Bool.and_self, if_true, ih2,
      List.reverse_append, List.reverse_cons, List.reverse_nil, List.nil_append,
      List.singleton_append]

theorem scan_stones_mem (sz : Nat) (stone_at : Nat → Nat → stone_color)
    (c : stone_color) (x y : Nat) :
    gtp_command.played_move c x y ∈ scan_stones sz stone_at
      ↔ (x < sz ∧ y < sz ∧ stone_at x y = c ∧ c ≠ stone_color.none) := by
  simp only [scan_stones, List.mem_flatMap, List.mem_range, List.mem_filterMap]
  constructor
  · rintro ⟨i, hi, j, hj, h⟩
    split at h
    · rename_i hne
      simp only [Option.some.injEq, gtp_command.played_move.injEq] at h
      obtain ⟨h1, h2, h3⟩ := h
      subst h2 h3
      exact ⟨hi, hj, h1, by rw [← h1]; exact hne⟩
    · exact absurd h (by simp)
  · rintro ⟨hx, hy, h, hne⟩
    refine ⟨x, hx, y, hy, ?_⟩
    rw [if_pos (by rw [h]; exact hne), h]

theorem scan_stones_played (sz : Nat) (stone_at : Nat → Nat → stone_color) :
    ∀ cmd ∈ scan_stones sz stone_at, ∃ c x y, cmd = gtp_command.played_move c x y := by
  intro cmd h
  simp only [scan_stones, List.mem_flatMap, List.mem_range, List.mem_filterMap] at h
  obtain ⟨i, _, j, _, h⟩ := h
  split at h
  · simp only [Option.some.injEq] at h
    exact ⟨_, _, _, h.symm⟩
  · exact absurd h (by simp)

theorem reseed_commands_played {P : Type} (ga : game_access P) (sz : Nat)
    (m_state : game_state) :
    ∃ rest, reseed_commands ga sz m_state = gtp_command.clear_board :: rest
      ∧ ∀ cmd ∈ rest, ∃ c x y, cmd = gtp_command.played_move c x y := by
  refine ⟨scan_stones sz (ga.stone_at (collect_moves m_state).2)
    ++ replay_moves ga (collect_moves m_state).1, by simp [reseed_commands], ?_⟩
  intro cmd h
  rcases List.mem_append.mp h with h | h
  · exact scan_stones_played sz _ cmd h
  · simp only [replay_moves, List.mem_map] at h
    obtain ⟨g, _, hg⟩ := h
    exact ⟨_, _, _, hg.symm⟩

theorem reseed_commands_count {P : Type} (ga : game_access P) (sz : Nat)
    (m_state : game_state) :
    (reseed_commands ga sz m_state).count gtp_command.clear_board = 1
      ∧ ∀ cmd ∈ reseed_commands ga sz m_state, cmd.is_analyze = false := by
  obtain ⟨rest, hr, hp⟩ := reseed_commands_played ga sz m_state
  rw [hr]
  constructor
  · rw [List.count_cons_self, List.count_eq_zero.mpr]
    intro h
    obtain ⟨c, x, y, hc⟩ := hp _ h
    exact absurd hc (by simp)
  · intro cmd h
    rcases List.mem_cons.mp h with h | h
    · rw [h]; rfl
    · obtain ⟨c, x, y, hc⟩ := hp _ h
      rw [hc]; rfl

theorem analyzer_state_running {P : Type} (b : Board P)
    (h : b.analyzer_state = analyzer.running) :
    ∃ a, b.m_analyzer = some a ∧ a.started = true ∧ a.stopped = false
      ∧ b.m_pause_eval = false := by
  unfold Board.analyzer_state at h
  cases ha : b.m_analyzer with
  | none => rw [ha] at h; simp at h
  | some a =>
    rw [ha] at h
    simp only at h
    cases h1 : a.stopped <;> cases h2 : a.started <;> cases h3 : b.m_pause_eval <;>
      simp [h1, h2, h3] at h ⊢

theorem analyzer_state_paused {P : Type} (b : Board P)
    (h : b.analyzer_state = analyzer.paused) :
    ∃ a, b.m_analyzer = some a ∧ a.started = true ∧ a.stopped = false
      ∧ b.m_pause_eval = true := by
  unfold Board.analyzer_state at h
  cases ha : b.m_analyzer with
  | none => rw [ha] at h; simp at h
  | some a =>
    rw [ha] at h
    simp only at h
    cases h1 : a.stopped <;> cases h2 : a.started <;> cases h3 : b.m_pause_eval <;>
      simp [h1, h2, h3] at h ⊢

theorem setup_running {P : Type} (ga : game_access P) (sz : Nat) (b : Board P)
    (a : gtp_process) (ha : b.m_analyzer = some a)
    (h : b.analyzer_state = analyzer.running) :
    Board.setup_analyzer_position ga sz b
      = { b with
          m_analyzer := some ((a.send (reseed_commands ga sz b.m_state)).send
            [gtp_command.analyze (ga.to_move b.m_state) 100])
          eval := { clear_eval_data b.eval with
            m_winrate := fun _ => 0, m_visits := fun _ => 0 } } := by
  obtain ⟨a2, ha2, _, _, hp⟩ := analyzer_state_running b h
  simp [Board.setup_analyzer_position, h, ha, hp]

theorem setup_paused {P : Type} (ga : game_access P) (sz : Nat) (b : Board P)
    (a : gtp_process) (ha : b.m_analyzer = some a)
    (h : b.analyzer_state = analyzer.paused) :
    Board.setup_analyzer_position ga sz b
      = { b with
          m_analyzer := some (a.send (reseed_commands ga sz b.m_state))
          eval := clear_eval_data b.eval } := by
  simp [Board.setup_analyzer_position, h, ha]

theorem setup_idle {P : Type} (ga : game_access P) (sz : Nat) (b : Board P)
    (h : b.analyzer_state ≠ analyzer.running ∧ b.analyzer_state ≠ analyzer.paused) :
    Board.setup_analyzer_position ga sz b = b := by
  simp [Board.setup_analyzer_position, h]

theorem history_nodes_last (base : game_state) (ds : List node_info) (hne : ds ≠ []) :
    (history_nodes base ds).getLast? = some (add_nodes base ds) := by
  rcases List.eq_nil_or_concat ds with h | ⟨l, d, h⟩
  · exact absurd h hne
  · subst h
    rw [List.concat_eq_append, history_nodes_append, add_nodes_append]
    simp

theorem published_append {P : Type} (b : Board P) (st : analyzer) :
    ({ b with shown := b.shown ++ [st] } : Board P).published = some st := by
  simp [Board.published]

theorem adapter_ready_unpaused {P : Type} (ga : game_access P) (sz : Nat) (b : Board P)
    (a : gtp_process) (ha : b.m_analyzer = some a) (hstop : a.stopped = false)
    (hp : b.m_pause_eval = false) :
    (Board.adapter_ready ga sz b).published = some analyzer.running
      ∧ (Board.adapter_ready ga sz b).analyzer_state = analyzer.running
      ∧ (Board.adapter_ready ga sz b).m_analyzer.map (fun x => x.sent)
        = some (a.sent ++ reseed_commands ga sz b.m_state
            ++ [gtp_command.analyze (ga.to_move b.m_state) 100]) := by
  refine ⟨?_, ?_, ?_⟩ <;>
    simp [Board.adapter_ready, Board.gtp_startup_success, Board.setup_analyzer_position,
      Board.analyzer_state, Board.published, gtp_process.send, ha, hstop, hp]

/-! ## The analyzer lifecycle: the claims -/

/-- C14: in `Board::setup_analyzer_position`, when the state is running or
paused and the active node is reached from the base (the nearest
ancestor-or-self that is the root or not a move node) through the move nodes
`ds`, the calls added to those already sent are, in this order: `clear_board`;
one `played_move` for every stone of the base position, in the order of the
scan; one `played_move` for each move node from the base to the active node in
chronological order, the active node last; after them the `analyze` request in
the running state.  In every other lifecycle state nothing is sent and nothing
changes. -/
theorem reseed_order {P : Type} (ga : game_access P) (sz : Nat) (b : Board P) :
    ((b.analyzer_state = analyzer.running ∨ b.analyzer_state = analyzer.paused) →
        ∀ (a : gtp_process) (base : game_state) (ds : List node_info),
          b.m_analyzer = some a →
          (base.root_node_p = true ∨ base.was_move_p = false) →
          (∀ d ∈ ds, d.was_move = true) →
          b.m_state = add_nodes base ds →
          (∃ a2, (Board.setup_analyzer_position ga sz b).m_analyzer = some a2
              ∧ a2.sent = a.sent
                  ++ ([gtp_command.clear_board]
                    ++ scan_stones sz (ga.stone_at base)
                    ++ (history_nodes base ds).map (fun g =>
                        gtp_command.played_move (ga.get_move_color g) g.get_move_x
                          g.get_move_y))
                  ++ (if b.analyzer_state = analyzer.running then
                        [gtp_command.analyze (ga.to_move b.m_state) 100]
                      else []))
            ∧ (∀ c x y, gtp_command.played_move c x y ∈ scan_stones sz (ga.stone_at base)
                ↔ (x < sz ∧ y < sz ∧ ga.stone_at base x y = c ∧ c ≠ stone_color.none))
            ∧ (ds ≠ [] → (history_nodes base ds).getLast? = some b.m_state))
      ∧ ((b.analyzer_state ≠ analyzer.running ∧ b.analyzer_state ≠ analyzer.paused) →
          Board.setup_analyzer_position ga sz b = b) := by
  refine ⟨?_, setup_idle ga sz b⟩
  intro hst a base ds ha hbase hds hm
  have hcol := collect_moves_add_nodes base ds hbase hds
  have hres : reseed_commands ga sz b.m_state
      = [gtp_command.clear_board] ++ scan_stones sz (ga.stone_at base)
        ++ (history_nodes base ds).map (fun g =>
            gtp_command.played_move (ga.get_move_color g) g.get_move_x g.get_move_y) := by
    simp only [reseed_commands, replay_moves, hm, hcol, List.reverse_reverse]
  refine ⟨?_, scan_stones_mem sz _, fun hne => by rw [hm]; exact history_nodes_last base ds hne⟩
  rcases hst with h | h
  · rw [setup_running ga sz b a ha h, if_pos h]
    exact ⟨_, rfl, by simp [gtp_process.send, hres]⟩
  · rw [setup_paused ga sz b a ha h, if_neg (by rw [h]; decide)]
    exact ⟨_, rfl, by simp [gtp_process.send, hres]⟩

/-- Witness of C14: on the running board of the example game the adapter
receives `clear_board`, the handicap stone, the two moves in the order played
and the `analyze` request; on the board without analyzer nothing changes. -/
theorem reseed_order_witness :
    (∃ a2, (Board.setup_analyzer_position example_access 19 running_board).m_analyzer = some a2
        ∧ a2.sent = [] ++ ([gtp_command.clear_board]
              ++ scan_stones 19 (example_access.stone_at empty_root)
              ++ (history_nodes empty_root [⟨true, false, 4, 4⟩, ⟨true, false, 15, 15⟩]).map
                  (fun g => gtp_command.played_move (example_access.get_move_color g)
                    g.get_move_x g.get_move_y))
            ++ (if running_board.analyzer_state = analyzer.running then
                  [gtp_command.analyze (example_access.to_move running_board.m_state) 100]
                else []))
      ∧ Board.setup_analyzer_position example_access 19 idle_board = idle_board :=
  ⟨((reseed_order example_access 19 running_board).1 (Or.inl (by decide)) ⟨true, false, []⟩
      empty_root [⟨true, false, 4, 4⟩, ⟨true, false, 15, 15⟩] rfl (Or.inl rfl) (by decide)
      rfl).1,
    (reseed_order example_access 19 idle_board).2 (by decide)⟩

/-- C15, the code at the failing input: after start, adapter ready, pause, an
unexpected exit of the engine and a new start, the lifecycle is starting with
the pause flag of the earlier run still set.  When the adapter then reports
ready, `gtp_startup_success` publishes running, but `analyzer_state` is paused
and the reseed is followed by no `analyze` request. -/
theorem startup_after_paused_exit :
    restarted_board.analyzer_state = analyzer.starting
      ∧ restarted_board.m_pause_eval = true
      ∧ (Board.adapter_ready example_access 19 restarted_board).published
        = some analyzer.running
      ∧ (Board.adapter_ready example_access 19 restarted_board).analyzer_state
        = analyzer.paused
      ∧ (Board.adapter_ready example_access 19 restarted_board).m_analyzer.map
          (fun a => a.sent)
        = some [gtp_command.clear_board, gtp_command.played_move stone_color.black 3 3,
            gtp_command.played_move stone_color.black 4 4,
            gtp_command.played_move stone_color.white 15 15] := by
  decide

/-- C16 as stated fails: on the paused board a change of the active node
reseeds the adapter but issues no `analyze` request: no call sent to the
adapter is an `analyze`. -/
theorem navigation_paused_counterexample :
    paused_board.analyzer_state = analyzer.paused
      ∧ (Board.observed_changed example_access 19 paused_board).m_analyzer.map
          (fun a => a.sent)
        = some [gtp_command.pause_analysis, gtp_command.clear_board,
            gtp_command.played_move stone_color.black 3 3,
            gtp_command.played_move stone_color.black 4 4,
            gtp_command.played_move stone_color.white 15 15] := by
  decide

/-- C16 amended: when the active node changes (`Board::observed_changed`) while
the lifecycle state is running, the adapter is reseeded exactly once (one
`clear_board` followed by the replay) and then receives one `analyze` request
for the colour to move of the new active node; while the state is paused, the
adapter is reseeded exactly once and receives no `analyze` request.  In both
states the overlay data is cleared: no overlay tree remains and both per-cell
arrays are all-zero. -/
theorem navigation_reseed {P : Type} (ga : game_access P) (sz : Nat) (b : Board P)
    (a : gtp_process) (ha : b.m_analyzer = some a) :
    (b.analyzer_state = analyzer.running →
        (Board.observed_changed ga sz b).m_analyzer.map (fun x => x.sent)
            = some (a.sent ++ reseed_commands ga sz b.m_state
                ++ [gtp_command.analyze (ga.to_move b.m_state) 100])
          ∧ (Board.observed_changed ga sz b).eval.m_eval_state = none
          ∧ (∀ idx, (Board.observed_changed ga sz b).eval.m_winrate idx = 0)
          ∧ (∀ idx, (Board.observed_changed ga sz b).eval.m_visits idx = 0))
      ∧ (b.analyzer_state = analyzer.paused →
          (Board.observed_changed ga sz b).m_analyzer.map (fun x => x.sent)
              = some (a.sent ++ reseed_commands ga sz b.m_state)
            ∧ (Board.observed_changed ga sz b).eval.m_eval_state = none
            ∧ (∀ idx, (Board.observed_changed ga sz b).eval.m_winrate idx = 0)
            ∧ (∀ idx, (Board.observed_changed ga sz b).eval.m_visits idx = 0))
      ∧ (reseed_commands ga sz b.m_state).count gtp_command.clear_board = 1
      ∧ (∀ cmd ∈ reseed_commands ga sz b.m_state, cmd.is_analyze = false) := by
  refine ⟨?_, ?_, (reseed_commands_count ga sz b.m_state).1,
    (reseed_commands_count ga sz b.m_state).2⟩
  · intro h
    simp only [Board.observed_changed]
    rw [setup_running ga sz b a ha h]
    exact ⟨by simp [gtp_process.send], rfl, fun _ => rfl, fun _ => rfl⟩
  · intro h
    simp only [Board.observed_changed]
    rw [setup_paused ga sz b a ha h]
    exact ⟨by simp [gtp_process.send], rfl, fun _ => rfl, fun _ => rfl⟩

/-- Witness of C16 amended: the running and the paused board of the example
game, which both show the overlay of a first report (100 visits at D4) that the
navigation clears. -/
theorem navigation_reseed_witness :
    running_board.eval.m_visits (bitpos 19 3 15) = 100
      ∧ ((Board.observed_changed example_access 19 running_board).m_analyzer.map
            (fun x => x.sent)
          = some ([] ++ reseed_commands example_access 19 running_board.m_state
              ++ [gtp_command.analyze (example_access.to_move running_board.m_state) 100])
        ∧ (Board.observed_changed example_access 19 running_board).eval.m_eval_state = none
        ∧ (∀ idx, (Board.observed_changed example_access 19 running_board).eval.m_winrate idx
            = 0)
        ∧ (∀ idx, (Board.observed_changed example_access 19 running_board).eval.m_visits idx
            = 0))
      ∧ ((Board.observed_changed example_access 19 paused_board).m_analyzer.map
            (fun x => x.sent)
          = some ([gtp_command.pause_analysis]
              ++ reseed_commands example_access 19 paused_board.m_state)
        ∧ (Board.observed_changed example_access 19 paused_board).eval.m_eval_state = none
        ∧ (∀ idx, (Board.observed_changed example_access 19 paused_board).eval.m_winrate idx
            = 0)
        ∧ (∀ idx, (Board.observed_changed example_access 19 paused_board).eval.m_visits idx
            = 0)) :=
  ⟨by decide,
    (navigation_reseed example_access 19 running_board ⟨true, false, []⟩ rfl).1 (by decide),
    (navigation_reseed example_access 19 paused_board
      ⟨true, false, [gtp_command.pause_analysis]⟩ rfl).2.1 (by decide)⟩

/-- C17 as stated fails: on the running board that shows the overlay of a
report, `pause_analysis (true)` leaves the overlay tree in place and the visit
count 40 at the cell (15,15): the overlay data is not cleared. -/
theorem pause_keeps_overlay_counterexample :
    running_board.analyzer_state = analyzer.running
      ∧ (Board.pause_analysis example_access true running_board).eval.m_eval_state.isSome
        = true
      ∧ (Board.pause_analysis example_access true running_board).eval.m_visits
          (bitpos 19 15 15) = 40 := by
  decide

/-- C17 amended: for every running state, `Board::pause_analysis (true)` moves
the lifecycle to paused (published to the window and returned by
`analyzer_state`), sends the adapter the single call `pause_analysis` (no
`quit`), and leaves the overlay data (overlay tree, baseline and both arrays)
as it was. -/
theorem pause_on {P : Type} (ga : game_access P) (b : Board P)
    (h : b.analyzer_state = analyzer.running) :
    (Board.pause_analysis ga true b).analyzer_state = analyzer.paused
      ∧ (Board.pause_analysis ga true b).published = some analyzer.paused
      ∧ (∃ a, b.m_analyzer = some a
          ∧ (Board.pause_analysis ga true b).m_analyzer
            = some { a with sent := a.sent ++ [gtp_command.pause_analysis] })
      ∧ (Board.pause_analysis ga true b).eval = b.eval := by
  obtain ⟨a, ha, h1, h2, _⟩ := analyzer_state_running b h
  refine ⟨?_, ?_, ⟨a, ha, ?_⟩, ?_⟩ <;>
    simp [Board.pause_analysis, Board.analyzer_state, Board.published, gtp_process.send,
      ha, h1, h2]

/-- Witness of C17 amended: the running board of the example game. -/
theorem pause_on_witness :
    running_board.analyzer_state = analyzer.running
      ∧ (Board.pause_analysis example_access true running_board).analyzer_state
        = analyzer.paused
      ∧ (Board.pause_analysis example_access true running_board).eval = running_board.eval :=
  ⟨by decide, (pause_on example_access running_board (by decide)).1,
    (pause_on example_access running_board (by decide)).2.2.2⟩

/-- C18: for every paused state, `Board::pause_analysis (false)` moves the
lifecycle to running (published to the window and returned by
`analyzer_state`), sends the adapter exactly one call, the `analyze` request
for the colour to move of the active node, and neither `clear_board` nor
`played_move`; afterwards both per-cell arrays are all-zero. -/
theorem pause_off {P : Type} (ga : game_access P) (b : Board P)
    (h : b.analyzer_state = analyzer.paused) :
    (Board.pause_analysis ga false b).analyzer_state = analyzer.running
      ∧ (Board.pause_analysis ga false b).published = some analyzer.running
      ∧ (∃ a, b.m_analyzer = some a
          ∧ (Board.pause_analysis ga false b).m_analyzer
            = some { a with
                sent := a.sent ++ [gtp_command.analyze (ga.to_move b.m_state) 100] })
      ∧ (∀ idx, (Board.pause_analysis ga false b).eval.m_winrate idx = 0
          ∧ (Board.pause_analysis ga false b).eval.m_visits idx = 0) := by
  obtain ⟨a, ha, h1, h2, _⟩ := analyzer_state_paused b h
  refine ⟨?_, ?_, ⟨a, ha, ?_⟩, ?_⟩ <;>
    simp [Board.pause_analysis, Board.analyzer_state, Board.published, gtp_process.send,
      ha, h1, h2]

/-- Witness of C18: the paused board of the example game receives the one call
`analyze` for black, and its visit count at (15,15) is 0 afterwards. -/
theorem pause_off_witness :
    paused_board.analyzer_state = analyzer.paused
      ∧ (Board.pause_analysis example_access false paused_board).analyzer_state
        = analyzer.running
      ∧ (Board.pause_analysis example_access false paused_board).eval.m_visits
          (bitpos 19 15 15) = 0 :=
  ⟨by decide, (pause_off example_access paused_board (by decide)).1,
    ((pause_off example_access paused_board (by decide)).2.2.2 (bitpos 19 15 15)).2⟩

/-- C20: `Board::analyzer_state` is determined by the presence of the adapter,
its flags `stopped` and `started` and the pause flag, and returns exactly one
of the four lifecycle states: disconnected iff there is no adapter or the
adapter is stopped; starting iff there is a non-stopped adapter that has not
started; paused iff the adapter is started, not stopped and the pause flag is
set; running iff the adapter is started, not stopped and the pause flag is
clear. -/
theorem analyzer_state_cases {P : Type} (b : Board P) :
    (b.analyzer_state = analyzer.disconnected
        ↔ (b.m_analyzer = none ∨ ∃ a, b.m_analyzer = some a ∧ a.stopped = true))
      ∧ (b.analyzer_state = analyzer.starting
        ↔ ∃ a, b.m_analyzer = some a ∧ a.stopped = false ∧ a.started = false)
      ∧ (b.analyzer_state = analyzer.paused
        ↔ ∃ a, b.m_analyzer = some a ∧ a.stopped = false ∧ a.started = true
            ∧ b.m_pause_eval = true)
      ∧ (b.analyzer_state = analyzer.running
        ↔ ∃ a, b.m_analyzer = some a ∧ a.stopped = false ∧ a.started = true
            ∧ b.m_pause_eval = false) := by
  unfold Board.analyzer_state
  cases ha : b.m_analyzer with
  | none => simp
  | some a =>
    cases h1 : a.stopped <;> cases h2 : a.started <;> cases h3 : b.m_pause_eval <;>
      simp [h1, h2, h3]

/-! ## Numbering: abandonment, the end-to-end example and the overlay -/

theorem sync_appearance_counts_none {P : Type} (sz : Nat) (maxdepth curX curY : Int)
    (edit_board_null : Bool) (m_state : game_state) :
    (sync_appearance_counts sz maxdepth curX curY edit_board_null
        (none : Option (overlay P)) m_state).numbers
      = sync_appearance_numbering sz edit_board_null m_state := by
  unfold sync_appearance_counts sync_appearance_numbering history_numbering
  simp only [Option.isSome_none, Bool.not_false, Bool.true_and]
  split <;> rfl

theorem pv_loop_spec (sz : Nat) (d : Int) (chain : List (Nat × Nat)) (cm : Nat → Int)
    (n depth : Int) :
    pv_loop sz d chain cm n depth
      = (record_moves sz
            (chain.take (if d = 0 then chain.length else min chain.length (d - depth).toNat))
            cm n,
          n + ((if d = 0 then chain.length else min chain.length (d - depth).toNat : Nat)
            : Int)) := by
  induction chain generalizing cm n depth with
  | nil => simp [pv_loop, record_moves]
  | cons c rest ih =>
    by_cases hd : d = 0
    · simp only [pv_loop, hd, if_true, List.length_cons, List.take_succ_cons, record_moves]
      have := ih (Function.update cm (bitpos sz c.1 c.2) (n + 1)) (n + 1) depth
      simp only [hd, if_true] at this
      rw [this]
      congr 1
      push_cast
      ring
    · by_cases hlt : depth < d
      · have hk : min (rest.length + 1) (d - depth).toNat
            = min rest.length (d - (depth + 1)).toNat + 1 := by omega
        simp only [pv_loop, hd, if_false, hlt, if_true, List.length_cons, hk,
          List.take_succ_cons, record_moves]
        have := ih (Function.update cm (bitpos sz c.1 c.2) (n + 1)) (n + 1) (depth + 1)
        simp only [hd, if_false] at this
        rw [this]
        congr 1
        push_cast
        ring
      · have hk : min (rest.length + 1) (d - depth).toNat = 0 := by omega
        simp only [pv_loop, hd, if_false, hlt, List.length_cons, hk, List.take_zero,
          record_moves]
        simp

theorem pv_column_encoded :
    ∀ x, x < 25 → pv_column (Char.ofNat (65 + (if x > 7 then x + 1 else x))) = (x : Int) := by
  decide

/-- C24: if the numbering walk from a move node ends on a node that is neither
a move node nor the root (a pass for instance; with or without start-count),
numbering is abandoned: the walk has recorded its provisional values (`n_back`
is the number of moves walked) but `startpos` is reset to null and the
displayed number of every cell is 0, in `sync_appearance` and in
`render_svg`. -/
theorem numbering_abandoned (sz : Nat) (base : game_state) (ms : List (Nat × Nat))
    (hmove : base.was_move_p = false) (hroot : base.root_node_p = false) (hne : ms ≠ []) :
    (sync_appearance_numbering sz true (play_moves base ms)).n_back = ms.length
      ∧ (sync_appearance_numbering sz true (play_moves base ms)).startpos = none
      ∧ (render_svg_numbering sz true true (play_moves base ms)).startpos = none
      ∧ (∀ idx,
          sync_appearance_v (sync_appearance_numbering sz true (play_moves base ms)) idx = 0
            ∧ render_svg_v (render_svg_numbering sz true true (play_moves base ms)) idx = 0) := by
  have hbase : stops_walk base = true := by simp [stops_walk, hmove]
  have hsp : (history_numbering sz true (play_moves base ms) numbering.init).startpos
      = none := by
    rw [history_numbering_startpos sz base ms hbase hne]
    simp [hmove, hroot]
  have hn : (history_numbering sz true (play_moves base ms) numbering.init).n_back
      = ms.length := by
    rw [history_numbering_play_moves sz base ms hbase hne, clear_startpos_n_back]
  exact ⟨hn, hsp, hsp, fun idx => displayed_zero_of_null _ idx hsp⟩

/-- Witness of C24: a pass under the empty root, then (4,4) and (15,15): two
provisional numbers are recorded and none is displayed. -/
theorem numbering_abandoned_witness :
    (sync_appearance_numbering 19 true (play_moves pass_node [(4, 4), (15, 15)])).n_back = 2
      ∧ sync_appearance_v
          (sync_appearance_numbering 19 true (play_moves pass_node [(4, 4), (15, 15)]))
          (bitpos 19 15 15) = 0 := by
  have h := numbering_abandoned 19 pass_node [(4, 4), (15, 15)] rfl rfl (by decide)
  exact ⟨h.1, (h.2.2.2 (bitpos 19 15 15)).1⟩

/-- C26 as stated fails: on the empty 19x19 root, after (4,4) and (15,15), the
walk gives `n_back = 2`, `count_map[(15,15)] = 1` and `count_map[(4,4)] = 2`,
and the formula `n_back - v + 1` gives 1 for (4,4) and 2 for (15,15), not 2 and
1; besides, the root carries no start-count, so the code displays no number at
either cell. -/
theorem end_to_end_numbers_counterexample :
    (sync_appearance_numbering 19 true example_game).n_back = 2
      ∧ (sync_appearance_numbering 19 true example_game).count_map (bitpos 19 15 15) = 1
      ∧ (sync_appearance_numbering 19 true example_game).count_map (bitpos 19 4 4) = 2
      ∧ (sync_appearance_numbering 19 true example_game).n_back
          - (sync_appearance_numbering 19 true example_game).count_map (bitpos 19 4 4) + 1 = 1
      ∧ (sync_appearance_numbering 19 true example_game).n_back
          - (sync_appearance_numbering 19 true example_game).count_map (bitpos 19 15 15) + 1
        = 2
      ∧ sync_appearance_v (sync_appearance_numbering 19 true example_game) (bitpos 19 4 4)
        = 0
      ∧ render_svg_v (render_svg_numbering 19 true true example_game) (bitpos 19 15 15)
        = 0 := by
  decide

/-- C26 amended: on a 19x19 root that carries start-count, after (4,4) and
(15,15), the walk anchored at the second move gives `n_back = 2`,
`count_map[(15,15)] = 1` and `count_map[(4,4)] = 2`, and the reversal formula
`n_back - v + 1` gives the displayed number 1 at (4,4) and 2 at (15,15), in
`sync_appearance` and in `render_svg`. -/
theorem end_to_end_numbers :
    (sync_appearance_numbering 19 true (play_moves counted_root [(4, 4), (15, 15)])).n_back
        = 2
      ∧ (sync_appearance_numbering 19 true
          (play_moves counted_root [(4, 4), (15, 15)])).count_map (bitpos 19 15 15) = 1
      ∧ (sync_appearance_numbering 19 true
          (play_moves counted_root [(4, 4), (15, 15)])).count_map (bitpos 19 4 4) = 2
      ∧ sync_appearance_v
          (sync_appearance_numbering 19 true (play_moves counted_root [(4, 4), (15, 15)]))
          (bitpos 19 4 4) = 1
      ∧ sync_appearance_v
          (sync_appearance_numbering 19 true (play_moves counted_root [(4, 4), (15, 15)]))
          (bitpos 19 15 15) = 2
      ∧ render_svg_v
          (render_svg_numbering 19 true true (play_moves counted_root [(4, 4), (15, 15)]))
          (bitpos 19 4 4) = 1
      ∧ render_svg_v
          (render_svg_numbering 19 true true (play_moves counted_root [(4, 4), (15, 15)]))
          (bitpos 19 15 15) = 2 := by
  decide

/-- C27: in `Board::sync_appearance` with an overlay, when the candidate under
the cursor has the PV chain `chain` (cells of the board, pairwise distinct) and
the depth cap is `d`, the PV moves numbered are exactly the first
`min (L, d)` for `d > 0` and all `L` for `d = 0` (none for a negative cap); the `j`-th of them is
displayed with the number `j` (not inverted, `n_back` being reset to 0), every
other cell, the cells of the history included, has no number, and `max_number`
is the count of numbered moves. -/
theorem pv_numbering_cap {P : Type} (sz : Nat) (d curX curY : Int) (edit_board_null : Bool)
    (t : overlay P) (m_state : game_state) (chain : List (Nat × Nat))
    (hfind : t.find_child_move curX curY = chain)
    (hboard : ∀ c ∈ chain, c.1 < sz ∧ c.2 < sz) (hnd : chain.Nodup) :
    (∀ (j : Nat) (c : Nat × Nat),
        (chain.take (if d = 0 then chain.length else min chain.length d.toNat))[j]? = some c →
        sync_appearance_v
          (sync_appearance_counts sz d curX curY edit_board_null (some t) m_state).numbers
          (bitpos sz c.1 c.2) = j + 1)
      ∧ (∀ idx,
          (∀ c ∈ chain.take (if d = 0 then chain.length else min chain.length d.toNat),
            idx ≠ bitpos sz c.1 c.2) →
          sync_appearance_v
            (sync_appearance_counts sz d curX curY edit_board_null (some t) m_state).numbers
            idx = 0)
      ∧ (sync_appearance_counts sz d curX curY edit_board_null (some t) m_state).max_number
        = ((if d = 0 then chain.length else min chain.length d.toNat : Nat) : Int)
      ∧ (sync_appearance_counts sz d curX curY edit_board_null (some t) m_state).numbers.n_back
        = 0 := by
  have hrun : sync_appearance_counts sz d curX curY edit_board_null (some t) m_state
      = ⟨⟨(pv_loop sz d chain (fun _ => 0) 0 0).1, 0, some overlay_root_node⟩,
          (pv_loop sz d chain (fun _ => 0) 0 0).2⟩ := by
    simp [sync_appearance_counts, hfind]
  rw [hrun, pv_loop_spec]
  simp only [sub_zero, zero_add]
  have hnd2 : ((chain.take (if d = 0 then chain.length else min chain.length d.toNat)).map
      (fun m => bitpos sz m.1 m.2)).Nodup :=
    nodup_bitpos sz _ (fun m hm => hboard m (List.mem_of_mem_take hm))
      (List.Nodup.sublist (List.take_sublist _ _) hnd)
  obtain ⟨r1, r2⟩ := record_moves_spec sz _ (fun _ => 0) 0 hnd2
  refine ⟨?_, ?_, ?_, ?_⟩
  · intro j c hc
    have := r1 j c hc
    simp only [sync_appearance_v, Option.isSome_some, if_true, this]
    simp
  · intro idx hidx
    have := r2 idx hidx
    simp [sync_appearance_v, this]
  · first | rfl | trivial
  · first | rfl | trivial

/-- Witness of C27: the cursor on D4 of the example overlay, whose PV is D4 Q16
K10, with the depth cap 2: D4 shows 1, Q16 shows 2, K10 and the history move
(4,4) show nothing, and `max_number` is 2. -/
theorem pv_numbering_cap_witness :
    sync_appearance_v
        (sync_appearance_counts 19 2 3 15 true (some example_overlay) example_game).numbers
        (bitpos 19 3 15) = 1
      ∧ sync_appearance_v
          (sync_appearance_counts 19 2 3 15 true (some example_overlay) example_game).numbers
          (bitpos 19 15 3) = 2
      ∧ sync_appearance_v
          (sync_appearance_counts 19 2 3 15 true (some example_overlay) example_game).numbers
          (bitpos 19 9 9) = 0
      ∧ sync_appearance_v
          (sync_appearance_counts 19 2 3 15 true (some example_overlay) example_game).numbers
          (bitpos 19 4 4) = 0
      ∧ (sync_appearance_counts 19 2 3 15 true (some example_overlay) example_game).max_number
        = 2 := by
  have h := pv_numbering_cap 19 2 3 15 true example_overlay example_game
    [(3, 15), (15, 3), (9, 9)] (by decide) (by decide) (by decide)
  exact ⟨h.1 0 (3, 15) (by decide), h.1 1 (15, 3) (by decide),
    h.2.1 (bitpos 19 9 9) (by decide), h.2.1 (bitpos 19 4 4) (by decide), h.2.2.1⟩

/-- C28: for every board size `N <= 25` and all `x, y < N`, the decoder of
`Board::gtp_eval` applied to the move text made by `Board::sync_appearance`
(letter `'A' + x`, one further when `x > 7`, then the decimal `N - y`) returns
the cell `(x, y)`. -/
theorem coordinate_round_trip (N x y : Nat) (hN : N ≤ 25) (hx : x < N) (hy : y < N) :
    decode_pv_move N (encode_move N x y) = some (x, y) := by
  have hcol := pv_column_encoded x (by omega)
  have hrow : pv_row N (QString_number (N - y)) = (y : Int) := by
    unfold pv_row
    rw [QString_toInt_number, if_pos (by omega)]
    omega
  simp only [encode_move, decode_pv_move, hcol, hrow]
  rw [if_pos (by omega)]
  simp

/-- Witness of C28: the cell (8,0) of a 19x19 board, written J19. -/
theorem coordinate_round_trip_witness :
    decode_pv_move 19 (encode_move 19 8 0) = some (8, 0) :=
  coordinate_round_trip 19 8 0 (by decide) (by decide) (by decide)

/-! ## Marks, moves, deletion and edit mode: the claims -/

theorem scan_unused_bounds (used : Nat → Bool) (n i : Nat) :
    i ≤ scan_unused used n i ∧ scan_unused used n i ≤ i + n := by
  induction n generalizing i with
  | zero => simp [scan_unused]
  | succ n ih =>
    simp only [scan_unused]
    split
    · omega
    · have := ih (i + 1)
      omega

theorem scan_unused_full (used : Nat → Bool) (n i : Nat)
    (h : ∀ j, i ≤ j → j < i + n → used j = true) : scan_unused used n i = i + n := by
  induction n generalizing i with
  | zero => simp [scan_unused]
  | succ n ih =>
    have hi : used i = true := h i (le_refl _) (by omega)
    simp only [scan_unused, hi, Bool.not_true, Bool.false_eq_true, if_false]
    rw [ih (i + 1) (fun j h1 h2 => h j (by omega) (by omega))]
    omega

theorem gtp_eval_record_letters {P : Type} (acm : P → Nat → Nat → Option P) (sz : Nat)
    (prune : Bool) (am : Nat → Nat → mark × Int) (r : candidate) (s : eval_loop P)
    (hc : 0 ≤ s.count)
    (h : ∀ x y, s.tree.marks x y = am x y
      ∨ ∃ n : Int, s.tree.marks x y = (mark.letter, n) ∧ 0 ≤ n ∧ n < 52) :
    ∀ x y, (gtp_eval_record acm sz prune r s).tree.marks x y = am x y
      ∨ ∃ n : Int, (gtp_eval_record acm sz prune r s).tree.marks x y = (mark.letter, n)
        ∧ 0 ≤ n ∧ n < 52 := by
  intro x y
  cases hret : retained prune s.count r with
  | false =>
    rw [(gtp_eval_record_skipped acm sz prune r s hret).1]
    exact h x y
  | true =>
    have hlt : s.count < 52 := by
      by_contra hge
      have := (retained_false_iff prune s.count r).mpr (Or.inl hge)
      rw [this] at hret
      exact absurd hret (by simp)
    cases hcell : first_cell sz r with
    | none =>
      rw [(gtp_eval_record_outside acm sz prune r s hcell).1]
      exact h x y
    | some c =>
      by_cases hxy : (x, y) = c
      · subst hxy
        exact Or.inr ⟨s.count,
          (gtp_eval_record_written acm sz prune r (x, y) s hret hcell).2.2, hc, hlt⟩
      · by_cases hx : x < sz
        · have hne : first_cell sz r ≠ some (x, y) := by
            rw [hcell]
            intro heq
            exact hxy (Option.some.inj heq).symm
          rw [(gtp_eval_record_other acm sz prune r (x, y) s hx hne).2.2]
          exact h x y
        · have hmark : (gtp_eval_record acm sz prune r s).tree.marks x y = s.tree.marks x y := by
            have hcx := (first_cell_in_board sz hcell).1
            have hxc : ¬ (x = c.1 ∧ y = c.2) := fun hh => hx (by rw [hh.1]; exact hcx)
            unfold first_cell at hcell
            cases hp : r.pv with
            | nil => rw [hp] at hcell; simp at hcell
            | cons pm rest =>
              rw [hp] at hcell
              simp only [List.head?_cons, Option.some_bind] at hcell
              unfold gtp_eval_record
              by_cases h0 : s.count = 0
              · rw [h0] at hret
                simp only [h0, if_true, hret, hp]
                unfold add_candidate
                simp only [hcell]
                cases pv_chain acm sz s.tree.position (pm :: rest) <;>
                  simp [mark_first, hxc]
              · simp only [h0, if_false, hret, if_true, hp]
                unfold add_candidate
                simp only [hcell]
                cases pv_chain acm sz s.tree.position (pm :: rest) <;>
                  simp [mark_first, hxc]
          rw [hmark]
          exact h x y

theorem gtp_eval_loop_letters {P : Type} (acm : P → Nat → Nat → Option P) (sz : Nat)
    (prune : Bool) (M : Int) (am : Nat → Nat → mark × Int) (moves : List (Option candidate))
    (s : eval_loop P) (hc : 0 ≤ s.count)
    (h : ∀ x y, s.tree.marks x y = am x y
      ∨ ∃ n : Int, s.tree.marks x y = (mark.letter, n) ∧ 0 ≤ n ∧ n < 52) :
    ∀ x y, (gtp_eval_loop acm sz prune M moves s).tree.marks x y = am x y
      ∨ ∃ n : Int, (gtp_eval_loop acm sz prune M moves s).tree.marks x y = (mark.letter, n)
        ∧ 0 ≤ n ∧ n < 52 := by
  induction moves generalizing s with
  | nil => exact h
  | cons e rest ih =>
    cases e with
    | none => simp only [gtp_eval_loop]; exact ih s hc h
    | some r =>
      have h1 := gtp_eval_record_letters acm sz prune am r s hc h
      have hc1 : 0 ≤ (gtp_eval_record acm sz prune r s).count := by
        rw [gtp_eval_record_count]; omega
      simp only [gtp_eval_loop]
      split
      · exact h1
      · exact ih _ hc1 h1

/-- C21: `Board::deleteNode` on the root returns at once and changes nothing
(no node is deleted, the active node stays).  On a non-root active node it
hands that node to `delete` and then either throws `std::logic_error` (exactly
when the active node left by the deletion is not the former parent) or returns
with the former parent active and the record marked modified; it never returns
normally with another node active. -/
theorem deleteNode_outcomes (after_delete : game_state → game_state) (b : play_state) :
    (∀ d, b.m_state = game_state.root d → deleteNode after_delete b = Except.ok b)
      ∧ (∀ d parent, b.m_state = game_state.child d parent →
          (after_delete (game_state.child d parent) ≠ parent →
            deleteNode after_delete b = Except.error board_error.logic_error)
          ∧ (after_delete (game_state.child d parent) = parent →
            deleteNode after_delete b
              = Except.ok { b with
                  deleted := b.deleted ++ [game_state.child d parent]
                  m_state := parent
                  modified := true }))
      ∧ (∀ b2, deleteNode after_delete b = Except.ok b2 →
          b2.m_state = (match b.m_state with
            | game_state.root d => game_state.root d
            | game_state.child _ parent => parent)) := by
  refine ⟨?_, ?_, ?_⟩
  · intro d hd
    simp [deleteNode, hd]
  · intro d parent hd
    constructor
    · intro hne
      simp [deleteNode, hd, hne]
    · intro heq
      simp [deleteNode, hd, heq]
  · intro b2 hb2
    cases hm : b.m_state with
    | root d =>
      simp only [deleteNode, hm, Except.ok.injEq] at hb2
      rw [← hb2, hm]
    | child d parent =>
      simp only [deleteNode, hm] at hb2
      split at hb2
      · exact absurd hb2 (by simp)
      · rename_i heq
        simp only [Except.ok.injEq] at hb2
        rw [← hb2]
        simpa using heq

/-- Witness of C21: on the example game, whose active node is the move (15,15),
a deletion that leaves the parent active returns with the parent (the move
(4,4)) active, and a deletion that leaves the root active throws. -/
theorem deleteNode_outcomes_witness :
    (deleteNode (fun st => (st.prev_move).getD st) example_play).toOption.map
        (fun b => b.m_state) = some (play_moves empty_root [(4, 4)])
      ∧ deleteNode (fun _ => empty_root) example_play
        = Except.error board_error.logic_error := by
  have h := (deleteNode_outcomes (fun st => (st.prev_move).getD st) example_play).2.1
    ⟨true, false, 15, 15⟩ (play_moves empty_root [(4, 4)]) rfl
  have h2 := (deleteNode_outcomes (fun _ => empty_root) example_play).2.1
    ⟨true, false, 15, 15⟩ (play_moves empty_root [(4, 4)]) rfl
  refine ⟨?_, h2.1 (by decide)⟩
  rw [h.2 rfl]
  rfl

/-- C22: for every active node and every `(x, y)` for which `add_child_move`
fails, `Board::play_one_move` returns without any effect: the active node, the
modified flag and the observers are unchanged, and no player move is reported
to the window. -/
theorem invalid_move_no_op (player_to_move : Bool) (to_move : game_state → stone_color)
    (add_child_move : game_state → Int → Int → Option game_state) (x y : Int)
    (b : play_state) (hfail : add_child_move b.m_state x y = none) :
    play_one_move player_to_move to_move add_child_move x y b = b
      ∧ (play_one_move player_to_move to_move add_child_move x y b).m_state = b.m_state
      ∧ (play_one_move player_to_move to_move add_child_move x y b).modified = b.modified
      ∧ (play_one_move player_to_move to_move add_child_move x y b).transfers = b.transfers
      ∧ (play_one_move player_to_move to_move add_child_move x y b).player_moves
        = b.player_moves := by
  have h : play_one_move player_to_move to_move add_child_move x y b = b := by
    unfold play_one_move
    cases player_to_move <;> simp [hfail]
  rw [h]
  exact ⟨rfl, rfl, rfl, rfl, rfl⟩

/-- Witness of C22: on the example game the cell (4,4) is occupied, and a move
there changes nothing. -/
theorem invalid_move_no_op_witness :
    example_add_child_move example_play.m_state 4 4 = none
      ∧ play_one_move true example_access.to_move example_add_child_move 4 4 example_play
        = example_play :=
  ⟨by decide,
    (invalid_move_no_op true example_access.to_move example_add_child_move 4 4 example_play
      (by decide)).1⟩

/-- C23: when `Board::setMode` leaves edit mode for normal mode, `replace` is
called on the active node exactly when the node has no children and is the
root or an edit node, and the active node stays; in every other case, if the
edited to-move colour or board differs from the node's, the tree is extended by
`add_child_edit` and the new edit node becomes active (`transfer_observers`),
and if nothing differs no call is made on the tree. -/
theorem setMode_leave_edit {B : Type} [DecidableEq B] (ea : edit_access B)
    (b : edit_state B) (eb0 : B) (hmode : b.m_game_mode = GameMode.modeEdit)
    (hboard : b.m_edit_board = some eb0)
    (hnew : ea.add_child_edit b.m_state (ea.identify_units eb0) b.m_edit_to_move
      ≠ b.m_state) :
    ((ea.n_children b.m_state = 0
          ∧ (b.m_state.root_node_p = true ∨ ea.was_edit_p b.m_state = true)) →
        (setMode ea GameMode.modeNormal b).calls
            = b.calls ++ [tree_call.replace b.m_state (ea.identify_units eb0) b.m_edit_to_move]
          ∧ (setMode ea GameMode.modeNormal b).m_state = b.m_state)
      ∧ (¬ (ea.n_children b.m_state = 0
            ∧ (b.m_state.root_node_p = true ∨ ea.was_edit_p b.m_state = true)) →
          (ea.to_move b.m_state ≠ b.m_edit_to_move
              ∨ ea.get_board b.m_state ≠ ea.identify_units eb0) →
          (setMode ea GameMode.modeNormal b).calls
              = b.calls
                ++ [tree_call.add_child_edit b.m_state (ea.identify_units eb0)
                      b.m_edit_to_move,
                    tree_call.transfer_observers b.m_state
                      (ea.add_child_edit b.m_state (ea.identify_units eb0)
                        b.m_edit_to_move)]
            ∧ (setMode ea GameMode.modeNormal b).m_state
              = ea.add_child_edit b.m_state (ea.identify_units eb0) b.m_edit_to_move)
      ∧ (¬ (ea.n_children b.m_state = 0
            ∧ (b.m_state.root_node_p = true ∨ ea.was_edit_p b.m_state = true)) →
          ¬ (ea.to_move b.m_state ≠ b.m_edit_to_move
              ∨ ea.get_board b.m_state ≠ ea.identify_units eb0) →
          (setMode ea GameMode.modeNormal b).calls = b.calls
            ∧ (setMode ea GameMode.modeNormal b).m_state = b.m_state) := by
  refine ⟨?_, ?_, ?_⟩
  · intro hc
    simp [setMode, hmode, hboard, hc]
  · intro hc hdiff
    simp [setMode, hmode, hboard, hc, hdiff, hnew]
  · intro hc hdiff
    simp [setMode, hmode, hboard, hc, hdiff]

/-- Witness of C23: leaving edit mode on the example game, whose active node is
a move node: the edited board differs, so an edit node is added and becomes
active. -/
theorem setMode_leave_edit_witness :
    (setMode example_edit_access GameMode.modeNormal editing_board).m_state
      = example_edit_access.add_child_edit editing_board.m_state
          (example_edit_access.identify_units [(9, 9), (15, 15), (4, 4)])
          editing_board.m_edit_to_move :=
  ((setMode_leave_edit example_edit_access editing_board [(9, 9), (15, 15), (4, 4)] rfl rfl
    (by decide)).2.1 (by decide) (by decide)).2

/-- C25: every letter mark that `Board::click_add_mark` writes has an extra
value in [0,52) and every number mark it writes has an extra value in [1,256);
when all 52 letters (in letter mode, without Shift) or all numbers 1..255 (in
number mode, left button) are in use it writes no mark; and on the overlay root
built by `Board::gtp_eval` every mark that is not a mark of the active board is
a letter mark with an extra value in [0,52). -/
theorem mark_extra_invariant {P : Type} (acm : P → Nat → Nat → Option P) (sz : Nat)
    (prune : Bool) (M : Int) (active : P) (am : Nat → Nat → mark × Int)
    (moves : List (Option candidate)) (e : eval_data P)
    (button : mouse_button) (shift : Bool) (m_edit_mark : mark)
    (used_letters used_numbers : Nat → Bool) (dialog : Option (List Char)) (x y : Int) :
    (∀ x2 y2 extra,
        click_add_mark button shift m_edit_mark used_letters used_numbers dialog x y
            = some (mark_call.set_mark x2 y2 mark.letter extra) →
          0 ≤ extra ∧ extra < 52)
      ∧ (∀ x2 y2 extra,
          click_add_mark button shift m_edit_mark used_letters used_numbers dialog x y
              = some (mark_call.set_mark x2 y2 mark.num extra) →
            1 ≤ extra ∧ extra < 256)
      ∧ ((∀ i, i < 52 → used_letters i = true) → m_edit_mark = mark.letter → shift = false →
          click_add_mark button shift m_edit_mark used_letters used_numbers dialog x y = none)
      ∧ ((∀ i, 1 ≤ i → i < 256 → used_numbers i = true) → m_edit_mark = mark.num →
          button = mouse_button.LeftButton →
          click_add_mark button shift m_edit_mark used_letters used_numbers dialog x y = none)
      ∧ (∀ t, moves ≠ [] →
          (gtp_eval acm sz false prune M active am moves e).m_eval_state = some t →
          ∀ cx cy, t.marks cx cy = am cx cy
            ∨ ∃ n : Int, t.marks cx cy = (mark.letter, n) ∧ 0 ≤ n ∧ n < 52) := by
  have hl := scan_unused_bounds used_letters 52 0
  have hn := scan_unused_bounds used_numbers 255 1
  refine ⟨?_, ?_, ?_, ?_, ?_⟩
  · intro x2 y2 extra h
    cases button with
    | NoButton => simp [click_add_mark] at h
    | MiddleButton => simp [click_add_mark] at h
    | RightButton =>
      by_cases hm : m_edit_mark = mark.letter
      · simp [click_add_mark, hm] at h
      · simp [click_add_mark, hm] at h
    | LeftButton =>
      by_cases hm : m_edit_mark = mark.letter
      · subst hm
        cases shift with
        | true => cases dialog <;> simp [click_add_mark] at h
        | false =>
          simp [click_add_mark] at h
          obtain ⟨_, _, _, h4⟩ := h
          omega
      · by_cases hnum : m_edit_mark = mark.num
        · subst hnum
          simp [click_add_mark] at h
        · simp [click_add_mark, hm, hnum] at h
  · intro x2 y2 extra h
    cases button with
    | NoButton => simp [click_add_mark] at h
    | MiddleButton => simp [click_add_mark] at h
    | RightButton =>
      by_cases hm : m_edit_mark = mark.letter
      · simp [click_add_mark, hm] at h
      · simp [click_add_mark, hm] at h
    | LeftButton =>
      by_cases hnum : m_edit_mark = mark.num
      · subst hnum
        simp [click_add_mark] at h
        obtain ⟨_, _, _, h4⟩ := h
        omega
      · by_cases hm : m_edit_mark = mark.letter
        · subst hm
          cases shift with
          | true => cases dialog <;> simp [click_add_mark] at h
          | false => simp [click_add_mark] at h
        · simp [click_add_mark, hm, hnum] at h
  · intro hfull hmode hshift
    have hs : scan_unused used_letters 52 0 = 52 := by
      rw [scan_unused_full used_letters 52 0 (fun j _ h2 => hfull j (by omega))]
    subst hmode hshift
    cases button <;> simp [click_add_mark, hs]
  · intro hfull hmode hbutton
    have hs : scan_unused used_numbers 255 1 = 256 := by
      rw [scan_unused_full used_numbers 255 1 (fun j h1 h2 => hfull j h1 (by omega))]
    subst hmode hbutton
    cases shift <;> simp [click_add_mark, hs]
  · intro t hne ht
    rw [gtp_eval_run acm sz prune M active am moves e hne] at ht
    simp only [Option.some.injEq] at ht
    subst ht
    exact gtp_eval_loop_letters acm sz prune M am moves _ (le_refl _)
      (fun _ _ => Or.inl rfl)

/-- Witness of C25.  A letter mark that is written: with the letters 0..4 in
use a left click in letter mode sets the letter 5.  A number mark that is
written: with the numbers 1 and 2 in use a left click in number mode sets the
number 3.  No mark: with all 52 letters, or all numbers, in use the click
writes nothing.  Candidate labels: the overlay root of the batch of the
candidates D4 and Q4 carries the letter 1 at Q4, and each of its marks is a
mark of the (unmarked) active board or a letter in [0,52). -/
theorem mark_extra_invariant_witness :
    (click_add_mark mouse_button.LeftButton false mark.letter (fun i => decide (i < 5))
          (fun _ => false) none 3 3 = some (mark_call.set_mark 3 3 mark.letter 5)
        ∧ (0 : Int) ≤ 5 ∧ (5 : Int) < 52)
      ∧ (click_add_mark mouse_button.LeftButton false mark.num (fun _ => false)
            (fun i => decide (i < 3)) none 3 3 = some (mark_call.set_mark 3 3 mark.num 3)
          ∧ (1 : Int) ≤ 3 ∧ (3 : Int) < 256)
      ∧ click_add_mark mouse_button.LeftButton false mark.letter (fun _ => true)
          (fun _ => false) none 3 3 = none
      ∧ click_add_mark mouse_button.LeftButton false mark.num (fun _ => false) (fun _ => true)
          none 3 3 = none
      ∧ (∃ t, (gtp_eval occupied_rule 19 false true 0 [] no_marks
              [some cand_primary, some cand_second] fresh_eval).m_eval_state = some t
          ∧ t.marks 15 15 = (mark.letter, 1)
          ∧ ∀ cx cy, t.marks cx cy = no_marks cx cy
              ∨ ∃ n : Int, t.marks cx cy = (mark.letter, n) ∧ 0 ≤ n ∧ n < 52) := by
  have hrun := gtp_eval_run occupied_rule 19 true 0 [] no_marks
    [some cand_primary, some cand_second] fresh_eval (by simp)
  have ht : (gtp_eval occupied_rule 19 false true 0 [] no_marks
      [some cand_primary, some cand_second] fresh_eval).m_eval_state
      = some (gtp_eval_loop occupied_rule 19 true 0 [some cand_primary, some cand_second]
          ⟨⟨[], no_marks, []⟩, fresh_eval.m_winrate, fresh_eval.m_visits, 1 / 2, 0⟩).tree := by
    rw [hrun]
  have hl : click_add_mark mouse_button.LeftButton false mark.letter (fun i => decide (i < 5))
      (fun _ => false) none 3 3 = some (mark_call.set_mark 3 3 mark.letter 5) := by decide
  have hn : click_add_mark mouse_button.LeftButton false mark.num (fun _ => false)
      (fun i => decide (i < 3)) none 3 3 = some (mark_call.set_mark 3 3 mark.num 3) := by
    decide
  exact ⟨⟨hl, (mark_extra_invariant occupied_rule 19 true 0 [] no_marks [] fresh_eval
        mouse_button.LeftButton false mark.letter (fun i => decide (i < 5)) (fun _ => false)
        none 3 3).1 3 3 5 hl⟩,
    ⟨hn, (mark_extra_invariant occupied_rule 19 true 0 [] no_marks [] fresh_eval
        mouse_button.LeftButton false mark.num (fun _ => false) (fun i => decide (i < 3))
        none 3 3).2.1 3 3 3 hn⟩,
    (mark_extra_invariant occupied_rule 19 true 0 [] no_marks [] fresh_eval
      mouse_button.LeftButton false mark.letter (fun _ => true) (fun _ => false) none 3
      3).2.2.1 (fun _ _ => rfl) rfl rfl,
    (mark_extra_invariant occupied_rule 19 true 0 [] no_marks [] fresh_eval
      mouse_button.LeftButton false mark.num (fun _ => false) (fun _ => true) none 3
      3).2.2.2.1 (fun _ _ _ => rfl) rfl rfl,
    ⟨_, ht, by decide,
      (mark_extra_invariant occupied_rule 19 true 0 [] no_marks
        [some cand_primary, some cand_second] fresh_eval mouse_button.LeftButton false
        mark.letter (fun _ => true) (fun _ => false) none 3 3).2.2.2.2 _ (by simp) ht⟩⟩

/-- C29 as stated fails: on a position where D4 is occupied, the retained
candidate with the PV D4 Q16 gets no overlay node (`add_child_move` rejects
D4), yet its letter mark and its visit count 100 are left at the cell (3,15)
of D4. -/
theorem mark_without_node_counterexample :
    occupied_rule [(3, 15)] 3 15 = none
      ∧ (gtp_eval occupied_rule 19 false true 0 [(3, 15)] no_marks [some cand_primary]
          fresh_eval).m_eval_state.map (fun t => (t.children, t.marks 3 15))
        = some ([], (mark.letter, 0))
      ∧ (gtp_eval occupied_rule 19 false true 0 [(3, 15)] no_marks [some cand_primary]
          fresh_eval).m_visits (bitpos 19 3 15) = 100 := by
  decide

/-- C29 amended: in `Board::gtp_eval`, for every retained candidate whose first
PV move decodes to a cell `c` of the board, the letter mark, the visit-count
entry and the winrate-delta entry (the double difference of its
`winrate / 10000.` and the baseline, that of the first matching record `r0`)
at `c` are written before `add_child_move` is called, whether or not a node is
created: if `add_child_move` rejects the first move, the overlay root gets no
child for the candidate but the mark and the entries are left; if it accepts
the move, the root gets one new child whose move is `c`. -/
theorem mark_before_node {P : Type} (acm : P → Nat → Nat → Option P) (sz : Nat)
    (prune : Bool) (M : Int) (pre : List (Option candidate)) (r : candidate)
    (s0 : eval_loop P) (c : Nat × Nat) (h0 : s0.count = 0)
    (hreach : M ≤ 0 ∨ (pre.reduceOption.length : Int) < M)
    (hret : retained prune pre.reduceOption.length r = true)
    (hcell : first_cell sz r = some c) :
    ((gtp_eval_loop acm sz prune M (pre ++ [some r]) s0).tree.marks c.1 c.2
        = (mark.letter, (pre.reduceOption.length : Int))
      ∧ (gtp_eval_loop acm sz prune M (pre ++ [some r]) s0).m_visits (bitpos sz c.1 c.2)
        = r.visits
      ∧ ∃ r0, (pre ++ [some r]).reduceOption.head? = some r0
        ∧ (gtp_eval_loop acm sz prune M (pre ++ [some r]) s0).m_winrate (bitpos sz c.1 c.2)
          = round_double (round_double ((r.winrate : ℚ) / 10000)
            - round_double ((r0.winrate : ℚ) / 10000)))
      ∧ (acm s0.tree.position c.1 c.2 = none →
          (gtp_eval_loop acm sz prune M (pre ++ [some r]) s0).tree.children
            = (gtp_eval_loop acm sz prune M pre s0).tree.children)
      ∧ (∀ p, acm s0.tree.position c.1 c.2 = some p →
          ∃ chain, (gtp_eval_loop acm sz prune M (pre ++ [some r]) s0).tree.children
            = (gtp_eval_loop acm sz prune M pre s0).tree.children ++ [c :: chain]) := by
  obtain ⟨r0, hr0⟩ := first_record_exists pre r
  obtain ⟨w1, w2, w3⟩ := gtp_eval_loop_retained acm sz prune M pre [] r r0 c s0 h0 hr0
    hreach hret hcell (by simp)
  obtain ⟨hsnoc, hcount⟩ := gtp_eval_loop_snoc acm sz prune M pre r s0 h0 hreach
  have hret2 : retained prune (gtp_eval_loop acm sz prune M pre s0).count r = true := by
    rw [hcount]; exact hret
  have hch := gtp_eval_record_children acm sz prune r _ hret2
  rw [gtp_eval_loop_position] at hch
  unfold first_cell at hcell
  cases hp : r.pv with
  | nil => rw [hp] at hcell; simp at hcell
  | cons pm rest =>
    rw [hp] at hcell hch
    simp only [List.head?_cons, Option.some_bind] at hcell
    refine ⟨⟨w3, w2, r0, hr0, w1⟩, ?_, ?_⟩
    · intro hrej
      rw [hsnoc, hch]
      simp [pv_chain, hcell, hrej]
    · intro p hacc
      rw [hsnoc, hch]
      exact ⟨pv_chain acm sz p rest, by simp [pv_chain, hcell, hacc]⟩

/-- Witness of C29 amended: on a position where Q4 is occupied, the batch of
the primary candidate D4 (winrate 5000) and the second candidate Q4 (winrate
6000, 40 visits): at the cell (15,15) of Q4 the letter mark 1, the visit count
40 and the winrate delta 0x1.9999999999998p-4 are written, and the root gets
no child for the candidate Q4; the candidate D4, whose move is accepted, gets a
child whose first move is (3,15). -/
theorem mark_before_node_witness :
    ((gtp_eval_loop occupied_rule 19 true 0 ([some cand_primary] ++ [some cand_second])
          ⟨⟨[(15, 15)], no_marks, []⟩, fun _ => 0, fun _ => 0, 1 / 2, 0⟩).tree.marks 15 15
        = (mark.letter, 1)
      ∧ (gtp_eval_loop occupied_rule 19 true 0 ([some cand_primary] ++ [some cand_second])
          ⟨⟨[(15, 15)], no_marks, []⟩, fun _ => 0, fun _ => 0, 1 / 2, 0⟩).m_visits
          (bitpos 19 15 15) = 40
      ∧ (gtp_eval_loop occupied_rule 19 true 0 ([some cand_primary] ++ [some cand_second])
          ⟨⟨[(15, 15)], no_marks, []⟩, fun _ => 0, fun _ => 0, 1 / 2, 0⟩).m_winrate
          (bitpos 19 15 15) = 900719925474099 / 9007199254740992)
      ∧ (gtp_eval_loop occupied_rule 19 true 0 ([some cand_primary] ++ [some cand_second])
          ⟨⟨[(15, 15)], no_marks, []⟩, fun _ => 0, fun _ => 0, 1 / 2, 0⟩).tree.children
        = (gtp_eval_loop occupied_rule 19 true 0 [some cand_primary]
          ⟨⟨[(15, 15)], no_marks, []⟩, fun _ => 0, fun _ => 0, 1 / 2, 0⟩).tree.children
      ∧ (∃ chain, (gtp_eval_loop occupied_rule 19 true 0 ([] ++ [some cand_primary])
            ⟨⟨[(15, 15)], no_marks, []⟩, fun _ => 0, fun _ => 0, 1 / 2, 0⟩).tree.children
          = (gtp_eval_loop occupied_rule 19 true 0 []
              ⟨⟨[(15, 15)], no_marks, []⟩, fun _ => 0, fun _ => 0, 1 / 2, 0⟩).tree.children
            ++ [(3, 15) :: chain]) := by
  have h := mark_before_node occupied_rule 19 true 0 [some cand_primary] cand_second
    ⟨⟨[(15, 15)], no_marks, []⟩, fun _ => 0, fun _ => 0, 1 / 2, 0⟩ (15, 15) rfl
    (Or.inl (by decide)) (by decide) (by decide)
  have h2 := mark_before_node occupied_rule 19 true 0 [] cand_primary
    ⟨⟨[(15, 15)], no_marks, []⟩, fun _ => 0, fun _ => 0, 1 / 2, 0⟩ (3, 15) rfl
    (Or.inl (by decide)) (by decide) (by decide)
  obtain ⟨⟨hm, hv, r0, hr0, hw⟩, hrej, _⟩ := h
  have e0 : r0 = cand_primary := by
    have : some cand_primary = some r0 := hr0
    exact (Option.some.inj this).symm
  have e1 : (cand_second.winrate : ℚ) = 6000 := by norm_num [cand_second]
  have e2 : (cand_primary.winrate : ℚ) = 5000 := by norm_num [cand_primary]
  rw [e0, e1, e2, round_double_six_minus_five] at hw
  exact ⟨⟨hm, hv, hw⟩, hrej (by decide), h2.2.2 _ (by decide : occupied_rule [(15, 15)] 3 15
    = some [(3, 15), (15, 15)])⟩

/-- C30, the code at the failing input: in letter mode with all 52 letters in
use, a click with the right button (no Shift) makes no call at all, so the mark
at (3,3) is not removed; with one letter free the same click requests the
removal, as it does in number mode whatever numbers are in use. -/
theorem right_click_letter_mode_full :
    click_add_mark mouse_button.RightButton false mark.letter (fun _ => true) (fun _ => false)
        none 3 3 = none
      ∧ click_add_mark mouse_button.RightButton false mark.letter (fun i => decide (i ≠ 5))
          (fun _ => false) none 3 3 = some (mark_call.set_mark 3 3 mark.none 5)
      ∧ click_add_mark mouse_button.RightButton false mark.num (fun _ => true) (fun _ => true)
          none 3 3 = some (mark_call.set_mark 3 3 mark.none 0) := by
  decide

end Q5Go
